import Mathlib

/-!
Verification development for the Bestia rules engine
(`engine/deck.py`, `engine/smazzata.py`).

The Python sources are shallowly embedded as pure Lean functions.
Conventions used throughout:

* Python `int` becomes `Int`; Python floor division `//` becomes `Int.fdiv`.
* The seeded shuffle is modelled by passing the post-shuffle deck order as a
  parameter (`deckList`), constrained to be a permutation of the 40-card deck;
  the deck is stored in draw order, so `Deck.draw` (Python `list.pop()` from
  the top) takes the head of the list.
* Python object references to `Player`/`Buco` instances become indices into
  `GameState.players` / `GameState.buchi`.
* Python exceptions become `Except Err`; `Optional` becomes `Option`.
* Python `None` flowing into comparisons with strings (always unequal) is
  modelled with `Option` values compared against `some _`.
* The ghost field `GameState.ghost_removed` records the cards that the Python
  code silently drops (cards swapped away in `_step_cambi` and the card popped
  in `_step_buchi_discard`); it influences nothing else.
-/

namespace Bestia

/-- Suits of the 40-card deck (`SEEDS` in `deck.py`). -/
inductive Suit where
  | bastoni | coppe | denari | spade
  deriving DecidableEq, Repr, Fintype

/-- Card values (`VALUES` in `deck.py`). -/
inductive Value where
  | two | three | four | five | six | seven | fante | cavallo | re | asso
  deriving DecidableEq, Repr, Fintype

/-- A card: a suit (`seed`) and a value, value-equal and hashable as in `deck.py`. -/
structure Card where
  seed : Suit
  value : Value
  deriving DecidableEq, Repr, Fintype

/-- Trick-strength table `RANK_STRENGTH` from `deck.py`
(Asso > 3 > Re > Cavallo > Fante > 7 > 6 > 5 > 4 > 2). -/
def RANK_STRENGTH : Value → Nat
  | .asso => 10
  | .three => 9
  | .re => 8
  | .cavallo => 7
  | .fante => 6
  | .seven => 5
  | .six => 4
  | .five => 3
  | .four => 2
  | .two => 1

/-- Transliteration of `compare_cards` from `deck.py`.  Both the lead suit and
the briscola suit are `Option`s because the Python caller may pass `None`
(comparison of a suit with `None` is always false there). -/
def compare_cards (trick_lead_suit : Option Suit) (briscola_suit : Option Suit)
    (card_a card_b : Card) : Int :=
  let a_is_briscola := some card_a.seed = briscola_suit
  let b_is_briscola := some card_b.seed = briscola_suit
  if a_is_briscola ∧ ¬ b_is_briscola then 1
  else if ¬ a_is_briscola ∧ b_is_briscola then -1
  else if a_is_briscola ∧ b_is_briscola then
    let strength_a := RANK_STRENGTH card_a.value
    let strength_b := RANK_STRENGTH card_b.value
    if strength_a > strength_b then 1
    else if strength_a < strength_b then -1
    else 0
  else
    match trick_lead_suit with
    | none => 0
    | some lead =>
      if card_a.seed ≠ lead ∨ card_b.seed ≠ lead then 0
      else
        let strength_a := RANK_STRENGTH card_a.value
        let strength_b := RANK_STRENGTH card_b.value
        if strength_a > strength_b then 1
        else if strength_a < strength_b then -1
        else 0

/-- Absolute card strength helper `get_card_strength` from `deck.py`. -/
def get_card_strength (card : Card) (briscola_suit : Option Suit) : Nat :=
  let base := RANK_STRENGTH card.value
  if some card.seed = briscola_suit then base + 100 else base

/-- All suits, in the order of `SEEDS`. -/
def allSuits : List Suit := [.bastoni, .coppe, .denari, .spade]

/-- All values, in the order of `VALUES`. -/
def allValues : List Value := [.two, .three, .four, .five, .six, .seven,
  .fante, .cavallo, .re, .asso]

/-- The full 40-card deck in construction order (`Deck.__init__`). -/
def full40 : List Card :=
  allSuits.flatMap (fun s => allValues.map (fun v => Card.mk s v))

/-- The full deck as a multiset, for conservation statements. -/
def full40MS : Multiset Card := (full40 : Multiset Card)

/-! ## Entities (`smazzata.py`) -/

/-- Actor kinds (`ActorType`). -/
inductive ActorKind where
  | player | buco
  deriving DecidableEq, Repr

/-- An `Actor`: a tagged reference to a player index or buco index. -/
structure Actor where
  kind : ActorKind
  id : Nat
  deriving DecidableEq, Repr

/-- Actions (`Action` dataclass: a kind tag plus its payload).  The payload
of `change_cards` is the ordered index pair `[i, j]` as the Python list. -/
inductive ActionT where
  | keep
  | fold
  | servito
  | change_card (index : Nat)
  | change_cards (i j : Nat)
  | take_buco
  | pass
  | discard (card_index : Nat)
  | play_card (card : Card)
  deriving DecidableEq, Repr

/-- Game phases (`Phase`). -/
inductive Phase where
  | deal_decide | cambi | buchi_entry | buchi_discard | play | settle | fine
  deriving DecidableEq, Repr

/-- A `Player` from `smazzata.py`.  The Python object is mutable; here it is a
record stored in `GameState.players` and updated functionally. -/
structure Player where
  name : String
  cards : List Card
  bankroll : Int
  is_playing : Bool
  in_buco : Bool
  tricks_won : Nat
  deriving DecidableEq, Repr

instance : Inhabited Player :=
  ⟨{ name := "", cards := [], bankroll := 0, is_playing := false,
     in_buco := false, tricks_won := 0 }⟩

/-- Fresh player as built by `Player.__init__` (empty hand, flags reset). -/
def Player.init (name : String) (bankroll : Int) : Player :=
  { name, cards := [], bankroll, is_playing := false, in_buco := false,
    tricks_won := 0 }

/-- A `Buco` (side-pot).  Python stores member `Player` object references;
here members are indices into `GameState.players`. -/
structure Buco where
  players : List Nat
  cards : List Card
  buco_id : Nat
  tricks_won : Nat
  discard_pending : Bool
  deriving DecidableEq, Repr

instance : Inhabited Buco :=
  ⟨{ players := [], cards := [], buco_id := 0, tricks_won := 0,
     discard_pending := false }⟩

/-- The mutable aggregate `GameState`.  `decisions` is the Python dict as an
association list (it is written but never read by the engine).  The Python
lists `playing_players` (kept `Player` references) and `Buco.players` are
kept as index lists.  `ghost_removed` is the ghost record of dropped cards
described in the header. -/
structure GameState where
  deck : List Card
  players : List Player
  n_players : Nat
  pot : Int
  dealer : Nat
  briscola_card : Option Card
  briscola_suit : Option Suit
  playing_players : List Nat
  buchi : List Buco
  tricks : List (List (Actor × Card))
  current_trick : List (Actor × Card)
  trick_lead_suit : Option Suit
  trick_winner : Option (Actor × Card)
  dealt_to : List Nat
  decisions : List (Nat × Bool)
  cambi_done : List Nat
  buchi_entry_done : List Nat
  next_buco_id : Nat
  ghost_removed : List Card
  deriving DecidableEq, Repr

/-- The engine state: the game state plus the phase value and the pending
actor (`Engine.phase`, `Engine._current_actor`). -/
structure EngineSt where
  gs : GameState
  phase : Phase
  current_actor : Option Actor
  deriving DecidableEq, Repr

instance : Inhabited GameState :=
  ⟨{ deck := [], players := [], n_players := 0, pot := 0, dealer := 0,
     briscola_card := none, briscola_suit := none, playing_players := [],
     buchi := [], tricks := [], current_trick := [], trick_lead_suit := none,
     trick_winner := none, dealt_to := [], decisions := [], cambi_done := [],
     buchi_entry_done := [], next_buco_id := 0, ghost_removed := [] }⟩

instance : Inhabited EngineSt :=
  ⟨{ gs := default, phase := Phase.fine, current_actor := none }⟩

/-- Error conditions.  `illegalAction` is the `ValueError` raised by
`Engine.step` for actions outside `legal_actions()`; `deckExhausted` is the
`RuntimeError` of `Deck.draw`; `internal` covers the engine-bug
`RuntimeError`s and unreachable lookups; `noActor` is the `RuntimeError`
raised by `step` with no pending actor; `fuel` marks non-termination of the
Python `while True` auto-advance loop. -/
inductive Err where
  | illegalAction
  | deckExhausted
  | internal
  | noActor
  | fuel
  deriving DecidableEq, Repr

/-! ## Small helpers for Python list operations -/

/-- Python `list.remove(x)`: removes the first occurrence (callers check
presence first). -/
def removeFirst : List Card → Card → List Card
  | [], _ => []
  | c :: rest, t => if c = t then rest else c :: removeFirst rest t

/-- Python `list.insert(idx, x)` (clamps an index past the end). -/
def pyInsert : List Card → Nat → Card → List Card
  | l, 0, x => x :: l
  | [], _ + 1, x => [x]
  | c :: rest, n + 1, x => c :: pyInsert rest n x

/-- Player lookup `gs.players[i]` (callers guarantee the index is in range;
Python raises `IndexError` otherwise). -/
def playerAt (gs : GameState) (i : Nat) : Player := gs.players.getD i default

/-- Buco lookup `gs.buchi[j]`. -/
def bucoAt (gs : GameState) (j : Nat) : Buco := gs.buchi.getD j default

/-- In-place player update `gs.players[i] = f gs.players[i]` (no-op out of
range, which is unreachable from valid references). -/
def updPlayer (gs : GameState) (i : Nat) (f : Player → Player) : GameState :=
  { gs with players := gs.players.set i (f (playerAt gs i)) }

/-- In-place buco update. -/
def updBuco (gs : GameState) (j : Nat) (f : Buco → Buco) : GameState :=
  { gs with buchi := gs.buchi.set j (f (bucoAt gs j)) }

/-- `Deck.draw`: pop the top card, `RuntimeError` when empty. -/
def draw : List Card → Except Err (Card × List Card)
  | [] => .error .deckExhausted
  | c :: rest => .ok (c, rest)

/-- A run of n successive draws (the Python `for _ in range(n)` /
list-comprehension draw loops), returning the drawn cards in draw order. -/
def drawN : Nat → List Card → Except Err (List Card × List Card)
  | 0, deck => .ok ([], deck)
  | n + 1, deck =>
    match draw deck with
    | .error e => .error e
    | .ok (c, d1) =>
      match drawN n d1 with
      | .error e => .error e
      | .ok (cs, d2) => .ok (c :: cs, d2)

/-- One iteration of the removal loop in `_step_cambi`: look up
`player.cards[idx]` and `remove` it (first occurrence). -/
def removeIdxCard (cards : List Card) (idx : Nat) : Except Err (List Card × Card) :=
  match cards.get? idx with
  | none => .error .internal
  | some old_card =>
    if old_card ∈ cards then .ok (removeFirst cards old_card, old_card)
    else .error .internal

/-- One iteration of the insertion loop in `_step_cambi`: draw a replacement
and insert it at the original index. -/
def drawInsert (cards : List Card) (deck : List Card) (idx : Nat) :
    Except Err (List Card × List Card) :=
  match draw deck with
  | .error e => .error e
  | .ok (new_card, deck1) => .ok (pyInsert cards idx new_card, deck1)

/-! ## Legal-action generation -/

/-- Transliteration of `Engine._get_mandatory_lead` ("di mano" obligations). -/
def get_mandatory_lead (s : EngineSt) (cards : List Card) : Option Card :=
  let briscola_suit := s.gs.briscola_suit
  let is_di_mano := s.gs.tricks = [] ∧ s.gs.current_trick = []
  if is_di_mano then
    match cards.find? (fun c => some c.seed = briscola_suit ∧ c.value = Value.asso) with
    | some asso_briscola => some asso_briscola
    | none =>
      match s.gs.briscola_card with
      | some bc =>
        if bc.value = Value.asso then
          cards.find? (fun c => some c.seed = briscola_suit ∧ c.value = Value.three)
        else none
      | none => none
  else none

/-- Transliteration of `Engine._legal_play_actions_for_cards`: palo
(follow suit), briscola obligation, and "ammazzare sempre" (must beat). -/
def legal_play_actions_for_cards (s : EngineSt) (cards : List Card) : List ActionT :=
  if cards = [] then []
  else if s.gs.current_trick = [] then
    match get_mandatory_lead s cards with
    | some must_play => [ActionT.play_card must_play]
    | none => cards.map ActionT.play_card
  else
    let lead_suit := s.gs.trick_lead_suit
    let briscola_suit := s.gs.briscola_suit
    let suit_cards := cards.filter (fun c => some c.seed = lead_suit)
    let briscola_cards := cards.filter (fun c => some c.seed = briscola_suit)
    let can_play :=
      if suit_cards ≠ [] then suit_cards
      else if briscola_cards ≠ [] then briscola_cards
      else cards
    let must_play :=
      match s.gs.trick_winner with
      | some w =>
        let winning_card := w.2
        let beating_cards :=
          can_play.filter (fun c => 0 < compare_cards lead_suit briscola_suit c winning_card)
        if beating_cards ≠ [] then beating_cards else can_play
      | none => can_play
    must_play.map ActionT.play_card

/-- Transliteration of `Engine.legal_actions`.  Lookups that would raise
`IndexError` in Python (a dangling actor reference, unreachable in real runs)
yield `[]` here. -/
def legal_actions (s : EngineSt) : List ActionT :=
  match s.current_actor with
  | none => []
  | some actor =>
    match s.phase with
    | .deal_decide =>
      if actor.kind = .player then [ActionT.keep, ActionT.fold] else []
    | .cambi =>
      if actor.kind = .player then
        [ActionT.servito]
          ++ (List.range 3).map ActionT.change_card
          ++ (List.range 3).flatMap (fun i =>
               (List.range 3).filterMap (fun j =>
                 if i + 1 ≤ j then some (ActionT.change_cards i j) else none))
      else []
    | .buchi_entry =>
      if actor.kind = .player then
        let player := playerAt s.gs actor.id
        if player.is_playing = false then [ActionT.take_buco, ActionT.pass] else []
      else []
    | .buchi_discard =>
      if actor.kind = .buco then
        let buco := bucoAt s.gs actor.id
        if buco.cards.length = 4 then (List.range 4).map ActionT.discard else []
      else []
    | .play =>
      if actor.kind = .player then
        legal_play_actions_for_cards s (playerAt s.gs actor.id).cards
      else
        let buco := bucoAt s.gs actor.id
        if buco.players ≠ [] then legal_play_actions_for_cards s buco.cards else []
    | .settle => []
    | .fine => []

/-! ## Turn order and actor resolution -/

/-- `Engine._next_player_to_deal`: first not-yet-dealt seat from dealer's
right, wrapping counter-clockwise. -/
def next_player_to_deal (s : EngineSt) : Option Nat :=
  let n := s.gs.n_players
  let start_idx := (s.gs.dealer + 1) % n
  (List.range n).findSome? (fun offset =>
    let idx := (start_idx + offset) % n
    if idx ∈ s.gs.dealt_to then none else some idx)

/-- `Engine._next_player_for_cambi`. -/
def next_player_for_cambi (s : EngineSt) : Option Nat :=
  let n := s.gs.n_players
  let start_idx := (s.gs.dealer + 1) % n
  (List.range n).findSome? (fun offset =>
    let idx := (start_idx + offset) % n
    let player := playerAt s.gs idx
    if player.is_playing = true ∧ idx ∉ s.gs.cambi_done then some idx else none)

/-- `Engine._next_player_for_buchi_entry`. -/
def next_player_for_buchi_entry (s : EngineSt) : Option Nat :=
  let n := s.gs.n_players
  let start_idx := (s.gs.dealer + 1) % n
  (List.range n).findSome? (fun offset =>
    let idx := (start_idx + offset) % n
    let player := playerAt s.gs idx
    if player.is_playing = false ∧ idx ∉ s.gs.buchi_entry_done then some idx else none)

/-- `Engine._next_buco_for_discard`: first buco with a pending 4-card hand. -/
def next_buco_for_discard (s : EngineSt) : Option Nat :=
  s.gs.buchi.findIdx? (fun buco => buco.discard_pending = true ∧ buco.cards.length = 4)

/-- `Engine._num_active_participants`. -/
def num_active_participants (s : EngineSt) : Nat :=
  s.gs.playing_players.length + s.gs.buchi.length

/-- The ordered list of active participants built inside
`Engine._next_actor_ccw`: for each seat from dealer's right, the kept player,
or the buco represented by that seat (when the seat's player is its first
member). -/
def activeParticipants (s : EngineSt) : List Actor :=
  let n := s.gs.n_players
  let start_idx := (s.gs.dealer + 1) % n
  (List.range n).flatMap (fun offset =>
    let idx := (start_idx + offset) % n
    let player := playerAt s.gs idx
    if player.is_playing = true then [Actor.mk .player idx]
    else if player.in_buco = true then
      match s.gs.buchi.findIdx? (fun buco => idx ∈ buco.players) with
      | some buco_idx =>
        if (bucoAt s.gs buco_idx).players.head? = some idx then
          [Actor.mk .buco buco_idx]
        else []
      | none => []
    else [])

/-- `Engine._next_actor_ccw`: successor of `actor` in the active-participant
rotation (`None` when the actor is not found, as on `list.index` failure). -/
def next_actor_ccw (s : EngineSt) (actor : Actor) : Option Actor :=
  let aps := activeParticipants s
  match aps.findIdx? (fun a => a = actor) with
  | some current_idx => aps.get? ((current_idx + 1) % aps.length)
  | none => none

/-- The winner fold shared by `_update_trick_winner` and `_get_trick_winner`:
start from the first play and keep any strictly greater card. -/
def computeWinner (lead : Option Suit) (brisc : Option Suit) :
    List (Actor × Card) → Option (Actor × Card)
  | [] => none
  | h :: t =>
    some (t.foldl (fun winner p =>
      if 0 < compare_cards lead brisc p.2 winner.2 then p else winner) h)

/-- `Engine._get_trick_winner` for a completed trick: the lead suit is the
first card's suit; an empty trick raises `ValueError`. -/
def get_trick_winner (s : EngineSt) (trick : List (Actor × Card)) :
    Except Err (Actor × Card) :=
  match trick with
  | [] => .error .internal
  | h :: _ =>
    match computeWinner (some h.2.seed) s.gs.briscola_suit trick with
    | some w => .ok w
    | none => .error .internal

/-- `Engine._next_actor_to_play`.  Returns `ok none` where the Python body
falls off the end (no buco and no kept player), which the caller turns into
the fatal `RuntimeError`. -/
def next_actor_to_play (s : EngineSt) : Except Err (Option Actor) :=
  if s.gs.current_trick = [] then
    if s.gs.tricks = [] then
      if s.gs.buchi ≠ [] then .ok (some (Actor.mk .buco 0))
      else
        let n := s.gs.n_players
        let start_idx := (s.gs.dealer + 1) % n
        .ok ((List.range n).findSome? (fun offset =>
          let idx := (start_idx + offset) % n
          if (playerAt s.gs idx).is_playing = true then some (Actor.mk .player idx)
          else none))
    else
      let last_trick := s.gs.tricks.getLastD []
      match get_trick_winner s last_trick with
      | .error e => .error e
      | .ok w => .ok (some w.1)
  else
    match s.gs.current_trick.getLast? with
    | some last => .ok (next_actor_ccw s last.1)
    | none => .error .internal

/-! ## Applying actions (the `Engine._step_*` helpers) -/

/-- `Engine._step_deal_decide`.  The `decisions` dict write is modelled as an
append (the engine never reads it back). -/
def step_deal_decide (s : EngineSt) (actor : Actor) (action : ActionT) :
    Except Err EngineSt :=
  match action with
  | .keep =>
    let player_idx := actor.id
    let gs1 := updPlayer s.gs player_idx (fun p => { p with is_playing := true })
    let gs2 := { gs1 with
      playing_players := gs1.playing_players ++ [player_idx],
      decisions := gs1.decisions ++ [(player_idx, true)] }
    .ok { s with gs := gs2 }
  | .fold =>
    let player_idx := actor.id
    .ok { s with gs := { s.gs with decisions := s.gs.decisions ++ [(player_idx, false)] } }
  | _ => .ok s

/-- `Engine._step_cambi`: exchange 0, 1 or 2 cards; swapped-out cards are
dropped by the source, recorded here in `ghost_removed`.  The two-element
removal/insertion loops of `change_cards` (descending then ascending index
order) are unrolled into two `removeIdxCard` / `drawInsert` steps. -/
def step_cambi (s : EngineSt) (actor : Actor) (action : ActionT) :
    Except Err EngineSt :=
  let player_idx := actor.id
  match action with
  | .servito =>
    .ok { s with gs := { s.gs with cambi_done := s.gs.cambi_done ++ [player_idx] } }
  | .change_card idx =>
    let player := playerAt s.gs player_idx
    match removeIdxCard player.cards idx with
    | .error e => .error e
    | .ok (cards1, old_card) =>
      match drawInsert cards1 s.gs.deck idx with
      | .error e => .error e
      | .ok (cards2, deck1) =>
        let gs1 := updPlayer s.gs player_idx (fun p => { p with cards := cards2 })
        .ok { s with gs := { gs1 with
          deck := deck1,
          ghost_removed := gs1.ghost_removed ++ [old_card],
          cambi_done := gs1.cambi_done ++ [player_idx] } }
  | .change_cards i j =>
    let player := playerAt s.gs player_idx
    let hi := if j ≤ i then i else j
    let lo := if j ≤ i then j else i
    match removeIdxCard player.cards hi with
    | .error e => .error e
    | .ok (cardsA, old1) =>
      match removeIdxCard cardsA lo with
      | .error e => .error e
      | .ok (cards1, old2) =>
        match drawInsert cards1 s.gs.deck lo with
        | .error e => .error e
        | .ok (cardsB, deckA) =>
          match drawInsert cardsB deckA hi with
          | .error e => .error e
          | .ok (cards2, deck1) =>
            let gs1 := updPlayer s.gs player_idx (fun p => { p with cards := cards2 })
            .ok { s with gs := { gs1 with
              deck := deck1,
              ghost_removed := gs1.ghost_removed ++ [old1, old2],
              cambi_done := gs1.cambi_done ++ [player_idx] } }
  | _ =>
    .ok { s with gs := { s.gs with cambi_done := s.gs.cambi_done ++ [player_idx] } }

/-- `Engine._step_buchi_entry`: take the side-pot (drawing 4 cards into it)
or pass; either way the seat is marked decided. -/
def step_buchi_entry (s : EngineSt) (actor : Actor) (action : ActionT) :
    Except Err EngineSt :=
  let player_idx := actor.id
  match action with
  | .take_buco =>
    let player := playerAt s.gs player_idx
    if player.is_playing = true then .error .internal
    else
      match drawN 4 s.gs.deck with
      | .error e => .error e
      | .ok (four, d4) =>
        let buco1 : Buco :=
          { players := [player_idx], cards := four, buco_id := s.gs.next_buco_id,
            tricks_won := 0, discard_pending := true }
        let gs1 := updPlayer s.gs player_idx (fun p => { p with in_buco := true })
        .ok { s with gs := { gs1 with
          next_buco_id := gs1.next_buco_id + 1,
          buchi := gs1.buchi ++ [buco1],
          deck := d4,
          buchi_entry_done := gs1.buchi_entry_done ++ [player_idx] } }
  | _ =>
    .ok { s with gs := { s.gs with
      buchi_entry_done := s.gs.buchi_entry_done ++ [player_idx] } }

/-- `Engine._step_buchi_discard`: pop one of the four cards; the popped card
is dropped by the source, recorded here in `ghost_removed`. -/
def step_buchi_discard (s : EngineSt) (actor : Actor) (action : ActionT) :
    Except Err EngineSt :=
  match action with
  | .discard card_idx =>
    let buco := bucoAt s.gs actor.id
    if h : card_idx < buco.cards.length then
      let discarded := buco.cards.get ⟨card_idx, h⟩
      let gs1 := updBuco s.gs actor.id (fun b =>
        { b with cards := b.cards.eraseIdx card_idx, discard_pending := false })
      .ok { s with gs := { gs1 with ghost_removed := gs1.ghost_removed ++ [discarded] } }
    else .error .internal
  | _ => .ok s

/-- `Engine._update_trick_winner`, recomputing the running winner from the
whole current trick. -/
def update_trick_winner (gs : GameState) : GameState :=
  if gs.current_trick = [] then { gs with trick_winner := none }
  else { gs with trick_winner :=
    computeWinner gs.trick_lead_suit gs.briscola_suit gs.current_trick }

/-- `Engine._step_play`: move the card from the acting hand into the current
trick, set the lead suit on the first play, update the running winner. -/
def step_play (s : EngineSt) (actor : Actor) (action : ActionT) :
    Except Err EngineSt :=
  match action with
  | .play_card card =>
    let res : Except Err GameState :=
      match actor.kind with
      | .player =>
        let player := playerAt s.gs actor.id
        if card ∈ player.cards then
          let gs1 := updPlayer s.gs actor.id (fun p =>
            { p with cards := removeFirst p.cards card })
          Except.ok { gs1 with current_trick := gs1.current_trick ++ [(actor, card)] }
        else Except.error Err.internal
      | .buco =>
        let buco := bucoAt s.gs actor.id
        if card ∈ buco.cards then
          let gs1 := updBuco s.gs actor.id (fun b =>
            { b with cards := removeFirst b.cards card })
          Except.ok { gs1 with current_trick := gs1.current_trick ++ [(actor, card)] }
        else Except.error Err.internal
    match res with
    | .error e => .error e
    | .ok gs1 =>
      let gs2 :=
        if gs1.current_trick.length = 1 then { gs1 with trick_lead_suit := some card.seed }
        else gs1
      .ok { s with gs := update_trick_winner gs2 }
  | _ => .ok s

/-! ## Trick resolution, settlement and the auto-advance loop -/

/-- `Engine._resolve_trick`: archive the current trick (without clearing it)
and award it to the stored running winner. -/
def resolve_trick (s : EngineSt) : Except Err EngineSt :=
  if s.gs.current_trick = [] then .ok s
  else
    match s.gs.trick_winner with
    | none => .error .internal
    | some w =>
      let gs1 := { s.gs with tricks := s.gs.tricks ++ [s.gs.current_trick] }
      match w.1.kind with
      | .player =>
        .ok { s with gs := updPlayer gs1 w.1.id (fun p =>
          { p with tricks_won := p.tricks_won + 1 }) }
      | .buco =>
        .ok { s with gs := updBuco gs1 w.1.id (fun b =>
          { b with tricks_won := b.tricks_won + 1 }) }

/-- `Engine._start_play_phase` / `Engine._start_next_trick` (identical
bodies): reset the per-trick state. -/
def start_next_trick (gs : GameState) : GameState :=
  { gs with current_trick := [], trick_lead_suit := none, trick_winner := none }

/-- A settlement participant: a kept player or a buco
(`participant_tricks` entries in `Engine._settle`). -/
inductive PartRef where
  | player (i : Nat)
  | buco (j : Nat)
  deriving DecidableEq, Repr

/-- The settlement participant list: kept players then buchi. -/
def partRefs (gs : GameState) : List PartRef :=
  gs.playing_players.map PartRef.player
    ++ (List.range gs.buchi.length).map PartRef.buco

/-- Tricks won by a settlement participant. -/
def tricksOfRef (gs : GameState) : PartRef → Nat
  | .player i => (playerAt gs i).tricks_won
  | .buco j => (bucoAt gs j).tricks_won

/-- Bankroll update `player.bankroll += delta` through an index
(the Python code mutates through an object reference, so the index is always
valid; out of range this is a no-op). -/
def updBank (ps : List Player) (i : Nat) (delta : Int) : List Player :=
  match ps.get? i with
  | some p => ps.set i { p with bankroll := p.bankroll + delta }
  | none => ps

/-- Transliteration of `Engine._settle`: piatto salvo check, trick payouts
(`pot // 3` each), bestia penalties, dealer fee (30) and dealer rotation. -/
def settleE (gs : GameState) : GameState :=
  let refs := partRefs gs
  if 3 ≤ refs.length ∧ (∀ r ∈ refs, tricksOfRef gs r = 1) then
    { gs with pot := gs.pot + 30, dealer := (gs.dealer + 1) % gs.n_players }
  else
    let trick_value := gs.pot.fdiv 3
    let players1 := refs.foldl (fun ps r =>
      match r with
      | .player i => updBank ps i ((tricksOfRef gs r : Int) * trick_value)
      | .buco j =>
        let b := bucoAt gs j
        let payout_per_player :=
          ((b.tricks_won : Int) * trick_value).fdiv (b.players.length : Int)
        b.players.foldl (fun ps' p => updBank ps' p payout_per_player) ps)
      gs.players
    let step2 := refs.foldl (fun (acc : List Player × Int) r =>
      if tricksOfRef gs r = 0 then
        match r with
        | .player i => (updBank acc.1 i (-gs.pot), acc.2 + gs.pot)
        | .buco j =>
          let b := bucoAt gs j
          let payment_per_player := gs.pot.fdiv (b.players.length : Int)
          (b.players.foldl (fun ps' p => updBank ps' p (-payment_per_player)) acc.1,
           acc.2 + gs.pot)
      else acc) (players1, (0 : Int))
    { gs with
      players := step2.1
      pot := step2.2 + 30
      dealer := (gs.dealer + 1) % gs.n_players }

/-- Transliteration of `Engine._run_to_next_decision`, the `while True`
auto-advance loop, with explicit fuel (running out of fuel corresponds to the
loop never reaching a decision point). -/
def run_to_next_decision : Nat → EngineSt → Except Err EngineSt
  | 0, _ => .error .fuel
  | fuel + 1, s =>
    match s.phase with
    | .deal_decide =>
      match next_player_to_deal s with
      | some next_player =>
        match drawN 3 s.gs.deck with
        | .error e => .error e
        | .ok (three, d3) =>
          let gs1 := updPlayer s.gs next_player (fun p => { p with cards := three })
          .ok { s with
            gs := { gs1 with deck := d3, dealt_to := gs1.dealt_to ++ [next_player] },
            current_actor := some (Actor.mk .player next_player) }
      | none => run_to_next_decision fuel { s with phase := .cambi }
    | .cambi =>
      match next_player_for_cambi s with
      | some next_player =>
        .ok { s with current_actor := some (Actor.mk .player next_player) }
      | none => run_to_next_decision fuel { s with phase := .buchi_entry }
    | .buchi_entry =>
      match next_player_for_buchi_entry s with
      | some next_player =>
        .ok { s with current_actor := some (Actor.mk .player next_player) }
      | none =>
        match next_buco_for_discard s with
        | some pending_buco =>
          .ok { s with
            phase := .buchi_discard
            current_actor := some (Actor.mk .buco pending_buco) }
        | none =>
          run_to_next_decision fuel
            { s with phase := .play, gs := start_next_trick s.gs }
    | .buchi_discard =>
      match next_buco_for_discard s with
      | some pending_buco =>
        .ok { s with current_actor := some (Actor.mk .buco pending_buco) }
      | none =>
        run_to_next_decision fuel
          { s with phase := .play, gs := start_next_trick s.gs }
    | .play =>
      if s.gs.current_trick.length = num_active_participants s then
        match resolve_trick s with
        | .error e => .error e
        | .ok s1 =>
          if s1.gs.tricks.length = 3 then
            run_to_next_decision fuel { s1 with phase := .settle }
          else
            run_to_next_decision fuel { s1 with gs := start_next_trick s1.gs }
      else
        match next_actor_to_play s with
        | .error e => .error e
        | .ok (some a) => .ok { s with current_actor := some a }
        | .ok none => .error .internal
    | .settle =>
      .ok { s with gs := settleE s.gs, phase := .fine, current_actor := none }
    | .fine => .ok { s with current_actor := none }

/-- `Engine.step`: reject actions outside `legal_actions()` (raising before
any mutation), otherwise apply the phase handler and auto-advance. -/
def stepE (fuel : Nat) (s : EngineSt) (action : ActionT) : Except Err EngineSt :=
  match s.current_actor with
  | none => .error .noActor
  | some actor =>
    if action ∈ legal_actions s then
      match (match s.phase with
             | .deal_decide => step_deal_decide s actor action
             | .cambi => step_cambi s actor action
             | .buchi_entry => step_buchi_entry s actor action
             | .buchi_discard => step_buchi_discard s actor action
             | .play => step_play s actor action
             | .settle => .ok s
             | .fine => .ok s) with
      | .error e => .error e
      | .ok s1 => run_to_next_decision fuel s1
    else .error .illegalAction

/-- `Engine.__init__`: fresh players, a shuffled deck (modelled by the
`deckList` parameter in draw order), the turned-up briscola, then the
auto-advance loop. -/
def initE (deckList : List Card) (playerSpecs : List (String × Int)) (pot : Int)
    (dealer : Nat) (fuel : Nat) : Except Err EngineSt :=
  let players := playerSpecs.map (fun p => Player.init p.1 p.2)
  let gs0 : GameState :=
    { deck := deckList, players, n_players := players.length, pot, dealer,
      briscola_card := none, briscola_suit := none, playing_players := [],
      buchi := [], tricks := [], current_trick := [], trick_lead_suit := none,
      trick_winner := none, dealt_to := [], decisions := [], cambi_done := [],
      buchi_entry_done := [], next_buco_id := 0, ghost_removed := [] }
  match draw gs0.deck with
  | .error e => .error e
  | .ok (bc, d1) =>
    run_to_next_decision fuel
      { gs := { gs0 with
          deck := d1
          briscola_card := some bc
          briscola_suit := some bc.seed }
        phase := .deal_decide
        current_actor := none }

/-! ## Snapshot (`Engine.snapshot`) -/

/-- Per-player public snapshot entry. -/
structure PSnap where
  name : String
  bankroll : Int
  is_playing : Bool
  in_buco : Bool
  tricks_won : Nat
  num_cards : Nat
  deriving DecidableEq, Repr

/-- Per-buco public snapshot entry. -/
structure BSnap where
  buco_id : Nat
  player_names : List String
  tricks_won : Nat
  num_cards : Nat
  deriving DecidableEq, Repr

/-- The read-only structured view returned by `Engine.snapshot`. -/
structure Snapshot where
  phase : Phase
  current_actor : Option Actor
  pot : Int
  dealer : Nat
  briscola_card : Option Card
  briscola_suit : Option Suit
  players : List PSnap
  buchi : List BSnap
  current_trick : List (Actor × Card)
  tricks_completed : Nat
  deriving DecidableEq, Repr

/-- Transliteration of `Engine.snapshot`. -/
def snapshot (s : EngineSt) : Snapshot :=
  { phase := s.phase
    current_actor := s.current_actor
    pot := s.gs.pot
    dealer := s.gs.dealer
    briscola_card := s.gs.briscola_card
    briscola_suit := s.gs.briscola_suit
    players := s.gs.players.map (fun p =>
      { name := p.name, bankroll := p.bankroll, is_playing := p.is_playing,
        in_buco := p.in_buco, tricks_won := p.tricks_won,
        num_cards := p.cards.length })
    buchi := s.gs.buchi.map (fun b =>
      { buco_id := b.buco_id,
        player_names := b.players.map (fun i => (playerAt s.gs i).name),
        tricks_won := b.tricks_won, num_cards := b.cards.length })
    current_trick := s.gs.current_trick
    tricks_completed := s.gs.tricks.length }

/-- One externally observable step result: the snapshot together with the
pending actor and the legal actions (what a caller can see between steps). -/
def observe (s : EngineSt) : Snapshot × Option Actor × List ActionT :=
  (snapshot s, s.current_actor, legal_actions s)

/-- The observation trace of feeding an action sequence to the engine
(stopping at the first failing step). -/
def runTrace (fuel : Nat) : EngineSt → List ActionT →
    List (Snapshot × Option Actor × List ActionT)
  | s, [] => [observe s]
  | s, a :: rest =>
    observe s ::
      (match stepE fuel s a with
       | .ok s' => runTrace fuel s' rest
       | .error _ => [])

/-! ## Reachability -/

/-- Reachable engine states: a successful construction from a permutation of
the 40-card deck (the seeded shuffle), or a successful `step` from a
reachable state. -/
inductive Reachable : EngineSt → Prop where
  | init (deckList : List Card) (playerSpecs : List (String × Int)) (pot : Int)
      (dealer fuel : Nat) (s : EngineSt) :
      deckList.Perm full40 → initE deckList playerSpecs pot dealer fuel = .ok s →
      Reachable s
  | next (s : EngineSt) (a : ActionT) (fuel : Nat) (s' : EngineSt) :
      Reachable s → stepE fuel s a = .ok s' → Reachable s'

/-! ## Definitions used by the claims -/

/-- Multiset of briscola-card occurrences (one card once turned up). -/
def briscolaMS (s : EngineSt) : Multiset Card :=
  match s.gs.briscola_card with
  | some c => {c}
  | none => 0

/-- The cards visible in the partition named by the conservation claim:
deck, every player hand, every buco hand, every archived trick, the
in-progress trick, and the trump card. -/
def liveCards (s : EngineSt) : Multiset Card :=
  (s.gs.deck : Multiset Card)
    + (s.gs.players.map (fun p => (p.cards : Multiset Card))).sum
    + (s.gs.buchi.map (fun b => (b.cards : Multiset Card))).sum
    + (s.gs.tricks.map (fun t => ((t.map Prod.snd) : Multiset Card))).sum
    + ((s.gs.current_trick.map Prod.snd) : Multiset Card)
    + briscolaMS s

/-- Same partition without the in-progress trick buffer (in the terminal
phase the buffer still holds a stale copy of the already-archived final
trick). -/
def coreCards (s : EngineSt) : Multiset Card :=
  (s.gs.deck : Multiset Card)
    + (s.gs.players.map (fun p => (p.cards : Multiset Card))).sum
    + (s.gs.buchi.map (fun b => (b.cards : Multiset Card))).sum
    + (s.gs.tricks.map (fun t => ((t.map Prod.snd) : Multiset Card))).sum
    + briscolaMS s

/-- Card conservation exactly as the claim states it. -/
def CardConservation (s : EngineSt) : Prop := liveCards s = full40MS

/-- The *eligible set* as the spec words it (suit-following precedence):
led-suit cards if any are held, else trump cards if any are held, else the
whole hand.  This coincides with `can_play` in
`_legal_play_actions_for_cards`. -/
def eligible_set (cards : List Card) (ls bs : Suit) : List Card :=
  let suit_cards := cards.filter (fun c => c.seed = ls)
  let briscola_cards := cards.filter (fun c => c.seed = bs)
  if suit_cards ≠ [] then suit_cards
  else if briscola_cards ≠ [] then briscola_cards
  else cards

/-- The pending actor's reference is in range (Python guarantees this for
every actor the engine itself produces; dereferencing an out-of-range actor
would raise `IndexError`). -/
def ActorWF (s : EngineSt) : Prop :=
  match s.current_actor with
  | none => True
  | some a =>
    match a.kind with
    | .player => a.id < s.gs.players.length
    | .buco => a.id < s.gs.buchi.length

/-! ## C5: card comparison -/

/-- C5 — Card comparison: for every pair of cards, every trump suit and every
led suit, `compare_cards` returns 1 ("a greater") when `a` is trump and `b`
is not; between two trumps the higher trick-strength rank wins, where trick
strength is the fixed permutation Asso > 3 > Re > Cavallo > Fante > 7 > 6 >
5 > 4 > 2 (not the face order); between two non-trumps the higher
trick-strength rank wins exactly when both match the led suit, and otherwise
the result is 0 (equal). -/
lemma c5_trump_beats : ∀ (ls bs : Suit) (a b : Card),
    a.seed = bs → b.seed ≠ bs → compare_cards (some ls) (some bs) a b = 1 := by
  intro ls bs a b ha hb
  simp [compare_cards, ha, hb]

lemma c5_both_trump : ∀ (ls bs : Suit) (a b : Card),
    a.seed = bs → b.seed = bs →
      ((RANK_STRENGTH b.value < RANK_STRENGTH a.value →
          compare_cards (some ls) (some bs) a b = 1) ∧
       (RANK_STRENGTH a.value < RANK_STRENGTH b.value →
          compare_cards (some ls) (some bs) a b = -1) ∧
       (RANK_STRENGTH a.value = RANK_STRENGTH b.value →
          compare_cards (some ls) (some bs) a b = 0)) := by
  intro ls bs a b ha hb
  refine ⟨fun h => ?_, fun h => ?_, fun h => ?_⟩ <;>
    simp only [compare_cards, ha, hb] <;> simp <;> omega

lemma c5_both_led : ∀ (ls bs : Suit) (a b : Card),
    a.seed ≠ bs → b.seed ≠ bs → a.seed = ls → b.seed = ls →
      ((RANK_STRENGTH b.value < RANK_STRENGTH a.value →
          compare_cards (some ls) (some bs) a b = 1) ∧
       (RANK_STRENGTH a.value < RANK_STRENGTH b.value →
          compare_cards (some ls) (some bs) a b = -1) ∧
       (RANK_STRENGTH a.value = RANK_STRENGTH b.value →
          compare_cards (some ls) (some bs) a b = 0)) := by
  intro ls bs a b ha hb hla hlb
  refine ⟨fun h => ?_, fun h => ?_, fun h => ?_⟩ <;>
    simp only [compare_cards, ha, hb, hla, hlb] <;> simp <;> omega

lemma c5_incomparable : ∀ (ls bs : Suit) (a b : Card),
    a.seed ≠ bs → b.seed ≠ bs → ¬(a.seed = ls ∧ b.seed = ls) →
      compare_cards (some ls) (some bs) a b = 0 := by
  intro ls bs a b ha hb hl
  rw [not_and_or] at hl
  rcases hl with h | h <;> simp [compare_cards, ha, hb, h]

theorem C5_compare_cards (ls bs : Suit) (a b : Card) :
    (RANK_STRENGTH .asso > RANK_STRENGTH .three ∧
     RANK_STRENGTH .three > RANK_STRENGTH .re ∧
     RANK_STRENGTH .re > RANK_STRENGTH .cavallo ∧
     RANK_STRENGTH .cavallo > RANK_STRENGTH .fante ∧
     RANK_STRENGTH .fante > RANK_STRENGTH .seven ∧
     RANK_STRENGTH .seven > RANK_STRENGTH .six ∧
     RANK_STRENGTH .six > RANK_STRENGTH .five ∧
     RANK_STRENGTH .five > RANK_STRENGTH .four ∧
     RANK_STRENGTH .four > RANK_STRENGTH .two) ∧
    (a.seed = bs → b.seed ≠ bs → compare_cards (some ls) (some bs) a b = 1) ∧
    (a.seed = bs → b.seed = bs →
      ((RANK_STRENGTH b.value < RANK_STRENGTH a.value →
          compare_cards (some ls) (some bs) a b = 1) ∧
       (RANK_STRENGTH a.value < RANK_STRENGTH b.value →
          compare_cards (some ls) (some bs) a b = -1) ∧
       (RANK_STRENGTH a.value = RANK_STRENGTH b.value →
          compare_cards (some ls) (some bs) a b = 0))) ∧
    (a.seed ≠ bs → b.seed ≠ bs → a.seed = ls → b.seed = ls →
      ((RANK_STRENGTH b.value < RANK_STRENGTH a.value →
          compare_cards (some ls) (some bs) a b = 1) ∧
       (RANK_STRENGTH a.value < RANK_STRENGTH b.value →
          compare_cards (some ls) (some bs) a b = -1) ∧
       (RANK_STRENGTH a.value = RANK_STRENGTH b.value →
          compare_cards (some ls) (some bs) a b = 0))) ∧
    (a.seed ≠ bs → b.seed ≠ bs → ¬(a.seed = ls ∧ b.seed = ls) →
      compare_cards (some ls) (some bs) a b = 0) :=
  ⟨by decide, c5_trump_beats ls bs a b, c5_both_trump ls bs a b,
   c5_both_led ls bs a b, c5_incomparable ls bs a b⟩

/-- Witness for C5 at a concrete input: the trump 2 beats the non-trump
Asso of the led suit. -/
theorem C5_compare_cards_witness :
    compare_cards (some Suit.denari) (some Suit.coppe)
      (Card.mk Suit.coppe Value.two) (Card.mk Suit.denari Value.asso) = 1 :=
  (C5_compare_cards Suit.denari Suit.coppe
      (Card.mk Suit.coppe Value.two) (Card.mk Suit.denari Value.asso)).2.1
      rfl (by decide)

/-! ## C2, C3: follow-suit and must-beat soundness -/

lemma filter_seed_some (cards : List Card) (x : Suit) :
    cards.filter (fun c => some c.seed = some x) = cards.filter (fun c => c.seed = x) := by
  apply List.filter_congr
  intro c _
  simp

lemma filter_ne_nil_iff (cards : List Card) (p : Card → Bool) :
    cards.filter p ≠ [] ↔ ∃ c ∈ cards, p c = true := by
  rw [ne_eq, List.filter_eq_nil_iff]
  push_neg
  tauto

/-- Under a started trick with known lead and briscola suits, the legal play
actions are the must-beat restriction of the eligible set, wrapped as
play-card actions. -/
lemma legal_play_followed (s : EngineSt) (cards : List Card) (ls bs : Suit)
    (hct : s.gs.current_trick ≠ [])
    (hls : s.gs.trick_lead_suit = some ls)
    (hbs : s.gs.briscola_suit = some bs) :
    legal_play_actions_for_cards s cards =
      ((match s.gs.trick_winner with
        | some w =>
          let e := eligible_set cards ls bs
          let beating := e.filter (fun c => 0 < compare_cards (some ls) (some bs) c w.2)
          if beating ≠ [] then beating else e
        | none => eligible_set cards ls bs).map ActionT.play_card) := by
  by_cases hc : cards = []
  · subst hc
    simp only [legal_play_actions_for_cards, eligible_set, List.filter_nil]
    cases hw : s.gs.trick_winner <;> simp
  · simp only [legal_play_actions_for_cards, eligible_set, if_neg hc, if_neg hct,
      hls, hbs, Option.some.injEq]

lemma eligible_subset (cards : List Card) (ls bs : Suit) :
    ∀ c ∈ eligible_set cards ls bs, c ∈ cards := by
  intro c hc
  simp only [eligible_set] at hc
  split at hc
  · exact List.mem_of_mem_filter hc
  · split at hc
    · exact List.mem_of_mem_filter hc
    · exact hc

lemma eligible_led (cards : List Card) (ls bs : Suit)
    (h : ∃ c ∈ cards, c.seed = ls) :
    ∀ c ∈ eligible_set cards ls bs, c.seed = ls := by
  intro c hc
  have hne : cards.filter (fun c => c.seed = ls) ≠ [] := by
    rw [filter_ne_nil_iff]
    simpa using h
  simp only [eligible_set] at hc
  rw [if_pos hne] at hc
  simpa using List.of_mem_filter hc

lemma eligible_trump (cards : List Card) (ls bs : Suit)
    (hno : ¬∃ c ∈ cards, c.seed = ls) (h : ∃ c ∈ cards, c.seed = bs) :
    ∀ c ∈ eligible_set cards ls bs, c.seed = bs := by
  intro c hc
  have hnil : cards.filter (fun c => c.seed = ls) = [] := by
    by_contra hne
    exact hno (by simpa using (filter_ne_nil_iff _ _).1 hne)
  have hne : cards.filter (fun c => c.seed = bs) ≠ [] := by
    rw [filter_ne_nil_iff]
    simpa using h
  simp only [eligible_set, hnil] at hc
  rw [if_neg (by simp)] at hc
  rw [if_pos hne] at hc
  simpa using List.of_mem_filter hc

lemma eligible_any (cards : List Card) (ls bs : Suit)
    (hno : ¬∃ c ∈ cards, c.seed = ls) (hno' : ¬∃ c ∈ cards, c.seed = bs) :
    eligible_set cards ls bs = cards := by
  have hnil : cards.filter (fun c => c.seed = ls) = [] := by
    by_contra hne
    exact hno (by simpa using (filter_ne_nil_iff _ _).1 hne)
  have hnil' : cards.filter (fun c => c.seed = bs) = [] := by
    by_contra hne
    exact hno' (by simpa using (filter_ne_nil_iff _ _).1 hne)
  simp only [eligible_set, hnil, hnil']
  simp

/-- Every list the must-beat restriction can produce sits inside the
eligible set. -/
lemma legal_play_mem_eligible (s : EngineSt) (cards : List Card) (ls bs : Suit)
    (hct : s.gs.current_trick ≠ [])
    (hls : s.gs.trick_lead_suit = some ls)
    (hbs : s.gs.briscola_suit = some bs) :
    ∀ c, ActionT.play_card c ∈ legal_play_actions_for_cards s cards →
      c ∈ eligible_set cards ls bs := by
  intro c hc
  rw [legal_play_followed s cards ls bs hct hls hbs] at hc
  rcases List.mem_map.1 hc with ⟨d, hd, hdc⟩
  cases hdc
  revert hd
  cases s.gs.trick_winner with
  | none => exact fun hd => hd
  | some w =>
    simp only
    split
    · exact fun hd => List.mem_of_mem_filter hd
    · exact fun hd => hd

/-- C2 — Follow-suit soundness for a non-leading participant: every legal
action plays a card from the hand; if the hand holds a led-suit card every
legal action plays a led-suit card; else if it holds a trump every legal
action plays a trump; a card of neither suit is only ever legal when the
hand holds no led-suit card and no trump. -/
theorem C2_follow_suit (s : EngineSt) (cards : List Card) (ls bs : Suit)
    (hct : s.gs.current_trick ≠ [])
    (hls : s.gs.trick_lead_suit = some ls)
    (hbs : s.gs.briscola_suit = some bs) :
    (∀ a ∈ legal_play_actions_for_cards s cards, ∃ c ∈ cards, a = .play_card c) ∧
    ((∃ c ∈ cards, c.seed = ls) →
      ∀ c, ActionT.play_card c ∈ legal_play_actions_for_cards s cards → c.seed = ls) ∧
    ((¬∃ c ∈ cards, c.seed = ls) → (∃ c ∈ cards, c.seed = bs) →
      ∀ c, ActionT.play_card c ∈ legal_play_actions_for_cards s cards → c.seed = bs) ∧
    (∀ c, ActionT.play_card c ∈ legal_play_actions_for_cards s cards →
      c.seed ≠ ls → c.seed ≠ bs →
      (¬∃ d ∈ cards, d.seed = ls) ∧ (¬∃ d ∈ cards, d.seed = bs)) := by
  refine ⟨?_, ?_, ?_, ?_⟩
  · intro a ha
    rw [legal_play_followed s cards ls bs hct hls hbs] at ha
    rcases List.mem_map.1 ha with ⟨d, hd, hdc⟩
    refine ⟨d, ?_, hdc.symm⟩
    apply eligible_subset cards ls bs
    revert hd
    cases s.gs.trick_winner with
    | none => exact fun hd => hd
    | some w =>
      simp only
      split
      · exact fun hd => List.mem_of_mem_filter hd
      · exact fun hd => hd
  · intro h c hc
    exact eligible_led cards ls bs h c (legal_play_mem_eligible s cards ls bs hct hls hbs c hc)
  · intro hno h c hc
    exact eligible_trump cards ls bs hno h c (legal_play_mem_eligible s cards ls bs hct hls hbs c hc)
  · intro c hc hnl hnb
    have hce := legal_play_mem_eligible s cards ls bs hct hls hbs c hc
    constructor
    · intro h
      exact hnl (eligible_led cards ls bs h c hce)
    · intro h
      by_cases hl : ∃ d ∈ cards, d.seed = ls
      · exact hnl (eligible_led cards ls bs hl c hce)
      · exact hnb (eligible_trump cards ls bs hl h c hce)

/-- C3 — Must-beat ("ammazzare sempre") soundness: with a current trick
winner, if some eligible card out-ranks the winning card the legal actions
are exactly the beating subset of the eligible set; otherwise they are
exactly the full eligible set. -/
theorem C3_must_beat (s : EngineSt) (cards : List Card) (ls bs : Suit)
    (w : Actor × Card)
    (hct : s.gs.current_trick ≠ [])
    (hls : s.gs.trick_lead_suit = some ls)
    (hbs : s.gs.briscola_suit = some bs)
    (hw : s.gs.trick_winner = some w) :
    ((eligible_set cards ls bs).filter
        (fun c => 0 < compare_cards (some ls) (some bs) c w.2) ≠ [] →
      legal_play_actions_for_cards s cards =
        ((eligible_set cards ls bs).filter
          (fun c => 0 < compare_cards (some ls) (some bs) c w.2)).map .play_card) ∧
    ((eligible_set cards ls bs).filter
        (fun c => 0 < compare_cards (some ls) (some bs) c w.2) = [] →
      legal_play_actions_for_cards s cards =
        (eligible_set cards ls bs).map .play_card) := by
  rw [legal_play_followed s cards ls bs hct hls hbs, hw]
  constructor
  · intro hne
    simp only [if_pos hne]
  · intro hnil
    simp only [hnil]
    simp

/-! ## C4: mandatory first lead (di mano) -/

lemma find_card_eq' (cards : List Card) (bs : Suit) (v : Value) :
    List.find? (fun c => decide (c.seed = bs) && decide (c.value = v)) cards
      = if Card.mk bs v ∈ cards then some (Card.mk bs v) else none := by
  induction cards with
  | nil => rfl
  | cons c t ih =>
    by_cases hc : c = Card.mk bs v
    · subst hc
      simp [List.find?]
    · have hp : ¬(c.seed = bs ∧ c.value = v) := by
        rintro ⟨h1, h2⟩
        apply hc
        cases c
        simp_all
      rw [List.find?_cons_of_neg _ (by simpa using hp), ih]
      have hmem : (Card.mk bs v ∈ c :: t) ↔ (Card.mk bs v ∈ t) := by
        simp only [List.mem_cons]
        exact ⟨fun h => h.resolve_left (fun h' => hc h'.symm), fun h => Or.inr h⟩
      by_cases hm : Card.mk bs v ∈ t
      · rw [if_pos hm, if_pos (hmem.2 hm)]
      · rw [if_neg hm, if_neg (fun h => hm (hmem.1 h))]

lemma find_card_eq (cards : List Card) (bs : Suit) (v : Value) :
    cards.find? (fun c => some c.seed = some bs ∧ c.value = v)
      = if Card.mk bs v ∈ cards then some (Card.mk bs v) else none := by
  have hfun : (fun c : Card => decide (some c.seed = some bs ∧ c.value = v))
      = (fun c : Card => decide (c.seed = bs) && decide (c.value = v)) := by
    funext c
    simp
  rw [show cards.find? (fun c => some c.seed = some bs ∧ c.value = v)
      = cards.find? (fun c : Card => decide (c.seed = bs) && decide (c.value = v)) from
    congrArg (cards.find? ·) hfun, find_card_eq']

/-- Characterisation of `_get_mandatory_lead` on the first lead of the first
trick, when the briscola suit is the turned-up card's suit. -/
lemma mandatory_lead_eq (s : EngineSt) (cards : List Card) (bc : Card)
    (htr : s.gs.tricks = []) (hct : s.gs.current_trick = [])
    (hbc : s.gs.briscola_card = some bc)
    (hbs : s.gs.briscola_suit = some bc.seed) :
    get_mandatory_lead s cards =
      if Card.mk bc.seed .asso ∈ cards then some (Card.mk bc.seed .asso)
      else if bc.value = .asso ∧ Card.mk bc.seed .three ∈ cards then
        some (Card.mk bc.seed .three)
      else none := by
  unfold get_mandatory_lead
  rw [hbs, hbc, if_pos ⟨htr, hct⟩, find_card_eq]
  by_cases h1 : Card.mk bc.seed .asso ∈ cards
  · simp [h1]
  · by_cases h2 : bc.value = Value.asso
    · by_cases h3 : Card.mk bc.seed .three ∈ cards
      · simp [h1, h2, h3, find_card_eq']
      · simp [h1, h2, h3, find_card_eq']
    · simp [h1, h2]

/-- `_get_mandatory_lead` imposes nothing after the first trick. -/
lemma mandatory_lead_none (s : EngineSt) (cards : List Card)
    (htr : s.gs.tricks ≠ []) :
    get_mandatory_lead s cards = none := by
  unfold get_mandatory_lead
  rw [if_neg (fun h => htr h.1)]

/-- The hand a participant plays from. -/
def handOf (s : EngineSt) (a : Actor) : List Card :=
  match a.kind with
  | .player => (playerAt s.gs a.id).cards
  | .buco => (bucoAt s.gs a.id).cards

/-- In the Play phase, a player actor's legal actions come from that
player's hand. -/
lemma legal_actions_play_player (s : EngineSt) (i : Nat)
    (hphase : s.phase = .play)
    (hactor : s.current_actor = some (Actor.mk .player i)) :
    legal_actions s = legal_play_actions_for_cards s (playerAt s.gs i).cards := by
  unfold legal_actions
  rw [hactor, hphase]
  simp

/-- In the Play phase, any actor's legal actions come from the hand it
plays from: the player's own hand, or — for a side-pot with at least one
member, as every real buco has — the buco's pooled hand. -/
lemma legal_actions_play_actor (s : EngineSt) (a : Actor)
    (hphase : s.phase = .play)
    (hactor : s.current_actor = some a)
    (hwf : a.kind = .buco → (bucoAt s.gs a.id).players ≠ []) :
    legal_actions s = legal_play_actions_for_cards s (handOf s a) := by
  unfold legal_actions
  rw [hactor, hphase]
  dsimp only
  obtain ⟨ak, aid⟩ := a
  cases ak
  case player =>
    rw [if_pos rfl]
    rfl
  case buco =>
    rw [if_neg (fun hc => ActorKind.noConfusion hc)]
    rw [if_pos (hwf rfl)]
    rfl

/-- C4 — Mandatory first lead: on the very first lead of the hand's first
trick, a leading participant (player, or side-pot playing its pooled hand)
holding the trump Asso has exactly one legal action (lead it); otherwise,
when the turned-up trump card is the Asso and the leader holds the trump 3,
exactly one legal action (lead it); on any other lead every card in the
hand is legal. -/
theorem C4_mandatory_lead (s : EngineSt) (a : Actor) (bc : Card)
    (hphase : s.phase = .play)
    (hactor : s.current_actor = some a)
    (hwf : a.kind = .buco → (bucoAt s.gs a.id).players ≠ [])
    (hct : s.gs.current_trick = [])
    (hbc : s.gs.briscola_card = some bc)
    (hbs : s.gs.briscola_suit = some bc.seed)
    (hne : handOf s a ≠ []) :
    (s.gs.tricks = [] → Card.mk bc.seed .asso ∈ handOf s a →
      legal_actions s = [.play_card (Card.mk bc.seed .asso)]) ∧
    (s.gs.tricks = [] → Card.mk bc.seed .asso ∉ handOf s a →
      bc.value = .asso → Card.mk bc.seed .three ∈ handOf s a →
      legal_actions s = [.play_card (Card.mk bc.seed .three)]) ∧
    (s.gs.tricks = [] → Card.mk bc.seed .asso ∉ handOf s a →
      ¬(bc.value = .asso ∧ Card.mk bc.seed .three ∈ handOf s a) →
      legal_actions s = (handOf s a).map .play_card) ∧
    (s.gs.tricks ≠ [] →
      legal_actions s = (handOf s a).map .play_card) := by
  rw [legal_actions_play_actor s a hphase hactor hwf]
  unfold legal_play_actions_for_cards
  rw [if_neg hne, if_pos hct]
  refine ⟨?_, ?_, ?_, ?_⟩
  · intro htr hasso
    rw [mandatory_lead_eq s _ bc htr hct hbc hbs, if_pos hasso]
  · intro htr hnasso hval h3
    rw [mandatory_lead_eq s _ bc htr hct hbc hbs, if_neg hnasso, if_pos ⟨hval, h3⟩]
  · intro htr hnasso hn3
    rw [mandatory_lead_eq s _ bc htr hct hbc hbs, if_neg hnasso, if_neg hn3]
  · intro htr
    rw [mandatory_lead_none s _ htr]

/-! ## Concrete states for witnesses -/

/-- A concrete mid-trick Play state: the Asso di Denari was led (and is
winning), briscola is Coppe. -/
def wState : EngineSt :=
  { gs := { (default : GameState) with
      current_trick := [(Actor.mk .player 0, Card.mk .denari .asso)]
      trick_lead_suit := some Suit.denari
      trick_winner := some (Actor.mk .player 0, Card.mk .denari .asso)
      briscola_suit := some Suit.coppe }
    phase := .play
    current_actor := none }

/-- A concrete follower hand for `wState`. -/
def wHand : List Card :=
  [Card.mk .denari .two, Card.mk .spade .asso, Card.mk .coppe .four]

/-- A concrete first-lead Play state: player 0 leads the very first trick
holding the trump Asso; briscola is Coppe (2 di Coppe turned up). -/
def wState4 : EngineSt :=
  { gs := { (default : GameState) with
      players := [{ (default : Player) with
        cards := [Card.mk .coppe .asso, Card.mk .denari .two] }]
      briscola_card := some (Card.mk .coppe .two)
      briscola_suit := some Suit.coppe }
    phase := .play
    current_actor := some (Actor.mk .player 0) }

/-- Witness for C2 at a concrete input: the follower holds the Due di Denari
(led suit), and indeed every legal action plays a Denari card. -/
theorem C2_follow_suit_witness :
    (Card.mk Suit.denari Value.two).seed = Suit.denari :=
  (C2_follow_suit wState wHand .denari .coppe (by decide) rfl rfl).2.1
    ⟨Card.mk .denari .two, by decide, rfl⟩ (Card.mk .denari .two) (by decide)

/-- Witness for C3 at a concrete input: the follower cannot beat the led
Asso di Denari with a Denari card, so the whole eligible set is legal. -/
theorem C3_must_beat_witness :
    legal_play_actions_for_cards wState wHand =
      (eligible_set wHand .denari .coppe).map .play_card :=
  (C3_must_beat wState wHand .denari .coppe
    (Actor.mk .player 0, Card.mk .denari .asso) (by decide) rfl rfl rfl).2 (by decide)

/-- A concrete first-lead Play state where a side-pot leads the very first
trick: buco 0 (one member, the seat-0 player) holds the trump Asso in its
pooled hand; briscola is Coppe (2 di Coppe turned up). -/
def wStateB : EngineSt :=
  { gs := { (default : GameState) with
      buchi := [{ (default : Buco) with
        players := [0]
        cards := [Card.mk .coppe .asso, Card.mk .denari .two, Card.mk .spade .five] }]
      briscola_card := some (Card.mk .coppe .two)
      briscola_suit := some Suit.coppe }
    phase := .play
    current_actor := some (Actor.mk .buco 0) }

/-- Witness for C4 at a concrete input: the leading side-pot holds the
trump Asso in its pooled hand and its only legal action is to lead it. -/
theorem C4_mandatory_lead_witness :
    legal_actions wStateB = [.play_card (Card.mk Suit.coppe Value.asso)] :=
  (C4_mandatory_lead wStateB (Actor.mk .buco 0) (Card.mk .coppe .two) rfl rfl
    (fun _ => by decide) rfl rfl rfl (by decide)).1 rfl (by decide)

/-! ## C6, C10: settlement arithmetic -/

lemma get?_append_cons (pre : List Player) (p : Player) (t : List Player) :
    (pre ++ p :: t).get? pre.length = some p := by
  induction pre with
  | nil => rfl
  | cons a pre ih => simpa using ih

lemma set_append_cons (pre : List Player) (p x : Player) (t : List Player) :
    (pre ++ p :: t).set pre.length x = pre ++ x :: t := by
  induction pre with
  | nil => rfl
  | cons a pre ih => simp [List.set, ih]

/-- Folding one `updBank` per index over a suffix bumps every suffix element's
bankroll by the same delta. -/
lemma foldl_updBank_suffix (d : Int) :
    ∀ (ps pre : List Player),
      (List.range' pre.length ps.length).foldl (fun acc i => updBank acc i d) (pre ++ ps)
        = pre ++ ps.map (fun p => { p with bankroll := p.bankroll + d }) := by
  intro ps
  induction ps with
  | nil => intro pre; simp
  | cons p t ih =>
    intro pre
    have hrange : List.range' pre.length (t.length + 1)
        = pre.length :: List.range' (pre.length + 1) t.length := List.range'_succ _ _ _
    rw [List.length_cons, hrange, List.foldl_cons]
    have hupd : updBank (pre ++ p :: t) pre.length d
        = pre ++ ({ p with bankroll := p.bankroll + d } : Player) :: t := by
      unfold updBank
      rw [get?_append_cons]
      exact set_append_cons pre p _ t
    rw [hupd]
    have := ih (pre ++ [{ p with bankroll := p.bankroll + d }])
    simpa using this

lemma foldl_updBank_range (ps : List Player) (d : Int) :
    (List.range ps.length).foldl (fun acc i => updBank acc i d) ps
      = ps.map (fun p => { p with bankroll := p.bankroll + d }) := by
  have := foldl_updBank_suffix d ps []
  simpa [List.range_eq_range'] using this

/-- An explicit empty game state (used to build concrete settlement states
that `simp` can fully reduce). -/
def emptyGS : GameState :=
  { deck := [], players := [], n_players := 0, pot := 0, dealer := 0,
    briscola_card := none, briscola_suit := none, playing_players := [],
    buchi := [], tricks := [], current_trick := [], trick_lead_suit := none,
    trick_winner := none, dealt_to := [], decisions := [], cambi_done := [],
    buchi_entry_done := [], next_buco_id := 0, ghost_removed := [] }

/-- A kept player with the given bankroll and trick count. -/
def keptPlayer (b : Int) (t : Nat) : Player :=
  { name := "", cards := [], bankroll := b, is_playing := true,
    in_buco := false, tricks_won := t }

/-- A settlement state for three single kept players with symbolic bankrolls,
pot and tricks. -/
def c6state (P : Int) (b0 b1 b2 : Int) (t0 t1 t2 : Nat) : GameState :=
  { emptyGS with
    players := [keptPlayer b0 t0, keptPlayer b1 t1, keptPlayer b2 t2]
    playing_players := [0, 1, 2]
    n_players := 3
    pot := P }

/-- C6 — Settlement arithmetic.  Piatto salvo: with at least 3 participants
all on exactly one trick, settlement only adds the dealer fee to the pot and
rotates the dealer (bankrolls untouched).  Otherwise, for three single
players on [1, 2, 0] tricks and pot P: the zero-trick player pays the full
P, the others gain `1 * (P fdiv 3)` and `2 * (P fdiv 3)`, and the new pot is
the bestia payment P plus the dealer fee. -/
theorem C6_settlement (P b0 b1 b2 : Int) :
    (∀ gs : GameState, 3 ≤ (partRefs gs).length →
      (∀ r ∈ partRefs gs, tricksOfRef gs r = 1) →
      settleE gs = { gs with
        pot := gs.pot + 30
        dealer := (gs.dealer + 1) % gs.n_players }) ∧
    ((settleE (c6state P b0 b1 b2 1 2 0)).players.map Player.bankroll
        = [b0 + P.fdiv 3, b1 + 2 * P.fdiv 3, b2 - P] ∧
      (settleE (c6state P b0 b1 b2 1 2 0)).pot = P + 30) := by
  constructor
  · intro gs h1 h2
    unfold settleE
    rw [if_pos ⟨h1, h2⟩]
  · constructor
    · simp [settleE, partRefs, tricksOfRef, playerAt, updBank, c6state, emptyGS,
        keptPlayer]
      ring_nf
    · simp [settleE, partRefs, tricksOfRef, playerAt, updBank, c6state, emptyGS,
        keptPlayer]

/-- Witness for C6's piatto salvo branch at a concrete input. -/
theorem C6_settlement_witness :
    settleE (c6state 90 5 6 7 1 1 1)
      = { (c6state 90 5 6 7 1 1 1) with pot := 90 + 30, dealer := 1 % 3 } :=
  (C6_settlement 90 5 6 7).1 (c6state 90 5 6 7 1 1 1) (by decide) (by decide)

/-- A settlement state where every player is a member of a single side-pot
that won zero tricks. -/
def c10state (pot : Int) (ps : List Player) : GameState :=
  { emptyGS with
    players := ps
    n_players := ps.length
    pot := pot
    buchi := [{ players := List.range ps.length, cards := [], buco_id := 0, tricks_won := 0, discard_pending := false }] }

/-- C10 — Side-pot bestia money mismatch: when a side-pot with m members
wins zero tricks, each member pays exactly `pot fdiv m` while the full pot is
credited to the next hand's pot (plus the dealer fee); so whenever m does not
divide the pot, the members together pay strictly less than the pot amount
credited. -/
theorem C10_buco_bestia (pot : Int) (ps : List Player) (hm : 1 ≤ ps.length) :
    ((settleE (c10state pot ps)).players.map Player.bankroll
        = ps.map (fun p => p.bankroll - pot.fdiv (ps.length : Int))) ∧
    (settleE (c10state pot ps)).pot = pot + 30 ∧
    (¬ ((ps.length : Int) ∣ pot) →
      (ps.length : Int) * (pot.fdiv (ps.length : Int)) < pot) := by
  refine ⟨?_, ?_, ?_⟩
  · simp only [settleE, c10state, emptyGS, partRefs, tricksOfRef, bucoAt, playerAt]
    simp [List.range_succ, foldl_updBank_range]
    ring_nf
    simp [sub_eq_add_neg]
  · simp only [settleE, c10state, emptyGS, partRefs, tricksOfRef, bucoAt, playerAt]
    simp [List.range_succ]
  · intro hnd
    have hb : (0 : Int) < (ps.length : Int) := by exact_mod_cast hm
    have h1 := Int.fmod_add_fdiv pot (ps.length : Int)
    have h2 : 0 ≤ pot.fmod (ps.length : Int) := Int.fmod_nonneg' pot hb
    have h3 : pot.fmod (ps.length : Int) ≠ 0 := by
      rw [Int.fmod_eq_emod pot hb.le]
      intro h
      exact hnd (Int.dvd_of_emod_eq_zero h)
    omega

/-- Witness for C10 at a concrete input: two members, pot 5 (not divisible
by 2): each pays 2, the pot gains the full 5 plus the fee, and 2 × 2 < 5. -/
theorem C10_buco_bestia_witness :
    ((settleE (c10state 5 [keptPlayer 10 0, keptPlayer 20 0])).players.map
        Player.bankroll
      = [keptPlayer 10 0, keptPlayer 20 0].map
          (fun p => p.bankroll - (5 : Int).fdiv 2)) ∧
    (settleE (c10state 5 [keptPlayer 10 0, keptPlayer 20 0])).pot = 5 + 30 ∧
    (¬ ((2 : Int) ∣ 5) → (2 : Int) * ((5 : Int).fdiv 2) < 5) := by
  have h := C10_buco_bestia 5 [keptPlayer 10 0, keptPlayer 20 0] (by decide)
  exact ⟨h.1, h.2.1, fun _ => h.2.2 (by decide)⟩

/-! ## C7: illegal actions are rejected exactly, atomically -/

lemma bind_error_cases {α β : Type} (x : Except Err α) (g : α → Except Err β) (e : Err)
    (h : (x >>= g) = .error e) : x = .error e ∨ ∃ v, x = .ok v ∧ g v = .error e := by
  cases x with
  | error e' =>
    left
    have h' : Except.error e' = (Except.error e : Except Err β) := h
    cases h'
    rfl
  | ok v => exact Or.inr ⟨v, rfl, h⟩

lemma draw_no_illegal (d : List Card) (x : Err) :
    draw d = .error x → x ≠ .illegalAction := by
  cases d with
  | nil =>
    intro h
    cases h
    simp
  | cons c t => exact fun h => Except.noConfusion h

lemma drawN_no_illegal (n : Nat) :
    ∀ (deck : List Card) (x : Err), drawN n deck = .error x → x ≠ .illegalAction := by
  induction n with
  | zero => exact fun deck x h => Except.noConfusion h
  | succ n ih =>
    intro deck x
    unfold drawN
    split
    · rename_i e heq
      intro h
      cases h
      exact draw_no_illegal _ _ heq
    · split
      · rename_i e heq
        intro h
        cases h
        exact ih _ _ heq
      · exact fun h => Except.noConfusion h

lemma removeIdxCard_no_illegal (cards : List Card) (idx : Nat) (x : Err) :
    removeIdxCard cards idx = .error x → x ≠ .illegalAction := by
  unfold removeIdxCard
  split
  · intro h
    cases h
    simp
  · split
    · exact fun h => Except.noConfusion h
    · intro h
      cases h
      simp

lemma drawInsert_no_illegal (cards deck : List Card) (idx : Nat) (x : Err) :
    drawInsert cards deck idx = .error x → x ≠ .illegalAction := by
  unfold drawInsert
  split
  · rename_i e heq
    intro h
    cases h
    exact draw_no_illegal _ _ heq
  · exact fun h => Except.noConfusion h

lemma step_deal_decide_no_illegal (s : EngineSt) (actor : Actor) (a : ActionT) (x : Err) :
    step_deal_decide s actor a = .error x → x ≠ .illegalAction := by
  unfold step_deal_decide
  cases a <;> exact fun h => Except.noConfusion h

lemma step_cambi_no_illegal (s : EngineSt) (actor : Actor) (a : ActionT) (x : Err) :
    step_cambi s actor a = .error x → x ≠ .illegalAction := by
  cases a with
  | change_card idx =>
    simp only [step_cambi]
    split
    · rename_i e heq
      intro h
      cases h
      exact removeIdxCard_no_illegal _ _ _ heq
    · split
      · rename_i e heq
        intro h
        cases h
        exact drawInsert_no_illegal _ _ _ _ heq
      · exact fun h => Except.noConfusion h
  | change_cards i j =>
    simp only [step_cambi]
    split
    · rename_i e heq
      intro h
      cases h
      exact removeIdxCard_no_illegal _ _ _ heq
    · split
      · rename_i e heq
        intro h
        cases h
        exact removeIdxCard_no_illegal _ _ _ heq
      · split
        · rename_i e heq
          intro h
          cases h
          exact drawInsert_no_illegal _ _ _ _ heq
        · split
          · rename_i e heq
            intro h
            cases h
            exact drawInsert_no_illegal _ _ _ _ heq
          · exact fun h => Except.noConfusion h
  | _ => exact fun h => Except.noConfusion h

lemma step_buchi_entry_no_illegal (s : EngineSt) (actor : Actor) (a : ActionT) (x : Err) :
    step_buchi_entry s actor a = .error x → x ≠ .illegalAction := by
  cases a with
  | take_buco =>
    simp only [step_buchi_entry]
    split
    · intro h
      cases h
      simp
    · split
      · rename_i e heq
        intro h
        cases h
        exact drawN_no_illegal _ _ _ heq
      · exact fun h => Except.noConfusion h
  | _ => exact fun h => Except.noConfusion h

lemma step_buchi_discard_no_illegal (s : EngineSt) (actor : Actor) (a : ActionT) (x : Err) :
    step_buchi_discard s actor a = .error x → x ≠ .illegalAction := by
  cases a with
  | discard k =>
    simp only [step_buchi_discard]
    split
    · exact fun h => Except.noConfusion h
    · intro h
      cases h
      simp
  | _ => exact fun h => Except.noConfusion h

lemma step_play_no_illegal (s : EngineSt) (actor : Actor) (a : ActionT) (x : Err) :
    step_play s actor a = .error x → x ≠ .illegalAction := by
  obtain ⟨k, aid⟩ := actor
  cases a with
  | play_card card =>
    cases k <;> simp only [step_play] <;> intro h <;> split at h <;>
      first
        | exact Except.noConfusion h
        | (rename_i e heq
           cases h
           split at heq <;>
             first
               | exact Except.noConfusion heq
               | (cases heq; simp))
  | _ => exact fun h => Except.noConfusion h

lemma resolve_trick_no_illegal (s : EngineSt) (x : Err) :
    resolve_trick s = .error x → x ≠ .illegalAction := by
  unfold resolve_trick
  intro h
  split at h
  · exact Except.noConfusion h
  · split at h
    · cases h
      simp
    · split at h <;> exact Except.noConfusion h

lemma get_trick_winner_no_illegal (s : EngineSt) (trick : List (Actor × Card)) (x : Err) :
    get_trick_winner s trick = .error x → x ≠ .illegalAction := by
  unfold get_trick_winner
  split
  · intro h
    cases h
    simp
  · split
    · exact fun h => Except.noConfusion h
    · intro h
      cases h
      simp

lemma next_actor_to_play_no_illegal (s : EngineSt) (x : Err) :
    next_actor_to_play s = .error x → x ≠ .illegalAction := by
  simp only [next_actor_to_play]
  split
  · split
    · split <;> exact fun h => Except.noConfusion h
    · split
      · rename_i e heq
        intro h
        cases h
        exact get_trick_winner_no_illegal _ _ _ heq
      · exact fun h => Except.noConfusion h
  · split
    · exact fun h => Except.noConfusion h
    · intro h
      cases h
      simp

lemma run_no_illegal (fuel : Nat) :
    ∀ (s : EngineSt) (x : Err),
      run_to_next_decision fuel s = .error x → x ≠ .illegalAction := by
  induction fuel with
  | zero =>
    intro s x h
    cases h
    simp
  | succ fuel ih =>
    intro s x h
    obtain ⟨gs, ph, ca⟩ := s
    cases ph <;> simp only [run_to_next_decision] at h
    case deal_decide =>
      revert h
      cases next_player_to_deal ⟨gs, .deal_decide, ca⟩ with
      | some i =>
        intro h
        rcases hd : drawN 3 gs.deck with e | ⟨three, d3⟩
        · rw [hd] at h
          cases h
          exact drawN_no_illegal _ _ _ hd
        · rw [hd] at h
          exact Except.noConfusion h
      | none => exact fun h => ih _ _ h
    case cambi =>
      revert h
      cases next_player_for_cambi ⟨gs, .cambi, ca⟩ with
      | some i => exact fun h => Except.noConfusion h
      | none => exact fun h => ih _ _ h
    case buchi_entry =>
      revert h
      cases next_player_for_buchi_entry ⟨gs, .buchi_entry, ca⟩ with
      | some i => exact fun h => Except.noConfusion h
      | none =>
        cases next_buco_for_discard ⟨gs, .buchi_entry, ca⟩ with
        | some j => exact fun h => Except.noConfusion h
        | none => exact fun h => ih _ _ h
    case buchi_discard =>
      revert h
      cases next_buco_for_discard ⟨gs, .buchi_discard, ca⟩ with
      | some j => exact fun h => Except.noConfusion h
      | none => exact fun h => ih _ _ h
    case play =>
      by_cases hc : (⟨gs, Phase.play, ca⟩ : EngineSt).gs.current_trick.length
          = num_active_participants ⟨gs, Phase.play, ca⟩
      · rw [if_pos hc] at h
        split at h
        · rename_i e heq
          cases h
          exact resolve_trick_no_illegal _ _ heq
        · split at h
          · exact ih _ _ h
          · exact ih _ _ h
      · rw [if_neg hc] at h
        split at h
        · rename_i e heq
          cases h
          exact next_actor_to_play_no_illegal _ _ heq
        · exact Except.noConfusion h
        · cases h
          simp
    case settle => first | exact Except.noConfusion h | exact h.elim
    case fine => first | exact Except.noConfusion h | exact h.elim

/-- C7 — Illegal actions are rejected atomically: with a pending actor,
`step` fails with the IllegalAction condition exactly when the action is not
a member of `legal_actions()` at call time; in that case `step` raises
before any mutation, so the caller's state is unchanged and it can re-query
and retry (in this pure embedding the error carries no successor state, so
the caller keeps the original state). -/
theorem C7_illegal_action (fuel : Nat) (s : EngineSt) (action : ActionT)
    (hact : s.current_actor ≠ none) (hwf : ActorWF s) :
    stepE fuel s action = .error .illegalAction ↔ action ∉ legal_actions s := by
  obtain ⟨gs, ph, ca⟩ := s
  cases ca with
  | none => exact absurd rfl hact
  | some actor =>
    constructor
    · intro h hmem
      simp only [stepE] at h
      rw [if_pos hmem] at h
      revert h
      cases ph <;>
        (split
         · rename_i e heq
           intro h
           cases h
           first
             | exact step_deal_decide_no_illegal _ _ _ _ heq rfl
             | exact step_cambi_no_illegal _ _ _ _ heq rfl
             | exact step_buchi_entry_no_illegal _ _ _ _ heq rfl
             | exact step_buchi_discard_no_illegal _ _ _ _ heq rfl
             | exact step_play_no_illegal _ _ _ _ heq rfl
             | exact Except.noConfusion heq
         · intro h
           exact run_no_illegal fuel _ _ h rfl)
    · intro hmem
      simp only [stepE]
      rw [if_neg hmem]

/-- Witness for C7 at a concrete input: in `wState4` the only legal action
is leading the trump Asso, so `servito` is rejected with IllegalAction. -/
theorem C7_illegal_action_witness :
    stepE 10 wState4 ActionT.servito = .error .illegalAction :=
  (C7_illegal_action 10 wState4 .servito (by decide)
    (show (0 : Nat) < 1 by decide)).2 (by decide)

/-! ## C9: determinism -/

/-- C9 — Determinism: two engines constructed from the same (seed-determined)
deck order, the same ordered player list, pot and dealer, fed the identical
action sequence, produce identical observation traces — the snapshot, the
pending actor and the legal actions agree after construction and after every
step.  (The seeded shuffle is a pure function of the seed, so an identical
seed yields an identical `deckList`.) -/
theorem C9_determinism (deckList : List Card) (playerSpecs : List (String × Int))
    (pot : Int) (dealer fuel : Nat) (acts : List ActionT) (s1 s2 : EngineSt)
    (h1 : initE deckList playerSpecs pot dealer fuel = .ok s1)
    (h2 : initE deckList playerSpecs pot dealer fuel = .ok s2) :
    runTrace fuel s1 acts = runTrace fuel s2 acts := by
  have hs : s1 = s2 := by
    have h12 := h1.symm.trans h2
    exact Except.ok.inj h12
  rw [hs]

/-- Witness for C9 at a concrete input: a 3-player game from the unshuffled
deck, stepping through two keeps. -/
theorem C9_determinism_witness :
    runTrace 40
      (((initE full40 [("A", 50), ("B", 50), ("C", 50)] 300 0 40).toOption).getD default)
      [.keep, .keep] =
    runTrace 40
      (((initE full40 [("A", 50), ("B", 50), ("C", 50)] 300 0 40).toOption).getD default)
      [.keep, .keep] :=
  C9_determinism full40 [("A", 50), ("B", 50), ("C", 50)] 300 0 40 [.keep, .keep]
    _ _ rfl rfl

/-! ## Card-accounting lemmas for the conservation invariant -/

/-- Multiset of all cards in a list of player hands. -/
def handsMS (ps : List Player) : Multiset Card :=
  (ps.map (fun p => (p.cards : Multiset Card))).sum

/-- Multiset of all cards in a list of buco hands. -/
def bucosMS (bs : List Buco) : Multiset Card :=
  (bs.map (fun b => (b.cards : Multiset Card))).sum

/-- Multiset of all cards in archived tricks. -/
def tricksMS (ts : List (List (Actor × Card))) : Multiset Card :=
  (ts.map (fun t => ((t.map Prod.snd) : Multiset Card))).sum

lemma liveCards_eq (s : EngineSt) :
    liveCards s = (s.gs.deck : Multiset Card) + handsMS s.gs.players
      + bucosMS s.gs.buchi + tricksMS s.gs.tricks
      + ((s.gs.current_trick.map Prod.snd) : Multiset Card) + briscolaMS s := rfl

lemma coreCards_eq (s : EngineSt) :
    coreCards s = (s.gs.deck : Multiset Card) + handsMS s.gs.players
      + bucosMS s.gs.buchi + tricksMS s.gs.tricks + briscolaMS s := rfl

lemma handsMS_append (ps qs : List Player) :
    handsMS (ps ++ qs) = handsMS ps + handsMS qs := by
  simp [handsMS]

lemma bucosMS_append (ps qs : List Buco) :
    bucosMS (ps ++ qs) = bucosMS ps + bucosMS qs := by
  simp [bucosMS]

lemma tricksMS_append (ps qs : List (List (Actor × Card))) :
    tricksMS (ps ++ qs) = tricksMS ps + tricksMS qs := by
  simp [tricksMS]

/-- Updating one player's record trades their old hand for the new one in
the total hand multiset. -/
lemma handsMS_set (ps : List Player) (i : Nat) (p' : Player) (h : i < ps.length) :
    handsMS (ps.set i p') + ((ps.getD i default).cards : Multiset Card)
      = handsMS ps + (p'.cards : Multiset Card) := by
  induction ps generalizing i with
  | nil => simp at h
  | cons p t ih =>
    cases i with
    | zero =>
      simp only [List.set, handsMS, List.map_cons, Multiset.sum_cons, List.getD, List.get?]
      simp [handsMS] at *
      abel
    | succ n =>
      simp only [List.set, handsMS, List.map_cons, Multiset.sum_cons]
      have hn : n < t.length := by simpa using h
      have := ih n hn
      simp only [handsMS] at this
      simp only [List.getD_cons_succ]
      calc (p.cards : Multiset Card) + (List.map (fun p => (p.cards : Multiset Card)) (t.set n p')).sum
          + ((t.getD n default).cards : Multiset Card)
          = (p.cards : Multiset Card) + ((List.map (fun p => (p.cards : Multiset Card)) (t.set n p')).sum
            + ((t.getD n default).cards : Multiset Card)) := by abel
        _ = (p.cards : Multiset Card) + ((List.map (fun p => (p.cards : Multiset Card)) t).sum
            + (p'.cards : Multiset Card)) := by rw [this]
        _ = (p.cards : Multiset Card) + (List.map (fun p => (p.cards : Multiset Card)) t).sum
            + (p'.cards : Multiset Card) := by abel

/-- Updating one buco's record trades its old hand for the new one. -/
lemma bucosMS_set (bs : List Buco) (j : Nat) (b' : Buco) (h : j < bs.length) :
    bucosMS (bs.set j b') + ((bs.getD j default).cards : Multiset Card)
      = bucosMS bs + (b'.cards : Multiset Card) := by
  induction bs generalizing j with
  | nil => simp at h
  | cons b t ih =>
    cases j with
    | zero =>
      simp [bucosMS]
      abel
    | succ n =>
      simp only [List.set, bucosMS, List.map_cons, Multiset.sum_cons]
      have hn : n < t.length := by simpa using h
      have := ih n hn
      simp only [bucosMS] at this
      simp only [List.getD_cons_succ]
      calc (b.cards : Multiset Card) + (List.map (fun b => (b.cards : Multiset Card)) (t.set n b')).sum
          + ((t.getD n default).cards : Multiset Card)
          = (b.cards : Multiset Card) + ((List.map (fun b => (b.cards : Multiset Card)) (t.set n b')).sum
            + ((t.getD n default).cards : Multiset Card)) := by abel
        _ = (b.cards : Multiset Card) + ((List.map (fun b => (b.cards : Multiset Card)) t).sum
            + (b'.cards : Multiset Card)) := by rw [this]
        _ = (b.cards : Multiset Card) + (List.map (fun b => (b.cards : Multiset Card)) t).sum
            + (b'.cards : Multiset Card) := by abel

/-- Coercion of a cons to a multiset, in sum form. -/
lemma coe_cons_ms (c : Card) (t : List Card) :
    ((c :: t : List Card) : Multiset Card) = (t : Multiset Card) + {c} := by
  rw [← Multiset.cons_coe, ← Multiset.singleton_add, add_comm]

/-- Removing the first occurrence of a present card splits the hand
multiset. -/
lemma removeFirst_ms (l : List Card) (c : Card) (h : c ∈ l) :
    (l : Multiset Card) = (removeFirst l c : Multiset Card) + {c} := by
  induction l with
  | nil => simp at h
  | cons d t ih =>
    by_cases hd : d = c
    · subst hd
      simp only [removeFirst, if_pos rfl]
      exact coe_cons_ms d t
    · rcases List.mem_cons.1 h with h1 | h1
      · exact absurd h1.symm hd
      · simp only [removeFirst, if_neg hd]
        rw [coe_cons_ms d t, coe_cons_ms d (removeFirst t c), ih h1]
        abel

lemma removeFirst_length (l : List Card) (c : Card) (h : c ∈ l) :
    (removeFirst l c).length + 1 = l.length := by
  induction l with
  | nil => simp at h
  | cons d t ih =>
    by_cases hd : d = c
    · subst hd
      simp [removeFirst]
    · rcases List.mem_cons.1 h with h1 | h1
      · exact absurd h1.symm hd
      · simp only [removeFirst, if_neg hd, List.length_cons]
        rw [← ih h1]

/-- Python's clamping insert adds exactly the inserted card. -/
lemma pyInsert_ms (l : List Card) (n : Nat) (x : Card) :
    (pyInsert l n x : Multiset Card) = (l : Multiset Card) + {x} := by
  induction l generalizing n with
  | nil =>
    cases n <;> simp [pyInsert]
  | cons c t ih =>
    cases n with
    | zero => exact coe_cons_ms x (c :: t)
    | succ m =>
      simp only [pyInsert]
      rw [coe_cons_ms c (pyInsert t m x), ih m, coe_cons_ms c t]
      abel

lemma pyInsert_length (l : List Card) (n : Nat) (x : Card) :
    (pyInsert l n x).length = l.length + 1 := by
  induction l generalizing n with
  | nil => cases n <;> simp [pyInsert]
  | cons c t ih =>
    cases n with
    | zero => simp [pyInsert]
    | succ m => simp [pyInsert, ih m]

/-- Popping index k splits off exactly the k-th card. -/
lemma eraseIdx_ms (l : List Card) (k : Nat) (h : k < l.length) :
    (l : Multiset Card) = (l.eraseIdx k : Multiset Card) + {l.get ⟨k, h⟩} := by
  induction l generalizing k with
  | nil => simp at h
  | cons c t ih =>
    cases k with
    | zero => exact coe_cons_ms c t
    | succ m =>
      have hm : m < t.length := by simpa using h
      simp only [List.eraseIdx, List.get]
      rw [coe_cons_ms c t, coe_cons_ms c (t.eraseIdx m), ih m hm]
      abel

/-- `drawN` splits the deck: the drawn cards are the deck's prefix. -/
lemma drawN_ok (n : Nat) :
    ∀ (deck cs d' : List Card), drawN n deck = .ok (cs, d') →
      deck = cs ++ d' ∧ cs.length = n := by
  induction n with
  | zero =>
    intro deck cs d' h
    cases h
    simp
  | succ n ih =>
    intro deck cs d' h
    cases deck with
    | nil => exact Except.noConfusion h
    | cons c t =>
      simp only [drawN, draw] at h
      rcases hr : drawN n t with e | ⟨cs2, d2⟩ <;> rw [hr] at h
      · exact Except.noConfusion h
      · have hih := ih t cs2 d2 hr
        cases h
        constructor
        · simp [hih.1]
        · simp [hih.2]

lemma removeIdxCard_ok (cards : List Card) (idx : Nat) (cards' : List Card) (old : Card)
    (h : removeIdxCard cards idx = .ok (cards', old)) :
    (cards : Multiset Card) = (cards' : Multiset Card) + {old} ∧
      cards'.length + 1 = cards.length := by
  unfold removeIdxCard at h
  split at h
  · exact Except.noConfusion h
  · split at h
    · rename_i c heq hmem
      cases h
      exact ⟨removeFirst_ms _ _ hmem, removeFirst_length _ _ hmem⟩
    · exact Except.noConfusion h

lemma drawInsert_ok (cards deck : List Card) (idx : Nat) (cards' deck' : List Card)
    (h : drawInsert cards deck idx = .ok (cards', deck')) :
    (cards' : Multiset Card) + (deck' : Multiset Card)
        = (cards : Multiset Card) + (deck : Multiset Card) ∧
      cards'.length = cards.length + 1 := by
  unfold drawInsert at h
  cases deck with
  | nil => exact Except.noConfusion h
  | cons c t =>
    simp only [draw] at h
    cases h
    constructor
    · rw [pyInsert_ms, coe_cons_ms]
      abel
    · exact pyInsert_length _ _ _

/-! ## Reachability invariants -/

/-- Rotation of a participant list (turn order starting at index i). -/
def rot (l : List Actor) (i : Nat) : List Actor := l.drop i ++ l.take i

/-- Structural facts that hold in every reachable state. -/
structure SInv (s : EngineSt) : Prop where
  nP : s.gs.n_players = s.gs.players.length
  pp_nodup : s.gs.playing_players.Nodup
  pp_mem : ∀ i, i ∈ s.gs.playing_players ↔
    (i < s.gs.players.length ∧ (playerAt s.gs i).is_playing = true)
  playing_dealt : ∀ i, i < s.gs.players.length →
    (playerAt s.gs i).is_playing = true → i ∈ s.gs.dealt_to
  buco_mem : ∀ b ∈ s.gs.buchi, ∃ p, b.players = [p] ∧ p < s.gs.players.length ∧
    (playerAt s.gs p).in_buco = true ∧ (playerAt s.gs p).is_playing = false
  buco_inj : (s.gs.buchi.map Buco.players).Nodup
  in_buco_iff : ∀ i, i < s.gs.players.length →
    ((playerAt s.gs i).in_buco = true ↔ ∃ b ∈ s.gs.buchi, b.players = [i])
  in_buco_done : ∀ i, i < s.gs.players.length →
    (playerAt s.gs i).in_buco = true → i ∈ s.gs.buchi_entry_done

/-- Conservation with the ghost record; in SETTLE and FINE the stale trick
buffer duplicates the archived final trick and is excluded. -/
def ConsInv (s : EngineSt) : Prop :=
  match s.phase with
  | .settle => coreCards s + (s.gs.ghost_removed : Multiset Card) = full40MS
  | .fine => coreCards s + (s.gs.ghost_removed : Multiset Card) = full40MS
  | _ => liveCards s + (s.gs.ghost_removed : Multiset Card) = full40MS

/-- Hand sizes before the Play phase: 3 once dealt, 0 before. -/
def H1 (s : EngineSt) : Prop :=
  ∀ i, i < s.gs.players.length →
    (playerAt s.gs i).cards.length = if i ∈ s.gs.dealt_to then 3 else 0

/-- Buco hand sizes before the Play phase: 4 while the discard is pending,
3 afterwards. -/
def BucoLen (s : EngineSt) : Prop :=
  ∀ b ∈ s.gs.buchi,
    (b.discard_pending = true ∧ b.cards.length = 4) ∨
    (b.discard_pending = false ∧ b.cards.length = 3)

/-- Facts that hold in the pre-play phases at every loop entry. -/
def PrePlay (s : EngineSt) : Prop :=
  s.gs.tricks = [] ∧ s.gs.current_trick = [] ∧ H1 s ∧ BucoLen s

/-- Facts that hold at every loop entry of the Play phase. -/
def PlayInv (s : EngineSt) : Prop :=
  s.gs.tricks.length ≤ 2 ∧
  (∀ t ∈ s.gs.tricks, t ≠ [] ∧ ∀ x ∈ t, x.1 ∈ activeParticipants s) ∧
  (s.gs.current_trick = [] ∨
    ∃ i0, i0 < (activeParticipants s).length ∧
      s.gs.current_trick.map Prod.fst
        = (rot (activeParticipants s) i0).take s.gs.current_trick.length ∧
      s.gs.current_trick.length ≤ (activeParticipants s).length) ∧
  (∀ a ∈ activeParticipants s,
    (handOf s a).length + s.gs.tricks.length
      + (if a ∈ s.gs.current_trick.map Prod.fst then 1 else 0) = 3) ∧
  (s.gs.current_trick ≠ [] →
    ∃ w, s.gs.trick_winner = some w ∧ w ∈ s.gs.current_trick)

/-- Phase-indexed loop-entry invariant. -/
def PhaseInv (s : EngineSt) : Prop :=
  match s.phase with
  | .deal_decide => PrePlay s ∧ s.gs.buchi = []
  | .cambi => PrePlay s ∧ s.gs.buchi = []
  | .buchi_entry => PrePlay s
  | .buchi_discard => PrePlay s
  | .play => PlayInv s
  | .settle => True
  | .fine => True

/-- Loop-entry invariant of the auto-advance loop. -/
def MidInv (s : EngineSt) : Prop := SInv s ∧ ConsInv s ∧ PhaseInv s

/-- Extra facts that hold in observable states (when the loop has returned):
the pending actor's shape and the selector conditions that produced it. -/
def ObsX (s : EngineSt) : Prop :=
  match s.phase, s.current_actor with
  | .fine, none => True
  | .deal_decide, some a =>
      a.kind = .player ∧ a.id < s.gs.players.length ∧ a.id ∈ s.gs.dealt_to ∧
      (playerAt s.gs a.id).is_playing = false
  | .cambi, some a =>
      a.kind = .player ∧ a.id < s.gs.players.length ∧
      (playerAt s.gs a.id).is_playing = true
  | .buchi_entry, some a =>
      a.kind = .player ∧ a.id < s.gs.players.length ∧
      (playerAt s.gs a.id).is_playing = false ∧ (playerAt s.gs a.id).in_buco = false
  | .buchi_discard, some a =>
      a.kind = .buco ∧ a.id < s.gs.buchi.length ∧
      (bucoAt s.gs a.id).discard_pending = true ∧ (bucoAt s.gs a.id).cards.length = 4
  | .play, some a =>
      a ∈ activeParticipants s ∧
      ∃ i0, i0 < (activeParticipants s).length ∧
        s.gs.current_trick.map Prod.fst ++ [a]
          = (rot (activeParticipants s) i0).take (s.gs.current_trick.length + 1)
  | _, _ => False

/-- Observable-state invariant. -/
def ObsInv (s : EngineSt) : Prop := MidInv s ∧ ObsX s

/-! ### Elementary list lemmas for the invariant proofs -/

lemma getD_set_self {α : Type} [Inhabited α] (l : List α) (i : Nat) (x : α)
    (h : i < l.length) : (l.set i x).getD i default = x := by
  induction l generalizing i with
  | nil => simp at h
  | cons a t ih =>
    cases i with
    | zero => rfl
    | succ n => exact ih n (by simpa using h)

lemma getD_set_ne {α : Type} [Inhabited α] (l : List α) (i j : Nat) (x : α)
    (h : j ≠ i) : (l.set i x).getD j default = l.getD j default := by
  induction l generalizing i j with
  | nil => simp
  | cons a t ih =>
    cases i with
    | zero =>
      cases j with
      | zero => exact absurd rfl h
      | succ m => rfl
    | succ n =>
      cases j with
      | zero => rfl
      | succ m => exact ih n m (fun hc => h (by rw [hc]))

lemma getD_append_left {α : Type} [Inhabited α] (l t : List α) (j : Nat)
    (h : j < l.length) : (l ++ t).getD j default = l.getD j default := by
  induction l generalizing j with
  | nil => simp at h
  | cons a u ih =>
    cases j with
    | zero => rfl
    | succ m => exact ih m (by simpa using h)

lemma getD_append_right_self {α : Type} [Inhabited α] (l : List α) (x : α) :
    (l ++ [x]).getD l.length default = x := by
  induction l with
  | nil => rfl
  | cons a u ih => simpa using ih

lemma rot_length (l : List Actor) (i : Nat) : (rot l i).length = l.length := by
  simp [rot]
  omega

lemma rot_perm (l : List Actor) (i : Nat) : (rot l i).Perm l := by
  calc (l.drop i ++ l.take i).Perm (l.take i ++ l.drop i) := List.perm_append_comm
    _ = l := List.take_append_drop i l

lemma rot_nodup (l : List Actor) (i : Nat) (h : l.Nodup) : (rot l i).Nodup :=
  (rot_perm l i).nodup_iff.2 h

lemma rot_mem (l : List Actor) (i : Nat) (a : Actor) : a ∈ rot l i ↔ a ∈ l :=
  (rot_perm l i).mem_iff

lemma rot_getElem (l : List Actor) (i0 j : Nat) (hi : i0 < l.length)
    (hj : j < (rot l i0).length) (hm : (i0 + j) % l.length < l.length) :
    (rot l i0)[j] = l[(i0 + j) % l.length] := by
  have hjl : j < l.length := by rwa [rot_length] at hj
  unfold rot at hj ⊢
  rw [List.getElem_append]
  have hdl : (l.drop i0).length = l.length - i0 := List.length_drop i0 l
  split
  · rename_i h'
    rw [List.getElem_drop]
    congr 1
    rw [hdl] at h'
    exact (Nat.mod_eq_of_lt (by omega)).symm
  · rename_i h'
    rw [List.getElem_take]
    congr 1
    rw [hdl] at h'
    have hle : l.length ≤ i0 + j := by omega
    have hlt : i0 + j - l.length < l.length := by omega
    rw [Nat.mod_eq_sub_mod hle, Nat.mod_eq_of_lt hlt]
    omega

/-! ### The active-participant rotation -/

/-- The seat visiting order (counter-clockwise from dealer's right). -/
def seats (n dealer : Nat) : List Nat :=
  (List.range n).map (fun offset => ((dealer + 1) % n + offset) % n)

/-- The per-seat contribution to the active-participant list. -/
def seatStep (s : EngineSt) (idx : Nat) : List Actor :=
  let player := playerAt s.gs idx
  if player.is_playing = true then [Actor.mk .player idx]
  else if player.in_buco = true then
    match s.gs.buchi.findIdx? (fun buco => idx ∈ buco.players) with
    | some buco_idx =>
      if (bucoAt s.gs buco_idx).players.head? = some idx then
        [Actor.mk .buco buco_idx]
      else []
    | none => []
  else []

lemma activeParticipants_eq (s : EngineSt) :
    activeParticipants s
      = (seats s.gs.n_players s.gs.dealer).flatMap (seatStep s) := by
  unfold activeParticipants seats seatStep
  rw [List.flatMap_map]

lemma seats_nodup (n dealer : Nat) : (seats n dealer).Nodup := by
  unfold seats
  apply List.Nodup.map_on
  · intro a ha b hb hab
    have han : a < n := List.mem_range.1 ha
    have hbn : b < n := List.mem_range.1 hb
    have hmn : ((dealer + 1) % n + a) ≡ ((dealer + 1) % n + b) [MOD n] := hab
    have := Nat.ModEq.add_left_cancel' ((dealer + 1) % n) hmn
    calc a = a % n := (Nat.mod_eq_of_lt han).symm
      _ = b % n := this
      _ = b := Nat.mod_eq_of_lt hbn
  · exact List.nodup_range n

lemma seats_mem (n dealer : Nat) (i : Nat) : i ∈ seats n dealer ↔ i < n := by
  constructor
  · intro h
    rcases List.mem_map.1 h with ⟨off, hoff, rfl⟩
    have hn : 0 < n := by
      rcases Nat.eq_zero_or_pos n with h0 | h0
      · subst h0
        simp at hoff
      · exact h0
    exact Nat.mod_lt _ hn
  · intro h
    have hn : 0 < n := by omega
    have hperm : (seats n dealer).Perm (List.range n) := by
      apply List.Subperm.perm_of_length_le
      · apply List.Nodup.subperm (seats_nodup n dealer)
        intro x hx
        rcases List.mem_map.1 hx with ⟨off, _, rfl⟩
        exact List.mem_range.2 (Nat.mod_lt _ hn)
      · simp [seats]
    exact hperm.mem_iff.2 (List.mem_range.2 h)

lemma seats_perm (n dealer : Nat) : (seats n dealer).Perm (List.range n) := by
  rcases Nat.eq_zero_or_pos n with h0 | h0
  · subst h0
    simp [seats]
  · apply List.Subperm.perm_of_length_le
    · apply List.Nodup.subperm (seats_nodup n dealer)
      intro x hx
      rcases List.mem_map.1 hx with ⟨off, _, rfl⟩
      exact List.mem_range.2 (Nat.mod_lt _ h0)
    · simp [seats]

lemma getD_lt {α : Type} [Inhabited α] (l : List α) (j : Nat) (h : j < l.length) :
    l.getD j default = l[j] := by
  rw [List.getD_eq_getElem?_getD, List.getElem?_eq_getElem h]
  rfl

/-- Shape of a seat's contribution: the seat's kept player, or a buco whose
first member sits there. -/
lemma seatStep_shape (s : EngineSt) (i : Nat) (a : Actor) (h : a ∈ seatStep s i) :
    a = Actor.mk .player i ∨
      (∃ j, a = Actor.mk .buco j ∧ (bucoAt s.gs j).players.head? = some i) := by
  simp only [seatStep] at h
  split at h
  · exact Or.inl (List.mem_singleton.1 h)
  · split at h
    · split at h
      · split at h
        · rename_i hhead
          exact Or.inr ⟨_, List.mem_singleton.1 h, hhead⟩
        · simp at h
      · simp at h
    · simp at h

/-- Membership of a player actor in a seat's contribution. -/
lemma seatStep_player_mem (s : EngineSt) (i idx : Nat)
    (h : Actor.mk .player i ∈ seatStep s idx) :
    i = idx ∧ (playerAt s.gs idx).is_playing = true := by
  simp only [seatStep] at h
  split at h
  · rename_i hp
    have heq := List.mem_singleton.1 h
    cases heq
    exact ⟨rfl, hp⟩
  · split at h
    · split at h
      · split at h
        · have heq := List.mem_singleton.1 h
          exact Actor.noConfusion heq (fun hk _ => ActorKind.noConfusion hk)
        · simp at h
      · simp at h
    · simp at h

/-- Membership of a buco actor in a seat's contribution. -/
lemma seatStep_buco_mem (s : EngineSt) (j idx : Nat)
    (h : Actor.mk .buco j ∈ seatStep s idx) :
    (playerAt s.gs idx).is_playing = false ∧ (playerAt s.gs idx).in_buco = true ∧
      s.gs.buchi.findIdx? (fun buco => idx ∈ buco.players) = some j ∧
      (bucoAt s.gs j).players.head? = some idx := by
  simp only [seatStep] at h
  split at h
  · have heq := List.mem_singleton.1 h
    exact Actor.noConfusion heq (fun hk _ => ActorKind.noConfusion hk)
  · rename_i hp
    split at h
    · rename_i hb
      split at h
      · rename_i bidx hfind
        split at h
        · rename_i hhead
          have heq := List.mem_singleton.1 h
          have hj : bidx = j := by
            cases heq
            rfl
          subst hj
          exact ⟨by simpa using hp, hb, hfind, hhead⟩
        · simp at h
      · simp at h
    · simp at h

lemma AP_mem_player_iff (s : EngineSt) (hS : SInv s) (i : Nat) :
    Actor.mk .player i ∈ activeParticipants s ↔
      i < s.gs.players.length ∧ (playerAt s.gs i).is_playing = true := by
  rw [activeParticipants_eq, List.mem_flatMap]
  constructor
  · rintro ⟨idx, hidx, hmem⟩
    rcases seatStep_player_mem s i idx hmem with ⟨rfl, hp⟩
    have := (seats_mem _ _ i).1 hidx
    rw [hS.nP] at this
    exact ⟨this, hp⟩
  · rintro ⟨hi, hp⟩
    refine ⟨i, (seats_mem _ _ i).2 (by rw [hS.nP]; exact hi), ?_⟩
    simp [seatStep, hp]

/-- With the structural invariant, the `findIdx?` lookup for a buco member
seat finds exactly that buco. -/
lemma findIdx_member (s : EngineSt) (hS : SInv s) (j : Nat) (p : Nat)
    (hj : j < s.gs.buchi.length) (hpl : (s.gs.buchi[j]).players = [p]) :
    s.gs.buchi.findIdx? (fun buco => p ∈ buco.players) = some j := by
  rw [List.findIdx?_eq_some_iff_getElem]
  refine ⟨hj, by simp [hpl], ?_⟩
  intro j2 hj2
  simp only [Bool.not_eq_true, decide_eq_false_iff_not]
  intro hmem
  rcases hS.buco_mem (s.gs.buchi[j2]) (List.getElem_mem _) with ⟨q, hq, _, _, _⟩
  rw [hq] at hmem
  cases List.mem_singleton.1 hmem
  have hb2 : j2 < (s.gs.buchi.map Buco.players).length := by
    simp only [List.length_map]
    omega
  have hb1 : j < (s.gs.buchi.map Buco.players).length := by
    simp only [List.length_map]
    exact hj
  have hmap : (s.gs.buchi.map Buco.players)[j2] = (s.gs.buchi.map Buco.players)[j] := by
    rw [List.getElem_map, List.getElem_map, hq, hpl]
  have := (hS.buco_inj.getElem_inj_iff).1 hmap
  omega

lemma AP_mem_buco_iff (s : EngineSt) (hS : SInv s) (j : Nat) :
    Actor.mk .buco j ∈ activeParticipants s ↔ j < s.gs.buchi.length := by
  rw [activeParticipants_eq, List.mem_flatMap]
  constructor
  · rintro ⟨idx, hidx, hmem⟩
    rcases seatStep_buco_mem s j idx hmem with ⟨_, _, hfind, _⟩
    rcases (List.findIdx?_eq_some_iff_getElem).1 hfind with ⟨hlt, _, _⟩
    exact hlt
  · intro hj
    rcases hS.buco_mem (s.gs.buchi[j]) (List.getElem_mem _) with
      ⟨p, hpl, hpn, hin, hnp⟩
    refine ⟨p, (seats_mem _ _ p).2 (by rw [hS.nP]; exact hpn), ?_⟩
    have hbj : bucoAt s.gs j = s.gs.buchi[j] := getD_lt _ _ hj
    simp [seatStep, hnp, hin, findIdx_member s hS j p hj hpl, hbj, hpl]

/-- The active-participant list has no duplicates. -/
lemma AP_nodup (s : EngineSt) : (activeParticipants s).Nodup := by
  rw [activeParticipants_eq, List.nodup_flatMap]
  constructor
  · intro idx _
    simp only [seatStep]
    split
    · exact List.nodup_singleton _
    · split
      · split
        · split
          · exact List.nodup_singleton _
          · exact List.nodup_nil
        · exact List.nodup_nil
      · exact List.nodup_nil
  · apply List.Pairwise.imp ?_ (seats_nodup _ _)
    intro i1 i2 hne
    intro a ha1 ha2
    rcases seatStep_shape s i1 a ha1 with heq1 | ⟨j1, heq1, hh1⟩ <;>
      rcases seatStep_shape s i2 a ha2 with heq2 | ⟨j2, heq2, hh2⟩
    · exact hne (by cases heq1.symm.trans heq2; rfl)
    · subst heq1
      exact Actor.noConfusion heq2 (fun hk _ => ActorKind.noConfusion hk)
    · subst heq2
      exact Actor.noConfusion heq1 (fun hk _ => ActorKind.noConfusion hk)
    · subst heq1
      have hj : j1 = j2 := by cases heq2; rfl
      subst hj
      rw [hh1] at hh2
      exact hne (Option.some.inj hh2)

/-! ### More list helpers -/

lemma set_getElem_self {α : Type} (l : List α) (i : Nat) (h : i < l.length) :
    l.set i l[i] = l := by
  induction l generalizing i with
  | nil => simp at h
  | cons a t ih =>
    cases i with
    | zero => rfl
    | succ n =>
      simp only [List.set, List.getElem_cons_succ]
      rw [ih n (by simpa using h)]

lemma getD_map {α β : Type} (f : α → β) (l : List α) (i : Nat) (d : α) :
    (l.map f).getD i (f d) = f (l.getD i d) := by
  induction l generalizing i with
  | nil => rfl
  | cons a t ih =>
    cases i with
    | zero => rfl
    | succ n => exact ih n

lemma flatMap_congr_fun {α β : Type} (l : List α) (f g : α → List β)
    (h : ∀ a, f a = g a) : l.flatMap f = l.flatMap g := by
  induction l with
  | nil => rfl
  | cons a t ih => simp only [List.flatMap_cons, h a, ih]

lemma not_mem_take_of_nodup {α : Type} (l : List α) (j : Nat) (hn : l.Nodup)
    (hj : j < l.length) : l[j] ∉ l.take j := by
  intro hmem
  rw [List.mem_take_iff_getElem] at hmem
  obtain ⟨i, hi, hEq⟩ := hmem
  have := (hn.getElem_inj_iff).1 hEq
  omega

lemma foldl_choice_mem {β : Type} (f : β → β → β)
    (hf : ∀ acc p, f acc p = acc ∨ f acc p = p) :
    ∀ (t : List β) (a : β), t.foldl f a ∈ a :: t := by
  intro t
  induction t with
  | nil => intro a; simp
  | cons b u ih =>
    intro a
    simp only [List.foldl_cons]
    have hmem := ih (f a b)
    rcases List.mem_cons.1 hmem with h | h
    · rw [h]
      rcases hf a b with h2 | h2 <;> rw [h2] <;> simp
    · exact List.mem_cons_of_mem _ (List.mem_cons_of_mem _ h)

/-- The winner fold always returns one of the trick's plays. -/
lemma computeWinner_mem (lead brisc : Option Suit) (trick : List (Actor × Card))
    (w : Actor × Card) (h : computeWinner lead brisc trick = some w) : w ∈ trick := by
  cases trick with
  | nil => exact Option.noConfusion h
  | cons a t =>
    simp only [computeWinner, Option.some.injEq] at h
    rw [← h]
    exact foldl_choice_mem
      (fun winner p => if 0 < compare_cards lead brisc p.2 winner.2 then p else winner)
      (fun acc p => by
        by_cases hc : 0 < compare_cards lead brisc p.2 acc.2 <;> simp [hc]) t a

/-! ### The active-participant enumeration -/

/-- Under the structural invariant, the active participants are a permutation
of the kept players followed by the buchi. -/
lemma AP_perm (s : EngineSt) (hS : SInv s) :
    (activeParticipants s).Perm
      (s.gs.playing_players.map (Actor.mk .player)
        ++ (List.range s.gs.buchi.length).map (Actor.mk .buco)) := by
  have hR : (s.gs.playing_players.map (Actor.mk .player)
      ++ (List.range s.gs.buchi.length).map (Actor.mk .buco)).Nodup := by
    rw [List.nodup_append]
    refine ⟨hS.pp_nodup.map (fun a b hab => by simpa using hab),
      (List.nodup_range _).map (fun a b hab => by simpa using hab), ?_⟩
    intro a ha hb
    rcases List.mem_map.1 ha with ⟨i, _, rfl⟩
    rcases List.mem_map.1 hb with ⟨j, _, hac⟩
    exact Actor.noConfusion hac (fun hk _ => ActorKind.noConfusion hk)
  refine (List.perm_ext_iff_of_nodup (AP_nodup s) hR).2 ?_
  intro a
  obtain ⟨k, i⟩ := a
  cases k with
  | player =>
    rw [AP_mem_player_iff s hS i, ← hS.pp_mem i]
    simp
  | buco =>
    rw [AP_mem_buco_iff s hS i]
    simp

/-- The active-participant list realises `_num_active_participants`. -/
lemma AP_len (s : EngineSt) (hS : SInv s) :
    (activeParticipants s).length = num_active_participants s := by
  rw [(AP_perm s hS).length_eq]
  simp [num_active_participants]

/-- The active-participant list only depends on the seat count, the dealer,
the per-seat flags and the buco membership lists. -/
lemma AP_congr (s' s : EngineSt)
    (hn : s'.gs.n_players = s.gs.n_players) (hd : s'.gs.dealer = s.gs.dealer)
    (hp : ∀ i, (playerAt s'.gs i).is_playing = (playerAt s.gs i).is_playing)
    (hb : ∀ i, (playerAt s'.gs i).in_buco = (playerAt s.gs i).in_buco)
    (hm : s'.gs.buchi.map Buco.players = s.gs.buchi.map Buco.players) :
    activeParticipants s' = activeParticipants s := by
  have hbuco : ∀ j, (bucoAt s'.gs j).players = (bucoAt s.gs j).players := by
    intro j
    have h1 := getD_map Buco.players s'.gs.buchi j default
    have h2 := getD_map Buco.players s.gs.buchi j default
    rw [hm] at h1
    exact h1.symm.trans h2
  have hfind : ∀ idx, s'.gs.buchi.findIdx? (fun buco => idx ∈ buco.players)
      = s.gs.buchi.findIdx? (fun buco => idx ∈ buco.players) := by
    intro idx
    have h1 := List.findIdx?_map (p := fun pl => decide (idx ∈ pl)) Buco.players s'.gs.buchi
    have h2 := List.findIdx?_map (p := fun pl => decide (idx ∈ pl)) Buco.players s.gs.buchi
    rw [hm] at h1
    exact h1.symm.trans h2
  have hstep : ∀ idx, seatStep s' idx = seatStep s idx := by
    intro idx
    simp only [seatStep]
    rw [hp idx, hb idx, hfind idx]
    simp only [hbuco]
  rw [activeParticipants_eq s', activeParticipants_eq s, hn, hd]
  exact flatMap_congr_fun _ _ _ hstep

/-! ### Field-access lemmas for the in-place updates -/

lemma playerAt_updPlayer_self (gs : GameState) (k : Nat) (f : Player → Player)
    (h : k < gs.players.length) :
    playerAt (updPlayer gs k f) k = f (playerAt gs k) := by
  simp only [playerAt, updPlayer]
  have := getD_set_self (α := Player) gs.players k (f (gs.players.getD k default)) h
  simpa [playerAt] using this

lemma playerAt_updPlayer_ne (gs : GameState) (k : Nat) (f : Player → Player)
    (i : Nat) (h : i ≠ k) :
    playerAt (updPlayer gs k f) i = playerAt gs i := by
  simp only [playerAt, updPlayer]
  exact getD_set_ne _ _ _ _ h

lemma bucoAt_updBuco_self (gs : GameState) (k : Nat) (f : Buco → Buco)
    (h : k < gs.buchi.length) :
    bucoAt (updBuco gs k f) k = f (bucoAt gs k) := by
  simp only [bucoAt, updBuco]
  have := getD_set_self (α := Buco) gs.buchi k (f (gs.buchi.getD k default)) h
  simpa [bucoAt] using this

lemma bucoAt_updBuco_ne (gs : GameState) (k : Nat) (f : Buco → Buco)
    (j : Nat) (h : j ≠ k) :
    bucoAt (updBuco gs k f) j = bucoAt gs j := by
  simp only [bucoAt, updBuco]
  exact getD_set_ne _ _ _ _ h

lemma playerAt_default (gs : GameState) (i : Nat) (h : gs.players.length ≤ i) :
    playerAt gs i = default := by
  simp only [playerAt]
  rw [List.getD_eq_default]
  exact h

/-! ### Settlement only moves money: player shapes are preserved -/

/-- The card-relevant shape of a player record (everything except the name
and the bankroll, which settlement may change). -/
def pshape (p : Player) : List Card × Bool × Bool × Nat :=
  (p.cards, p.is_playing, p.in_buco, p.tricks_won)

lemma map_pshape_updBank (ps : List Player) (i : Nat) (d : Int) :
    (updBank ps i d).map pshape = ps.map pshape := by
  unfold updBank
  rcases hg : ps.get? i with _ | p
  · rfl
  · rw [List.get?_eq_getElem?] at hg
    rcases List.getElem?_eq_some_iff.1 hg with ⟨hi, hp⟩
    rw [List.map_set]
    have hbi : i < (ps.map pshape).length := by
      simpa using hi
    have h1 : pshape { p with bankroll := p.bankroll + d }
        = (ps.map pshape)[i] := by
      rw [List.getElem_map, hp]
      rfl
    rw [h1, set_getElem_self]

lemma map_pshape_foldl {γ : Type} (g : List Player → γ → List Player)
    (hg : ∀ ps r, (g ps r).map pshape = ps.map pshape) :
    ∀ (l : List γ) (ps : List Player), (l.foldl g ps).map pshape = ps.map pshape := by
  intro l
  induction l with
  | nil => intro ps; rfl
  | cons r t ih =>
    intro ps
    rw [List.foldl_cons, ih, hg]

lemma map_pshape_foldl2 {γ : Type} (g : List Player × Int → γ → List Player × Int)
    (hg : ∀ acc r, (g acc r).1.map pshape = acc.1.map pshape) :
    ∀ (l : List γ) (acc : List Player × Int),
      (l.foldl g acc).1.map pshape = acc.1.map pshape := by
  intro l
  induction l with
  | nil => intro acc; rfl
  | cons r t ih =>
    intro acc
    rw [List.foldl_cons, ih, hg]

lemma settleE_players_pshape (gs : GameState) :
    (settleE gs).players.map pshape = gs.players.map pshape := by
  simp only [settleE]
  split
  · rfl
  · rw [map_pshape_foldl2, map_pshape_foldl]
    · intro ps r
      cases r with
      | player i => exact map_pshape_updBank ps i _
      | buco j => exact map_pshape_foldl _ (fun ps' p => map_pshape_updBank ps' p _) _ ps
    · intro acc r
      by_cases h0 : tricksOfRef gs r = 0
      · rw [if_pos h0]
        cases r with
        | player i => exact map_pshape_updBank acc.1 i _
        | buco j => exact map_pshape_foldl _ (fun ps' p => map_pshape_updBank ps' p _) _ acc.1
      · rw [if_neg h0]

lemma settleE_fields (gs : GameState) :
    (settleE gs).deck = gs.deck ∧ (settleE gs).buchi = gs.buchi ∧
    (settleE gs).tricks = gs.tricks ∧ (settleE gs).current_trick = gs.current_trick ∧
    (settleE gs).briscola_card = gs.briscola_card ∧
    (settleE gs).ghost_removed = gs.ghost_removed ∧
    (settleE gs).playing_players = gs.playing_players ∧
    (settleE gs).n_players = gs.n_players := by
  simp only [settleE]
  split
  · exact ⟨rfl, rfl, rfl, rfl, rfl, rfl, rfl, rfl⟩
  · exact ⟨rfl, rfl, rfl, rfl, rfl, rfl, rfl, rfl⟩

lemma settleE_players_length (gs : GameState) :
    (settleE gs).players.length = gs.players.length := by
  have := congrArg List.length (settleE_players_pshape gs)
  simpa using this

lemma settleE_playerAt (gs : GameState) (i : Nat) :
    pshape (playerAt (settleE gs) i) = pshape (playerAt gs i) := by
  by_cases hi : i < gs.players.length
  · have hlen := settleE_players_length gs
    have hbi : i < (settleE gs).players.length := by omega
    have h1 : playerAt (settleE gs) i = (settleE gs).players[i] :=
      List.getD_eq_getElem _ _ _
    have h2 : playerAt gs i = gs.players[i] := List.getD_eq_getElem _ _ _
    rw [h1, h2]
    have h3 := settleE_players_pshape gs
    have hb4 : i < ((settleE gs).players.map pshape).length := by
      simp only [List.length_map]
      omega
    have hb5 : i < (gs.players.map pshape).length := by
      simpa using hi
    have h4 : ((settleE gs).players.map pshape)[i]
        = (gs.players.map pshape)[i] := by
      simp only [h3]
    simpa using h4
  · have hlen := settleE_players_length gs
    rw [playerAt_default _ _ (by omega), playerAt_default _ _ (by omega)]

lemma pshape_parts {p q : Player} (h : pshape p = pshape q) :
    p.cards = q.cards ∧ p.is_playing = q.is_playing ∧ p.in_buco = q.in_buco ∧
      p.tricks_won = q.tricks_won := by
  simpa [pshape] using h

lemma handsMS_eq_of_pshape (ps qs : List Player)
    (h : ps.map pshape = qs.map pshape) : handsMS ps = handsMS qs := by
  unfold handsMS
  have h1 : ps.map (fun p => ((p.cards : List Card) : Multiset Card))
      = (ps.map pshape).map (fun x => ((x.1 : List Card) : Multiset Card)) := by
    rw [List.map_map]
    rfl
  have h2 : qs.map (fun p => ((p.cards : List Card) : Multiset Card))
      = (qs.map pshape).map (fun x => ((x.1 : List Card) : Multiset Card)) := by
    rw [List.map_map]
    rfl
  rw [h1, h2, h]

/-! ### Phase-indexed intro/elim helpers -/

lemma ConsInv_other_intro (s : EngineSt) (h1 : s.phase ≠ .settle) (h2 : s.phase ≠ .fine)
    (h : liveCards s + (s.gs.ghost_removed : Multiset Card) = full40MS) : ConsInv s := by
  unfold ConsInv
  cases hp : s.phase
  all_goals first
    | exact h
    | exact absurd hp h1
    | exact absurd hp h2

lemma ConsInv_other_elim (s : EngineSt) (h1 : s.phase ≠ .settle) (h2 : s.phase ≠ .fine)
    (hC : ConsInv s) :
    liveCards s + (s.gs.ghost_removed : Multiset Card) = full40MS := by
  unfold ConsInv at hC
  cases hp : s.phase <;> rw [hp] at hC
  all_goals first
    | exact hC
    | exact absurd hp h1
    | exact absurd hp h2

lemma ConsInv_core_intro (s : EngineSt)
    (hph : s.phase = .settle ∨ s.phase = .fine)
    (h : coreCards s + (s.gs.ghost_removed : Multiset Card) = full40MS) : ConsInv s := by
  unfold ConsInv
  rcases hph with hp | hp <;> rw [hp] <;> exact h

lemma ConsInv_core_elim (s : EngineSt)
    (hph : s.phase = .settle ∨ s.phase = .fine) (hC : ConsInv s) :
    coreCards s + (s.gs.ghost_removed : Multiset Card) = full40MS := by
  unfold ConsInv at hC
  rcases hph with hp | hp <;> rw [hp] at hC <;> exact hC

lemma PhaseInv_deal_intro (s : EngineSt) (hph : s.phase = .deal_decide)
    (h : PrePlay s ∧ s.gs.buchi = []) : PhaseInv s := by
  unfold PhaseInv
  rw [hph]
  exact h

lemma PhaseInv_deal_elim (s : EngineSt) (hph : s.phase = .deal_decide)
    (h : PhaseInv s) : PrePlay s ∧ s.gs.buchi = [] := by
  unfold PhaseInv at h
  rw [hph] at h
  exact h

lemma PhaseInv_cambi_intro (s : EngineSt) (hph : s.phase = .cambi)
    (h : PrePlay s ∧ s.gs.buchi = []) : PhaseInv s := by
  unfold PhaseInv
  rw [hph]
  exact h

lemma PhaseInv_cambi_elim (s : EngineSt) (hph : s.phase = .cambi)
    (h : PhaseInv s) : PrePlay s ∧ s.gs.buchi = [] := by
  unfold PhaseInv at h
  rw [hph] at h
  exact h

lemma PhaseInv_bentry_intro (s : EngineSt) (hph : s.phase = .buchi_entry)
    (h : PrePlay s) : PhaseInv s := by
  unfold PhaseInv
  rw [hph]
  exact h

lemma PhaseInv_bentry_elim (s : EngineSt) (hph : s.phase = .buchi_entry)
    (h : PhaseInv s) : PrePlay s := by
  unfold PhaseInv at h
  rw [hph] at h
  exact h

lemma PhaseInv_bdiscard_intro (s : EngineSt) (hph : s.phase = .buchi_discard)
    (h : PrePlay s) : PhaseInv s := by
  unfold PhaseInv
  rw [hph]
  exact h

lemma PhaseInv_bdiscard_elim (s : EngineSt) (hph : s.phase = .buchi_discard)
    (h : PhaseInv s) : PrePlay s := by
  unfold PhaseInv at h
  rw [hph] at h
  exact h

lemma PhaseInv_play_intro (s : EngineSt) (hph : s.phase = .play)
    (h : PlayInv s) : PhaseInv s := by
  unfold PhaseInv
  rw [hph]
  exact h

lemma PhaseInv_play_elim (s : EngineSt) (hph : s.phase = .play)
    (h : PhaseInv s) : PlayInv s := by
  unfold PhaseInv at h
  rw [hph] at h
  exact h

lemma PhaseInv_settle_fine_intro (s : EngineSt)
    (hph : s.phase = .settle ∨ s.phase = .fine) : PhaseInv s := by
  unfold PhaseInv
  rcases hph with hp | hp <;> rw [hp] <;> exact trivial

lemma ObsX_deal_elim (s : EngineSt) (a : Actor) (hph : s.phase = .deal_decide)
    (hact : s.current_actor = some a) (h : ObsX s) :
    a.kind = .player ∧ a.id < s.gs.players.length ∧ a.id ∈ s.gs.dealt_to ∧
      (playerAt s.gs a.id).is_playing = false := by
  unfold ObsX at h
  rw [hph, hact] at h
  exact h

lemma ObsX_deal_intro (s : EngineSt) (a : Actor) (hph : s.phase = .deal_decide)
    (hact : s.current_actor = some a)
    (h : a.kind = .player ∧ a.id < s.gs.players.length ∧ a.id ∈ s.gs.dealt_to ∧
      (playerAt s.gs a.id).is_playing = false) : ObsX s := by
  unfold ObsX
  rw [hph, hact]
  exact h

lemma ObsX_cambi_elim (s : EngineSt) (a : Actor) (hph : s.phase = .cambi)
    (hact : s.current_actor = some a) (h : ObsX s) :
    a.kind = .player ∧ a.id < s.gs.players.length ∧
      (playerAt s.gs a.id).is_playing = true := by
  unfold ObsX at h
  rw [hph, hact] at h
  exact h

lemma ObsX_cambi_intro (s : EngineSt) (a : Actor) (hph : s.phase = .cambi)
    (hact : s.current_actor = some a)
    (h : a.kind = .player ∧ a.id < s.gs.players.length ∧
      (playerAt s.gs a.id).is_playing = true) : ObsX s := by
  unfold ObsX
  rw [hph, hact]
  exact h

lemma ObsX_bentry_elim (s : EngineSt) (a : Actor) (hph : s.phase = .buchi_entry)
    (hact : s.current_actor = some a) (h : ObsX s) :
    a.kind = .player ∧ a.id < s.gs.players.length ∧
      (playerAt s.gs a.id).is_playing = false ∧ (playerAt s.gs a.id).in_buco = false := by
  unfold ObsX at h
  rw [hph, hact] at h
  exact h

lemma ObsX_bentry_intro (s : EngineSt) (a : Actor) (hph : s.phase = .buchi_entry)
    (hact : s.current_actor = some a)
    (h : a.kind = .player ∧ a.id < s.gs.players.length ∧
      (playerAt s.gs a.id).is_playing = false ∧ (playerAt s.gs a.id).in_buco = false) :
    ObsX s := by
  unfold ObsX
  rw [hph, hact]
  exact h

lemma ObsX_bdiscard_elim (s : EngineSt) (a : Actor) (hph : s.phase = .buchi_discard)
    (hact : s.current_actor = some a) (h : ObsX s) :
    a.kind = .buco ∧ a.id < s.gs.buchi.length ∧
      (bucoAt s.gs a.id).discard_pending = true ∧ (bucoAt s.gs a.id).cards.length = 4 := by
  unfold ObsX at h
  rw [hph, hact] at h
  exact h

lemma ObsX_bdiscard_intro (s : EngineSt) (a : Actor) (hph : s.phase = .buchi_discard)
    (hact : s.current_actor = some a)
    (h : a.kind = .buco ∧ a.id < s.gs.buchi.length ∧
      (bucoAt s.gs a.id).discard_pending = true ∧ (bucoAt s.gs a.id).cards.length = 4) :
    ObsX s := by
  unfold ObsX
  rw [hph, hact]
  exact h

lemma ObsX_play_elim (s : EngineSt) (a : Actor) (hph : s.phase = .play)
    (hact : s.current_actor = some a) (h : ObsX s) :
    a ∈ activeParticipants s ∧
      ∃ i0, i0 < (activeParticipants s).length ∧
        s.gs.current_trick.map Prod.fst ++ [a]
          = (rot (activeParticipants s) i0).take (s.gs.current_trick.length + 1) := by
  unfold ObsX at h
  rw [hph, hact] at h
  exact h

lemma ObsX_play_intro (s : EngineSt) (a : Actor) (hph : s.phase = .play)
    (hact : s.current_actor = some a)
    (h : a ∈ activeParticipants s ∧
      ∃ i0, i0 < (activeParticipants s).length ∧
        s.gs.current_trick.map Prod.fst ++ [a]
          = (rot (activeParticipants s) i0).take (s.gs.current_trick.length + 1)) :
    ObsX s := by
  unfold ObsX
  rw [hph, hact]
  exact h

lemma ObsX_fine_intro (s : EngineSt) (hph : s.phase = .fine)
    (hact : s.current_actor = none) : ObsX s := by
  unfold ObsX
  rw [hph, hact]
  exact trivial

/-! ### Same-cards record updates leave the card totals unchanged -/

lemma handsMS_set_same_cards (ps : List Player) (i : Nat) (p' : Player)
    (h : i < ps.length) (hc : p'.cards = (ps.getD i default).cards) :
    handsMS (ps.set i p') = handsMS ps := by
  have h2 := handsMS_set ps i p' h
  rw [hc] at h2
  exact add_right_cancel h2

lemma bucosMS_set_same_cards (bs : List Buco) (j : Nat) (b' : Buco)
    (h : j < bs.length) (hc : b'.cards = (bs.getD j default).cards) :
    bucosMS (bs.set j b') = bucosMS bs := by
  have h2 := bucosMS_set bs j b' h
  rw [hc] at h2
  exact add_right_cancel h2

/-! ### Invariant transfer along shape-preserving state changes -/

/-- `SInv` only looks at the seat count, the flags, the playing list, the
buco membership lists and the done/dealt bookkeeping; any step preserving
those (up to growing the bookkeeping lists) preserves it. -/
lemma SInv_of_shape (s' s : EngineSt)
    (hn : s'.gs.n_players = s.gs.n_players)
    (hlen : s'.gs.players.length = s.gs.players.length)
    (hpp : s'.gs.playing_players = s.gs.playing_players)
    (hflags : ∀ i, (playerAt s'.gs i).is_playing = (playerAt s.gs i).is_playing ∧
      (playerAt s'.gs i).in_buco = (playerAt s.gs i).in_buco)
    (hbl : s'.gs.buchi.map Buco.players = s.gs.buchi.map Buco.players)
    (hdone : ∀ i, i ∈ s.gs.buchi_entry_done → i ∈ s'.gs.buchi_entry_done)
    (hdealt : ∀ i, i ∈ s.gs.dealt_to → i ∈ s'.gs.dealt_to)
    (hS : SInv s) : SInv s' := by
  have hexists : ∀ (x : List Nat),
      (∃ b ∈ s'.gs.buchi, b.players = x) ↔ (∃ b ∈ s.gs.buchi, b.players = x) := by
    intro x
    constructor
    · rintro ⟨b, hb, rfl⟩
      have hm : b.players ∈ s.gs.buchi.map Buco.players := by
        rw [← hbl]
        exact List.mem_map_of_mem _ hb
      rcases List.mem_map.1 hm with ⟨b2, hb2, he⟩
      exact ⟨b2, hb2, he⟩
    · rintro ⟨b, hb, rfl⟩
      have hm : b.players ∈ s'.gs.buchi.map Buco.players := by
        rw [hbl]
        exact List.mem_map_of_mem _ hb
      rcases List.mem_map.1 hm with ⟨b2, hb2, he⟩
      exact ⟨b2, hb2, he⟩
  constructor
  · rw [hn, hlen]
    exact hS.nP
  · rw [hpp]
    exact hS.pp_nodup
  · intro i
    rw [hpp, hlen, (hflags i).1]
    exact hS.pp_mem i
  · intro i hi hfl
    rw [hlen] at hi
    rw [(hflags i).1] at hfl
    exact hdealt i (hS.playing_dealt i hi hfl)
  · intro b hb
    have hm : b.players ∈ s.gs.buchi.map Buco.players := by
      rw [← hbl]
      exact List.mem_map_of_mem _ hb
    rcases List.mem_map.1 hm with ⟨b2, hb2, he⟩
    rcases hS.buco_mem b2 hb2 with ⟨p, hpl, hpn, hin, hnp⟩
    refine ⟨p, by rw [← he, hpl], by rw [hlen]; exact hpn, ?_, ?_⟩
    · rw [(hflags p).2]
      exact hin
    · rw [(hflags p).1]
      exact hnp
  · rw [hbl]
    exact hS.buco_inj
  · intro i hi
    rw [hlen] at hi
    rw [(hflags i).2, hexists]
    exact hS.in_buco_iff i hi
  · intro i hi hib
    rw [hlen] at hi
    rw [(hflags i).2] at hib
    exact hdone i (hS.in_buco_done i hi hib)

/-- `H1` transfer: hand lengths and the dealt list determine it. -/
lemma H1_of_shape (s' s : EngineSt)
    (hlen : s'.gs.players.length = s.gs.players.length)
    (hcards : ∀ i, (playerAt s'.gs i).cards.length = (playerAt s.gs i).cards.length)
    (hdealt : ∀ i, i ∈ s'.gs.dealt_to ↔ i ∈ s.gs.dealt_to)
    (hH : H1 s) : H1 s' := by
  intro i hi
  rw [hlen] at hi
  rw [hcards i]
  have := hH i hi
  by_cases hm : i ∈ s.gs.dealt_to
  · rw [if_pos hm] at this
    rw [if_pos ((hdealt i).2 hm)]
    exact this
  · rw [if_neg hm] at this
    rw [if_neg (fun hc => hm ((hdealt i).1 hc))]
    exact this

/-! ### Preservation of the loop invariant by the action handlers -/

/-- `keep` in the deal-decide phase preserves the loop invariant. -/
lemma keep_preserves (s : EngineSt) (k : Nat) (p' : Player)
    (hph : s.phase = .deal_decide)
    (hk : k < s.gs.players.length)
    (hflag : (playerAt s.gs k).is_playing = false)
    (hdealt : k ∈ s.gs.dealt_to)
    (hpc : p'.cards = (playerAt s.gs k).cards)
    (hpp1 : p'.is_playing = true)
    (hpb : p'.in_buco = (playerAt s.gs k).in_buco)
    (hS : SInv s) (hC : ConsInv s) (hPP : PrePlay s) (hB : s.gs.buchi = []) :
    MidInv { s with gs := { s.gs with
      players := s.gs.players.set k p',
      playing_players := s.gs.playing_players ++ [k],
      decisions := s.gs.decisions ++ [(k, true)] } } := by
  obtain ⟨htr, hct, hH1, hBL⟩ := hPP
  have hnotin : k ∉ s.gs.playing_players := by
    intro hmem
    have h2 := ((hS.pp_mem k).1 hmem).2
    rw [hflag] at h2
    exact Bool.noConfusion h2
  have hself : (s.gs.players.set k p').getD k default = p' := getD_set_self _ _ _ hk
  have hne : ∀ i, i ≠ k → (s.gs.players.set k p').getD i default = playerAt s.gs i :=
    fun i hi => getD_set_ne _ _ _ _ hi
  have hnotbuco : ∀ i, i < s.gs.players.length → (playerAt s.gs i).in_buco = false := by
    intro i hi
    have h0 := hS.in_buco_iff i hi
    rw [hB] at h0
    simp only [List.not_mem_nil, false_and, exists_false, iff_false] at h0
    simp only [Bool.not_eq_true] at h0
    exact h0
  refine ⟨⟨?_, ?_, ?_, ?_, ?_, ?_, ?_, ?_⟩, ?_, ?_⟩
  · dsimp only
    rw [List.length_set]
    exact hS.nP
  · dsimp only
    rw [List.nodup_append]
    refine ⟨hS.pp_nodup, List.nodup_singleton _, ?_⟩
    intro x hx hx2
    rw [List.mem_singleton] at hx2
    subst hx2
    exact hnotin hx
  · intro i
    dsimp only [playerAt]
    rw [List.length_set, List.mem_append, List.mem_singleton]
    by_cases hi : i = k
    · subst hi
      rw [hself]
      simp [hk, hpp1]
    · rw [hne i hi, ← hS.pp_mem i]
      simp [hi]
  · intro i hi hfl
    dsimp only [playerAt] at hi hfl ⊢
    rw [List.length_set] at hi
    by_cases hik : i = k
    · subst hik
      exact hdealt
    · rw [hne i hik] at hfl
      exact hS.playing_dealt i hi hfl
  · intro b hb
    dsimp only at hb
    rw [hB] at hb
    exact absurd hb (List.not_mem_nil _)
  · dsimp only
    rw [hB]
    simp
  · intro i hi
    dsimp only [playerAt] at hi ⊢
    rw [List.length_set] at hi
    rw [hB]
    simp only [List.not_mem_nil, false_and, exists_false, iff_false]
    by_cases hik : i = k
    · subst hik
      rw [hself]
      intro hcon
      rw [hpb, hnotbuco i hi] at hcon
      exact Bool.noConfusion hcon
    · rw [hne i hik]
      intro hcon
      rw [hnotbuco i hi] at hcon
      exact Bool.noConfusion hcon
  · intro i hi hib
    dsimp only [playerAt] at hi hib ⊢
    rw [List.length_set] at hi
    by_cases hik : i = k
    · subst hik
      rw [hself] at hib
      rw [hpb, hnotbuco i hi] at hib
      exact Bool.noConfusion hib
    · rw [hne i hik] at hib
      rw [hnotbuco i hi] at hib
      exact Bool.noConfusion hib
  · refine ConsInv_other_intro _ (by simp [hph]) (by simp [hph]) ?_
    have hlc : liveCards { s with gs := { s.gs with
        players := s.gs.players.set k p',
        playing_players := s.gs.playing_players ++ [k],
        decisions := s.gs.decisions ++ [(k, true)] } } = liveCards s := by
      rw [liveCards_eq, liveCards_eq]
      dsimp only
      rw [handsMS_set_same_cards _ _ _ hk hpc]
      rfl
    rw [hlc]
    exact ConsInv_other_elim s (by simp [hph]) (by simp [hph]) hC
  · refine PhaseInv_deal_intro _ hph ?_
    refine ⟨⟨htr, hct, ?_, hBL⟩, hB⟩
    refine H1_of_shape _ s ?_ ?_ ?_ hH1
    · dsimp only
      exact List.length_set _ _ _
    · intro i
      dsimp only [playerAt]
      by_cases hik : i = k
      · subst hik
        rw [hself, hpc]
        rfl
      · rw [hne i hik]
        rfl
    · intro i
      exact Iff.rfl

/-! ### Congruence transfer for states differing only in bookkeeping -/

lemma briscolaMS_congr (s' s : EngineSt)
    (hbc : s'.gs.briscola_card = s.gs.briscola_card) :
    briscolaMS s' = briscolaMS s := by
  unfold briscolaMS
  rw [hbc]

lemma liveCards_congr (s' s : EngineSt)
    (hdeck : s'.gs.deck = s.gs.deck)
    (hplayers : s'.gs.players = s.gs.players)
    (hbuchi : s'.gs.buchi = s.gs.buchi)
    (htricks : s'.gs.tricks = s.gs.tricks)
    (hct : s'.gs.current_trick = s.gs.current_trick)
    (hbc : s'.gs.briscola_card = s.gs.briscola_card) :
    liveCards s' = liveCards s := by
  unfold liveCards
  rw [hdeck, hplayers, hbuchi, htricks, hct, briscolaMS_congr s' s hbc]

lemma coreCards_congr (s' s : EngineSt)
    (hdeck : s'.gs.deck = s.gs.deck)
    (hplayers : s'.gs.players = s.gs.players)
    (hbuchi : s'.gs.buchi = s.gs.buchi)
    (htricks : s'.gs.tricks = s.gs.tricks)
    (hbc : s'.gs.briscola_card = s.gs.briscola_card) :
    coreCards s' = coreCards s := by
  unfold coreCards
  rw [hdeck, hplayers, hbuchi, htricks, briscolaMS_congr s' s hbc]

lemma ConsInv_congr (s' s : EngineSt)
    (hph : s'.phase = s.phase)
    (hdeck : s'.gs.deck = s.gs.deck)
    (hplayers : s'.gs.players = s.gs.players)
    (hbuchi : s'.gs.buchi = s.gs.buchi)
    (htricks : s'.gs.tricks = s.gs.tricks)
    (hct : s'.gs.current_trick = s.gs.current_trick)
    (hbc : s'.gs.briscola_card = s.gs.briscola_card)
    (hgh : s'.gs.ghost_removed = s.gs.ghost_removed)
    (hC : ConsInv s) : ConsInv s' := by
  have hlive := liveCards_congr s' s hdeck hplayers hbuchi htricks hct hbc
  have hcore := coreCards_congr s' s hdeck hplayers hbuchi htricks hbc
  by_cases hsf : s.phase = .settle ∨ s.phase = .fine
  · refine ConsInv_core_intro s' (by rw [hph]; exact hsf) ?_
    rw [hcore, hgh]
    exact ConsInv_core_elim s hsf hC
  · push_neg at hsf
    refine ConsInv_other_intro s' (by rw [hph]; exact hsf.1) (by rw [hph]; exact hsf.2) ?_
    rw [hlive, hgh]
    exact ConsInv_other_elim s hsf.1 hsf.2 hC

lemma PrePlay_congr (s' s : EngineSt)
    (hplayers : s'.gs.players = s.gs.players)
    (hbuchi : s'.gs.buchi = s.gs.buchi)
    (htricks : s'.gs.tricks = s.gs.tricks)
    (hct : s'.gs.current_trick = s.gs.current_trick)
    (hdealt : s'.gs.dealt_to = s.gs.dealt_to)
    (hPP : PrePlay s) : PrePlay s' := by
  obtain ⟨h1, h2, h3, h4⟩ := hPP
  refine ⟨by rw [htricks]; exact h1, by rw [hct]; exact h2, ?_, ?_⟩
  · exact H1_of_shape s' s (by rw [hplayers])
      (fun i => by simp only [playerAt, hplayers])
      (fun i => by rw [hdealt]) h3
  · intro b hb
    rw [hbuchi] at hb
    exact h4 b hb

lemma handOf_congr (s' s : EngineSt)
    (hplayers : s'.gs.players = s.gs.players)
    (hbuchi : s'.gs.buchi = s.gs.buchi) (a : Actor) :
    handOf s' a = handOf s a := by
  unfold handOf
  cases a.kind
  · simp only [playerAt, hplayers]
  · simp only [bucoAt, hbuchi]

lemma PlayInv_congr (s' s : EngineSt)
    (hplayers : s'.gs.players = s.gs.players)
    (hbuchi : s'.gs.buchi = s.gs.buchi)
    (htricks : s'.gs.tricks = s.gs.tricks)
    (hct : s'.gs.current_trick = s.gs.current_trick)
    (hwin : s'.gs.trick_winner = s.gs.trick_winner)
    (hAP : activeParticipants s' = activeParticipants s)
    (hPl : PlayInv s) : PlayInv s' := by
  obtain ⟨h1, h2, h3, h4, h5⟩ := hPl
  refine ⟨by rw [htricks]; exact h1, ?_, ?_, ?_, ?_⟩
  · intro t ht
    rw [htricks] at ht
    rcases h2 t ht with ⟨hne2, hmem⟩
    refine ⟨hne2, fun x hx => ?_⟩
    rw [hAP]
    exact hmem x hx
  · rw [hct, hAP]
    exact h3
  · intro a ha
    rw [hAP] at ha
    rw [handOf_congr s' s hplayers hbuchi a, hct, htricks]
    exact h4 a ha
  · rw [hct, hwin]
    exact h5

/-- Full loop-invariant transfer for steps that only touch bookkeeping
fields (`decisions`, `cambi_done`, a grown `buchi_entry_done`, the pot). -/
lemma MidInv_congr (s' s : EngineSt)
    (hph : s'.phase = s.phase)
    (hdeck : s'.gs.deck = s.gs.deck)
    (hplayers : s'.gs.players = s.gs.players)
    (hn : s'.gs.n_players = s.gs.n_players)
    (hdealer : s'.gs.dealer = s.gs.dealer)
    (hpp : s'.gs.playing_players = s.gs.playing_players)
    (hbuchi : s'.gs.buchi = s.gs.buchi)
    (htricks : s'.gs.tricks = s.gs.tricks)
    (hct : s'.gs.current_trick = s.gs.current_trick)
    (hwin : s'.gs.trick_winner = s.gs.trick_winner)
    (hbc : s'.gs.briscola_card = s.gs.briscola_card)
    (hgh : s'.gs.ghost_removed = s.gs.ghost_removed)
    (hdealt : s'.gs.dealt_to = s.gs.dealt_to)
    (hdone : ∀ i, i ∈ s.gs.buchi_entry_done → i ∈ s'.gs.buchi_entry_done)
    (hM : MidInv s) : MidInv s' := by
  obtain ⟨hS, hC, hP⟩ := hM
  have hAP : activeParticipants s' = activeParticipants s :=
    AP_congr s' s hn hdealer (fun i => by simp only [playerAt, hplayers])
      (fun i => by simp only [playerAt, hplayers]) (by rw [hbuchi])
  refine ⟨SInv_of_shape s' s hn (by rw [hplayers]) hpp
      (fun i => by simp [playerAt, hplayers])
      (by rw [hbuchi]) hdone (fun i hi => by rw [hdealt]; exact hi) hS,
    ConsInv_congr s' s hph hdeck hplayers hbuchi htricks hct hbc hgh hC, ?_⟩
  cases hp : s.phase
  case deal_decide =>
    rcases PhaseInv_deal_elim s hp hP with ⟨hPP, hB⟩
    exact PhaseInv_deal_intro s' (hph.trans hp)
      ⟨PrePlay_congr s' s hplayers hbuchi htricks hct hdealt hPP, by rw [hbuchi]; exact hB⟩
  case cambi =>
    rcases PhaseInv_cambi_elim s hp hP with ⟨hPP, hB⟩
    exact PhaseInv_cambi_intro s' (hph.trans hp)
      ⟨PrePlay_congr s' s hplayers hbuchi htricks hct hdealt hPP, by rw [hbuchi]; exact hB⟩
  case buchi_entry =>
    exact PhaseInv_bentry_intro s' (hph.trans hp)
      (PrePlay_congr s' s hplayers hbuchi htricks hct hdealt (PhaseInv_bentry_elim s hp hP))
  case buchi_discard =>
    exact PhaseInv_bdiscard_intro s' (hph.trans hp)
      (PrePlay_congr s' s hplayers hbuchi htricks hct hdealt (PhaseInv_bdiscard_elim s hp hP))
  case play =>
    exact PhaseInv_play_intro s' (hph.trans hp)
      (PlayInv_congr s' s hplayers hbuchi htricks hct hwin hAP (PhaseInv_play_elim s hp hP))
  case settle =>
    exact PhaseInv_settle_fine_intro s' (Or.inl (hph.trans hp))
  case fine =>
    exact PhaseInv_settle_fine_intro s' (Or.inr (hph.trans hp))

/-- Dispatcher: any `_step_deal_decide` success preserves the loop invariant. -/
lemma step_deal_decide_preserves (s s1 : EngineSt) (a : Actor) (act : ActionT)
    (hph : s.phase = .deal_decide) (hact : s.current_actor = some a)
    (hM : MidInv s) (hX : ObsX s)
    (h : step_deal_decide s a act = .ok s1) :
    MidInv s1 ∧ s1.phase = .deal_decide := by
  obtain ⟨hS, hC, hP⟩ := hM
  obtain ⟨hk, hid, hdealt, hflag⟩ := ObsX_deal_elim s a hph hact hX
  obtain ⟨hPP, hB⟩ := PhaseInv_deal_elim s hph hP
  cases act
  case keep =>
    simp only [step_deal_decide] at h
    cases h
    exact ⟨keep_preserves s a.id _ hph hid hflag hdealt rfl rfl rfl hS hC hPP hB, hph⟩
  case fold =>
    simp only [step_deal_decide] at h
    cases h
    exact ⟨MidInv_congr _ s rfl rfl rfl rfl rfl rfl rfl rfl rfl rfl rfl rfl rfl
      (fun i hi => hi) ⟨hS, hC, hP⟩, hph⟩
  all_goals
    simp only [step_deal_decide] at h
    cases h
    exact ⟨⟨hS, hC, hP⟩, hph⟩

lemma coe_append_ms (l m : List Card) :
    ((l ++ m : List Card) : Multiset Card) = (l : Multiset Card) + (m : Multiset Card) := by
  induction l with
  | nil => simp
  | cons c t ih =>
    rw [List.cons_append, coe_cons_ms, ih, coe_cons_ms]
    abel

/-- Additive bookkeeping behind a hand exchange: the new hand plus the new
deck plus the removed cards make up the old hand plus the old deck. -/
lemma cons_exchange_ms (D D1 H Hs P O R B T CT Br G F : Multiset Card)
    (A1 : Hs + O = H + P) (A2 : P + D1 + R = O + D)
    (A3 : D + H + B + T + CT + Br + G = F) :
    D1 + Hs + B + T + CT + Br + (G + R) = F := by
  apply add_right_cancel (b := O)
  calc D1 + Hs + B + T + CT + Br + (G + R) + O
      = (Hs + O) + (D1 + R) + B + T + CT + Br + G := by abel
    _ = (H + P) + (D1 + R) + B + T + CT + Br + G := by rw [A1]
    _ = (P + D1 + R) + H + B + T + CT + Br + G := by abel
    _ = (O + D) + H + B + T + CT + Br + G := by rw [A2]
    _ = (D + H + B + T + CT + Br + G) + O := by abel
    _ = F + O := by rw [A3]

/-- A cambi exchange (one or two cards) preserves the loop invariant. -/
lemma cambi_exchange_preserves (s : EngineSt) (k : Nat) (p' : Player)
    (deck1 removed : List Card)
    (hph : s.phase = .cambi)
    (hk : k < s.gs.players.length)
    (hpc_ms : (p'.cards : Multiset Card) + (deck1 : Multiset Card) + (removed : Multiset Card)
        = ((playerAt s.gs k).cards : Multiset Card) + (s.gs.deck : Multiset Card))
    (hpc_len : p'.cards.length = (playerAt s.gs k).cards.length)
    (hpp1 : p'.is_playing = (playerAt s.gs k).is_playing)
    (hpb : p'.in_buco = (playerAt s.gs k).in_buco)
    (hS : SInv s) (hC : ConsInv s) (hPP : PrePlay s) (hB : s.gs.buchi = []) :
    MidInv { s with gs := { s.gs with
      players := s.gs.players.set k p',
      deck := deck1,
      ghost_removed := s.gs.ghost_removed ++ removed,
      cambi_done := s.gs.cambi_done ++ [k] } } := by
  obtain ⟨htr, hct, hH1, hBL⟩ := hPP
  have hself : (s.gs.players.set k p').getD k default = p' := getD_set_self _ _ _ hk
  have hne : ∀ i, i ≠ k → (s.gs.players.set k p').getD i default = playerAt s.gs i :=
    fun i hi => getD_set_ne _ _ _ _ hi
  refine ⟨?_, ?_, ?_⟩
  · refine SInv_of_shape _ s rfl (by dsimp only; exact List.length_set _ _ _) rfl ?_ rfl
      (fun i hi => hi) (fun i hi => hi) hS
    intro i
    dsimp only [playerAt]
    by_cases hik : i = k
    · subst hik
      rw [hself, hpp1, hpb]
      exact ⟨rfl, rfl⟩
    · rw [hne i hik]
      exact ⟨rfl, rfl⟩
  · refine ConsInv_other_intro _ (by simp [hph]) (by simp [hph]) ?_
    have hfull := ConsInv_other_elim s (by simp [hph]) (by simp [hph]) hC
    rw [liveCards_eq] at hfull
    have hset := handsMS_set s.gs.players k p' hk
    rw [liveCards_eq]
    dsimp only
    rw [coe_append_ms]
    exact cons_exchange_ms _ _ _ _ _ _ _ _ _ _ _ _ _ hset hpc_ms hfull
  · refine PhaseInv_cambi_intro _ hph ?_
    refine ⟨⟨htr, hct, ?_, hBL⟩, hB⟩
    refine H1_of_shape _ s ?_ ?_ ?_ hH1
    · dsimp only
      exact List.length_set _ _ _
    · intro i
      dsimp only [playerAt]
      by_cases hik : i = k
      · subst hik
        rw [hself, hpc_len]
        rfl
      · rw [hne i hik]
        rfl
    · intro i
      exact Iff.rfl

/-- Dispatcher: any `_step_cambi` success preserves the loop invariant. -/
lemma step_cambi_preserves (s s1 : EngineSt) (a : Actor) (act : ActionT)
    (hph : s.phase = .cambi) (hact : s.current_actor = some a)
    (hM : MidInv s) (hX : ObsX s)
    (h : step_cambi s a act = .ok s1) :
    MidInv s1 ∧ s1.phase = .cambi := by
  obtain ⟨hS, hC, hP⟩ := hM
  obtain ⟨hk, hid, hflag⟩ := ObsX_cambi_elim s a hph hact hX
  obtain ⟨hPP, hB⟩ := PhaseInv_cambi_elim s hph hP
  cases act
  case change_card idx =>
    simp only [step_cambi] at h
    rcases hr : removeIdxCard (playerAt s.gs a.id).cards idx with e | ⟨cards1, old⟩ <;>
      rw [hr] at h
    · exact Except.noConfusion h
    dsimp only at h
    rcases hd : drawInsert cards1 s.gs.deck idx with e | ⟨cards2, deck1⟩ <;>
      rw [hd] at h
    · exact Except.noConfusion h
    dsimp only at h
    cases h
    have h1 := removeIdxCard_ok _ _ _ _ hr
    have h2 := drawInsert_ok _ _ _ _ _ hd
    refine ⟨cambi_exchange_preserves s a.id _ deck1 [old] hph hid ?_ ?_ rfl rfl
      hS hC hPP hB, hph⟩
    · show (cards2 : Multiset Card) + (deck1 : Multiset Card) + (([old] : List Card) : Multiset Card)
        = ((playerAt s.gs a.id).cards : Multiset Card) + (s.gs.deck : Multiset Card)
      have hcoe : (([old] : List Card) : Multiset Card) = {old} := rfl
      rw [hcoe, h1.1]
      calc (cards2 : Multiset Card) + (deck1 : Multiset Card) + {old}
          = ((cards2 : Multiset Card) + (deck1 : Multiset Card)) + {old} := by abel
        _ = ((cards1 : Multiset Card) + (s.gs.deck : Multiset Card)) + {old} := by rw [h2.1]
        _ = (cards1 : Multiset Card) + {old} + (s.gs.deck : Multiset Card) := by abel
    · have ha := h1.2
      have hb := h2.2
      show cards2.length = (playerAt s.gs a.id).cards.length
      omega
  case change_cards i j =>
    simp only [step_cambi] at h
    rcases hr1 : removeIdxCard (playerAt s.gs a.id).cards (if j ≤ i then i else j) with
      e | ⟨cardsA, old1⟩ <;> rw [hr1] at h
    · exact Except.noConfusion h
    dsimp only at h
    rcases hr2 : removeIdxCard cardsA (if j ≤ i then j else i) with
      e | ⟨cards1, old2⟩ <;> rw [hr2] at h
    · exact Except.noConfusion h
    dsimp only at h
    rcases hd1 : drawInsert cards1 s.gs.deck (if j ≤ i then j else i) with
      e | ⟨cardsB, deckA⟩ <;> rw [hd1] at h
    · exact Except.noConfusion h
    dsimp only at h
    rcases hd2 : drawInsert cardsB deckA (if j ≤ i then i else j) with
      e | ⟨cards2, deck1⟩ <;> rw [hd2] at h
    · exact Except.noConfusion h
    dsimp only at h
    cases h
    have h1 := removeIdxCard_ok _ _ _ _ hr1
    have h2 := removeIdxCard_ok _ _ _ _ hr2
    have h3 := drawInsert_ok _ _ _ _ _ hd1
    have h4 := drawInsert_ok _ _ _ _ _ hd2
    refine ⟨cambi_exchange_preserves s a.id _ deck1 [old1, old2] hph hid ?_ ?_ rfl rfl
      hS hC hPP hB, hph⟩
    · show (cards2 : Multiset Card) + (deck1 : Multiset Card)
          + (([old1, old2] : List Card) : Multiset Card)
        = ((playerAt s.gs a.id).cards : Multiset Card) + (s.gs.deck : Multiset Card)
      have hcoe : (([old1, old2] : List Card) : Multiset Card) = {old1} + {old2} := rfl
      rw [hcoe, h1.1, h2.1]
      calc (cards2 : Multiset Card) + (deck1 : Multiset Card) + ({old1} + {old2})
          = ((cards2 : Multiset Card) + (deck1 : Multiset Card)) + {old1} + {old2} := by abel
        _ = ((cardsB : Multiset Card) + (deckA : Multiset Card)) + {old1} + {old2} := by
            rw [h4.1]
        _ = ((cards1 : Multiset Card) + (s.gs.deck : Multiset Card)) + {old1} + {old2} := by
            rw [h3.1]
        _ = (cards1 : Multiset Card) + {old2} + {old1} + (s.gs.deck : Multiset Card) := by abel
    · have ha := h1.2
      have hb := h2.2
      have hc := h3.2
      have hd := h4.2
      show cards2.length = (playerAt s.gs a.id).cards.length
      omega
  all_goals
    simp only [step_cambi] at h
    cases h
    first
      | exact ⟨MidInv_congr _ s rfl rfl rfl rfl rfl rfl rfl rfl rfl rfl rfl rfl rfl
          (fun i hi => hi) ⟨hS, hC, hP⟩, hph⟩

/-- `take_buco` preserves the loop invariant: a fresh buco with the drawn
four cards is appended and the seat is flagged. -/
lemma take_buco_preserves (s : EngineSt) (k : Nat) (p' : Player) (b' : Buco)
    (four d4 : List Card)
    (hph : s.phase = .buchi_entry)
    (hk : k < s.gs.players.length)
    (hflag : (playerAt s.gs k).is_playing = false)
    (hnb : (playerAt s.gs k).in_buco = false)
    (hdeck : s.gs.deck = four ++ d4)
    (hlen4 : four.length = 4)
    (hpc : p'.cards = (playerAt s.gs k).cards)
    (hpp1 : p'.is_playing = (playerAt s.gs k).is_playing)
    (hpb : p'.in_buco = true)
    (hb'pl : b'.players = [k])
    (hb'c : b'.cards = four)
    (hb'p : b'.discard_pending = true)
    (hS : SInv s) (hC : ConsInv s) (hPP : PrePlay s) :
    MidInv { s with gs := { s.gs with
      players := s.gs.players.set k p',
      next_buco_id := s.gs.next_buco_id + 1,
      buchi := s.gs.buchi ++ [b'],
      deck := d4,
      buchi_entry_done := s.gs.buchi_entry_done ++ [k] } } := by
  obtain ⟨htr, hct, hH1, hBL⟩ := hPP
  have hself : (s.gs.players.set k p').getD k default = p' := getD_set_self _ _ _ hk
  have hne : ∀ i, i ≠ k → (s.gs.players.set k p').getD i default = playerAt s.gs i :=
    fun i hi => getD_set_ne _ _ _ _ hi
  have hknotpp : k ∉ s.gs.playing_players := by
    intro hmem
    have h2 := ((hS.pp_mem k).1 hmem).2
    rw [hflag] at h2
    exact Bool.noConfusion h2
  refine ⟨⟨?_, ?_, ?_, ?_, ?_, ?_, ?_, ?_⟩, ?_, ?_⟩
  · dsimp only
    rw [List.length_set]
    exact hS.nP
  · dsimp only
    exact hS.pp_nodup
  · intro i
    dsimp only [playerAt]
    rw [List.length_set]
    by_cases hik : i = k
    · subst hik
      rw [hself]
      constructor
      · intro hmem
        exact absurd hmem hknotpp
      · rintro ⟨_, hcon⟩
        rw [hpp1, hflag] at hcon
        exact Bool.noConfusion hcon
    · rw [hne i hik]
      exact hS.pp_mem i
  · intro i hi hfl
    dsimp only [playerAt] at hi hfl ⊢
    rw [List.length_set] at hi
    by_cases hik : i = k
    · subst hik
      rw [hself, hpp1, hflag] at hfl
      exact Bool.noConfusion hfl
    · rw [hne i hik] at hfl
      exact hS.playing_dealt i hi hfl
  · intro b hb
    dsimp only at hb
    rcases List.mem_append.1 hb with hb1 | hb1
    · rcases hS.buco_mem b hb1 with ⟨p, hpl, hpn, hin, hnp⟩
      have hpk : p ≠ k := by
        intro hc
        subst hc
        rw [hnb] at hin
        exact Bool.noConfusion hin
      refine ⟨p, hpl, by dsimp only [playerAt]; rw [List.length_set]; exact hpn, ?_, ?_⟩
      · dsimp only [playerAt]
        rw [hne p hpk]
        exact hin
      · dsimp only [playerAt]
        rw [hne p hpk]
        exact hnp
    · rw [List.mem_singleton] at hb1
      subst hb1
      refine ⟨k, hb'pl, by dsimp only [playerAt]; rw [List.length_set]; exact hk, ?_, ?_⟩
      · dsimp only [playerAt]
        rw [hself]
        exact hpb
      · dsimp only [playerAt]
        rw [hself, hpp1]
        exact hflag
  · dsimp only
    rw [List.map_append, List.nodup_append]
    refine ⟨hS.buco_inj, by simp, ?_⟩
    intro x hx hx2
    simp only [List.map_cons, List.map_nil, List.mem_singleton] at hx2
    subst hx2
    rcases List.mem_map.1 hx with ⟨b2, hb2, he⟩
    have : (playerAt s.gs k).in_buco = true := by
      refine (hS.in_buco_iff k hk).2 ⟨b2, hb2, ?_⟩
      rw [he, hb'pl]
    rw [hnb] at this
    exact Bool.noConfusion this
  · intro i hi
    dsimp only [playerAt] at hi ⊢
    rw [List.length_set] at hi
    by_cases hik : i = k
    · subst hik
      rw [hself]
      constructor
      · intro _
        exact ⟨b', List.mem_append_right _ (List.mem_singleton.2 rfl), hb'pl⟩
      · intro _
        exact hpb
    · rw [hne i hik]
      have h0 := hS.in_buco_iff i hi
      constructor
      · intro hin
        rcases h0.1 hin with ⟨b2, hb2, he⟩
        exact ⟨b2, List.mem_append_left _ hb2, he⟩
      · rintro ⟨b2, hb2, he⟩
        rcases List.mem_append.1 hb2 with hb3 | hb3
        · exact h0.2 ⟨b2, hb3, he⟩
        · rw [List.mem_singleton] at hb3
          subst hb3
          rw [hb'pl] at he
          have : k = i := by
            have := List.head_eq_of_cons_eq he.symm
            exact this.symm
          exact absurd this.symm hik
      -- end
  · intro i hi hib
    dsimp only [playerAt] at hi hib ⊢
    rw [List.length_set] at hi
    by_cases hik : i = k
    · subst hik
      exact List.mem_append_right _ (List.mem_singleton.2 rfl)
    · rw [hne i hik] at hib
      exact List.mem_append_left _ (hS.in_buco_done i hi hib)
  · refine ConsInv_other_intro _ (by simp [hph]) (by simp [hph]) ?_
    have hfull := ConsInv_other_elim s (by simp [hph]) (by simp [hph]) hC
    rw [liveCards_eq] at hfull
    rw [hdeck, coe_append_ms] at hfull
    rw [liveCards_eq]
    dsimp only
    rw [handsMS_set_same_cards _ _ _ hk hpc, bucosMS_append]
    have hb1 : bucosMS [b'] = (four : Multiset Card) := by
      simp [bucosMS, hb'c]
    rw [hb1]
    dsimp only [briscolaMS] at hfull ⊢
    rw [← hfull]
    abel
  · refine PhaseInv_bentry_intro _ hph ?_
    refine ⟨htr, hct, ?_, ?_⟩
    · refine H1_of_shape _ s ?_ ?_ ?_ hH1
      · dsimp only
        exact List.length_set _ _ _
      · intro i
        dsimp only [playerAt]
        by_cases hik : i = k
        · subst hik
          rw [hself, hpc]
          rfl
        · rw [hne i hik]
          rfl
      · intro i
        exact Iff.rfl
    · intro b hb
      dsimp only at hb
      rcases List.mem_append.1 hb with hb1 | hb1
      · exact hBL b hb1
      · rw [List.mem_singleton] at hb1
        subst hb1
        left
        rw [hb'p, hb'c, hlen4]
        exact ⟨rfl, rfl⟩

/-- Dispatcher: any `_step_buchi_entry` success preserves the loop
invariant. -/
lemma step_buchi_entry_preserves (s s1 : EngineSt) (a : Actor) (act : ActionT)
    (hph : s.phase = .buchi_entry) (hact : s.current_actor = some a)
    (hM : MidInv s) (hX : ObsX s)
    (h : step_buchi_entry s a act = .ok s1) :
    MidInv s1 ∧ s1.phase = .buchi_entry := by
  obtain ⟨hS, hC, hP⟩ := hM
  obtain ⟨hk, hid, hflag, hnb⟩ := ObsX_bentry_elim s a hph hact hX
  have hPP := PhaseInv_bentry_elim s hph hP
  cases act
  case take_buco =>
    simp only [step_buchi_entry] at h
    split at h
    · exact Except.noConfusion h
    rcases hdr : drawN 4 s.gs.deck with e | ⟨four, d4⟩ <;> rw [hdr] at h
    · exact Except.noConfusion h
    dsimp only at h
    cases h
    have hdk := drawN_ok 4 _ _ _ hdr
    exact ⟨take_buco_preserves s a.id _ _ four d4 hph hid hflag hnb hdk.1 hdk.2
      rfl rfl rfl rfl rfl rfl hS hC hPP, hph⟩
  all_goals
    simp only [step_buchi_entry] at h
    cases h
    exact ⟨MidInv_congr _ s rfl rfl rfl rfl rfl rfl rfl rfl rfl rfl rfl rfl rfl
      (fun i hi => List.mem_append_left _ hi) ⟨hS, hC, hP⟩, hph⟩

/-- Additive bookkeeping behind a buco discard. -/
lemma cons_discard_ms (D Hs B Bs O P R T CT Br G F : Multiset Card)
    (A1 : Bs + O = B + P) (A2 : P + R = O)
    (A3 : D + Hs + B + T + CT + Br + G = F) :
    D + Hs + Bs + T + CT + Br + (G + R) = F := by
  apply add_right_cancel (b := O)
  calc D + Hs + Bs + T + CT + Br + (G + R) + O
      = (Bs + O) + (D + Hs + T + CT + Br + G + R) := by abel
    _ = (B + P) + (D + Hs + T + CT + Br + G + R) := by rw [A1]
    _ = (P + R) + (D + Hs + B + T + CT + Br + G) := by abel
    _ = O + (D + Hs + B + T + CT + Br + G) := by rw [A2]
    _ = (D + Hs + B + T + CT + Br + G) + O := by abel
    _ = F + O := by rw [A3]

/-- A buco discard preserves the loop invariant: one card moves from the
buco hand to the ghost record and the pending flag clears. -/
lemma discard_preserves (s : EngineSt) (k : Nat) (b' : Buco) (discarded : Card)
    (hph : s.phase = .buchi_discard)
    (hk : k < s.gs.buchi.length)
    (hms : (b'.cards : Multiset Card) + {discarded} = ((bucoAt s.gs k).cards : Multiset Card))
    (hcards4 : (bucoAt s.gs k).cards.length = 4)
    (hpl : b'.players = (bucoAt s.gs k).players)
    (hpend : b'.discard_pending = false)
    (hS : SInv s) (hC : ConsInv s) (hPP : PrePlay s) :
    MidInv { s with gs := { s.gs with
      buchi := s.gs.buchi.set k b',
      ghost_removed := s.gs.ghost_removed ++ [discarded] } } := by
  obtain ⟨htr, hct, hH1, hBL⟩ := hPP
  have hlen : b'.cards.length + 1 = (bucoAt s.gs k).cards.length := by
    have h2 := congrArg Multiset.card hms
    simpa using h2
  have hbl : (s.gs.buchi.set k b').map Buco.players = s.gs.buchi.map Buco.players := by
    rw [List.map_set]
    have hbk : k < (s.gs.buchi.map Buco.players).length := by
      simpa using hk
    have h1 : b'.players = (s.gs.buchi.map Buco.players)[k] := by
      rw [List.getElem_map, hpl]
      simp only [bucoAt]
      rw [List.getD_eq_getElem _ _ hk]
    rw [h1, set_getElem_self]
  refine ⟨?_, ?_, ?_⟩
  · exact SInv_of_shape _ s rfl rfl rfl (fun i => ⟨rfl, rfl⟩) (by dsimp only; exact hbl)
      (fun i hi => hi) (fun i hi => hi) hS
  · refine ConsInv_other_intro _ (by simp [hph]) (by simp [hph]) ?_
    have hfull := ConsInv_other_elim s (by simp [hph]) (by simp [hph]) hC
    rw [liveCards_eq] at hfull
    rw [liveCards_eq]
    dsimp only
    rw [coe_append_ms]
    have hset := bucosMS_set s.gs.buchi k b' hk
    exact cons_discard_ms _ _ _ _ _ _ _ _ _ _ _ _ hset hms hfull
  · refine PhaseInv_bdiscard_intro _ hph ?_
    refine ⟨htr, hct, ?_, ?_⟩
    · exact H1_of_shape _ s rfl (fun i => rfl) (fun i => Iff.rfl) hH1
    · intro b hb
      dsimp only at hb
      rcases List.mem_or_eq_of_mem_set hb with hb1 | hb1
      · exact hBL b hb1
      · subst hb1
        right
        refine ⟨hpend, ?_⟩
        omega

/-- Dispatcher: any `_step_buchi_discard` success preserves the loop
invariant. -/
lemma step_buchi_discard_preserves (s s1 : EngineSt) (a : Actor) (act : ActionT)
    (hph : s.phase = .buchi_discard) (hact : s.current_actor = some a)
    (hM : MidInv s) (hX : ObsX s)
    (h : step_buchi_discard s a act = .ok s1) :
    MidInv s1 ∧ s1.phase = .buchi_discard := by
  obtain ⟨hS, hC, hP⟩ := hM
  obtain ⟨hk, hid, hpend, hc4⟩ := ObsX_bdiscard_elim s a hph hact hX
  have hPP := PhaseInv_bdiscard_elim s hph hP
  cases act
  case discard cidx =>
    simp only [step_buchi_discard] at h
    split at h
    · rename_i hlt
      cases h
      refine ⟨discard_preserves s a.id _ _ hph hid ?_ hc4 rfl rfl hS hC hPP, hph⟩
      exact (eraseIdx_ms (bucoAt s.gs a.id).cards cidx hlt).symm
    · exact Except.noConfusion h
  all_goals
    simp only [step_buchi_discard] at h
    cases h
    exact ⟨⟨hS, hC, hP⟩, hph⟩

/-- Additive bookkeeping behind a card play: the card moves from a hand to
the current trick. -/
lemma cons_play_ms (D H Hs B T CT Br G F O P R : Multiset Card)
    (A1 : Hs + O = H + P) (A2 : P + R = O)
    (A3 : D + H + B + T + CT + Br + G = F) :
    D + Hs + B + T + (CT + R) + Br + G = F := by
  apply add_right_cancel (b := O)
  calc D + Hs + B + T + (CT + R) + Br + G + O
      = (Hs + O) + (D + B + T + CT + R + Br + G) := by abel
    _ = (H + P) + (D + B + T + CT + R + Br + G) := by rw [A1]
    _ = (P + R) + (D + H + B + T + CT + Br + G) := by abel
    _ = O + (D + H + B + T + CT + Br + G) := by rw [A2]
    _ = (D + H + B + T + CT + Br + G) + O := by abel
    _ = F + O := by rw [A3]

lemma computeWinner_ne_none (lead brisc : Option Suit) (l : List (Actor × Card))
    (h : l ≠ []) : ∃ w, computeWinner lead brisc l = some w := by
  cases l with
  | nil => exact absurd rfl h
  | cons x t => exact ⟨_, rfl⟩

/-- Playing a card as a kept player preserves the loop invariant. -/
lemma play_player_preserves (s : EngineSt) (a : Actor) (card : Card) (p' : Player)
    (lead' : Option Suit)
    (hph : s.phase = .play)
    (hkind : a.kind = .player)
    (hk : a.id < s.gs.players.length)
    (hpc : (p'.cards : Multiset Card) + {card} = ((playerAt s.gs a.id).cards : Multiset Card))
    (hpc_len : p'.cards.length + 1 = (playerAt s.gs a.id).cards.length)
    (hpp1 : p'.is_playing = (playerAt s.gs a.id).is_playing)
    (hpb : p'.in_buco = (playerAt s.gs a.id).in_buco)
    (hAPm : a ∈ activeParticipants s)
    (hseg : ∃ i0, i0 < (activeParticipants s).length ∧
      s.gs.current_trick.map Prod.fst ++ [a]
        = (rot (activeParticipants s) i0).take (s.gs.current_trick.length + 1))
    (hS : SInv s) (hC : ConsInv s) (hPl : PlayInv s) :
    MidInv { s with gs := { s.gs with
      players := s.gs.players.set a.id p',
      current_trick := s.gs.current_trick ++ [(a, card)],
      trick_lead_suit := lead',
      trick_winner := computeWinner lead' s.gs.briscola_suit
        (s.gs.current_trick ++ [(a, card)]) } } := by
  obtain ⟨htr2, htrm, hseginv, hhand, hwin⟩ := hPl
  obtain ⟨i0, hi0, hseg_eq⟩ := hseg
  have hself : (s.gs.players.set a.id p').getD a.id default = p' := getD_set_self _ _ _ hk
  have hne : ∀ i, i ≠ a.id → (s.gs.players.set a.id p').getD i default = playerAt s.gs i :=
    fun i hi => getD_set_ne _ _ _ _ hi
  have hAP : activeParticipants { s with gs := { s.gs with
      players := s.gs.players.set a.id p',
      current_trick := s.gs.current_trick ++ [(a, card)],
      trick_lead_suit := lead',
      trick_winner := computeWinner lead' s.gs.briscola_suit
        (s.gs.current_trick ++ [(a, card)]) } } = activeParticipants s := by
    refine AP_congr _ s rfl rfl ?_ ?_ rfl
    · intro i
      dsimp only [playerAt]
      by_cases hik : i = a.id
      · subst hik
        rw [hself, hpp1]
        rfl
      · rw [hne i hik]
        rfl
    · intro i
      dsimp only [playerAt]
      by_cases hik : i = a.id
      · subst hik
        rw [hself, hpb]
        rfl
      · rw [hne i hik]
        rfl
  have hmap' : (s.gs.current_trick ++ [(a, card)]).map Prod.fst
      = s.gs.current_trick.map Prod.fst ++ [a] := by
    simp
  have htake_nodup : (s.gs.current_trick.map Prod.fst ++ [a]).Nodup := by
    rw [hseg_eq]
    exact (List.take_sublist _ _).nodup (rot_nodup _ _ (AP_nodup s))
  have hnotin_a : a ∉ s.gs.current_trick.map Prod.fst := by
    rcases List.nodup_append.1 htake_nodup with ⟨_, _, hdisj⟩
    intro hc
    exact hdisj hc (List.mem_singleton.2 rfl)
  have hlen_ct : s.gs.current_trick.length + 1 ≤ (activeParticipants s).length := by
    have hl := congrArg List.length hseg_eq
    rw [List.length_append, List.length_map, List.length_take, rot_length] at hl
    simp only [List.length_singleton] at hl
    omega
  have hho_a : handOf { s with gs := { s.gs with
      players := s.gs.players.set a.id p',
      current_trick := s.gs.current_trick ++ [(a, card)],
      trick_lead_suit := lead',
      trick_winner := computeWinner lead' s.gs.briscola_suit
        (s.gs.current_trick ++ [(a, card)]) } } a = p'.cards := by
    unfold handOf
    rw [hkind]
    dsimp only [playerAt]
    rw [hself]
  have hho_ne : ∀ b : Actor, b ≠ a → handOf { s with gs := { s.gs with
      players := s.gs.players.set a.id p',
      current_trick := s.gs.current_trick ++ [(a, card)],
      trick_lead_suit := lead',
      trick_winner := computeWinner lead' s.gs.briscola_suit
        (s.gs.current_trick ++ [(a, card)]) } } b = handOf s b := by
    intro b hb
    unfold handOf
    cases hbk : b.kind
    case player =>
      dsimp only [playerAt]
      by_cases hbid : b.id = a.id
      · exfalso
        apply hb
        obtain ⟨k1, i1⟩ := b
        obtain ⟨k2, i2⟩ := a
        dsimp only at hbk hbid hkind
        rw [hbk, hbid, hkind]
      · rw [hne b.id hbid]
        rfl
    case buco => rfl
  refine ⟨?_, ?_, ?_⟩
  · refine SInv_of_shape _ s rfl (by dsimp only; exact List.length_set _ _ _) rfl ?_ rfl
      (fun i hi => hi) (fun i hi => hi) hS
    intro i
    dsimp only [playerAt]
    by_cases hik : i = a.id
    · subst hik
      rw [hself, hpp1, hpb]
      exact ⟨rfl, rfl⟩
    · rw [hne i hik]
      exact ⟨rfl, rfl⟩
  · refine ConsInv_other_intro _ (by simp [hph]) (by simp [hph]) ?_
    have hfull := ConsInv_other_elim s (by simp [hph]) (by simp [hph]) hC
    rw [liveCards_eq] at hfull
    rw [liveCards_eq]
    dsimp only
    rw [List.map_append, coe_append_ms]
    have hset := handsMS_set s.gs.players a.id p' hk
    exact cons_play_ms _ _ _ _ _ _ _ _ _ _ _ _ hset hpc hfull
  · refine PhaseInv_play_intro _ hph ?_
    refine ⟨htr2, ?_, ?_, ?_, ?_⟩
    · intro t ht
      dsimp only at ht
      rcases htrm t ht with ⟨hne2, hmem2⟩
      refine ⟨hne2, fun x hx => ?_⟩
      rw [hAP]
      exact hmem2 x hx
    · right
      refine ⟨i0, ?_, ?_, ?_⟩
      · rw [hAP]
        exact hi0
      · rw [hAP]
        dsimp only
        rw [hmap', List.length_append]
        simp only [List.length_singleton]
        exact hseg_eq
      · rw [hAP]
        dsimp only
        rw [List.length_append]
        simp only [List.length_singleton]
        exact hlen_ct
    · intro b hbmem
      rw [hAP] at hbmem
      dsimp only
      rw [hmap']
      by_cases hba : b = a
      · subst hba
        rw [hho_a, if_pos (List.mem_append_right _ (List.mem_singleton.2 rfl))]
        have h0 := hhand b hbmem
        rw [if_neg hnotin_a] at h0
        unfold handOf at h0
        rw [hkind] at h0
        dsimp only at h0
        omega
      · rw [hho_ne b hba]
        have h0 := hhand b hbmem
        by_cases hbm : b ∈ s.gs.current_trick.map Prod.fst
        · rw [if_pos hbm] at h0
          rw [if_pos (List.mem_append_left _ hbm)]
          exact h0
        · rw [if_neg hbm] at h0
          rw [if_neg ?_]
          · exact h0
          · intro hc
            rcases List.mem_append.1 hc with hc1 | hc1
            · exact hbm hc1
            · rw [List.mem_singleton] at hc1
              exact hba hc1
    · intro _
      dsimp only
      rcases computeWinner_ne_none lead' s.gs.briscola_suit
        (s.gs.current_trick ++ [(a, card)]) (by simp) with ⟨w, hw⟩
      exact ⟨w, hw, computeWinner_mem _ _ _ _ hw⟩

lemma cons_play_buco_ms (D Hs B Bs T CT Br G F O P R : Multiset Card)
    (A1 : Bs + O = B + P) (A2 : P + R = O)
    (A3 : D + Hs + B + T + CT + Br + G = F) :
    D + Hs + Bs + T + (CT + R) + Br + G = F := by
  apply add_right_cancel (b := O)
  calc D + Hs + Bs + T + (CT + R) + Br + G + O
      = (Bs + O) + (D + Hs + T + CT + R + Br + G) := by abel
    _ = (B + P) + (D + Hs + T + CT + R + Br + G) := by rw [A1]
    _ = (P + R) + (D + Hs + B + T + CT + Br + G) := by abel
    _ = O + (D + Hs + B + T + CT + Br + G) := by rw [A2]
    _ = (D + Hs + B + T + CT + Br + G) + O := by abel
    _ = F + O := by rw [A3]

/-- Playing a card as a buco preserves the loop invariant. -/
lemma play_buco_preserves (s : EngineSt) (a : Actor) (card : Card) (b' : Buco)
    (lead' : Option Suit)
    (hph : s.phase = .play)
    (hkind : a.kind = .buco)
    (hk : a.id < s.gs.buchi.length)
    (hpc : (b'.cards : Multiset Card) + {card} = ((bucoAt s.gs a.id).cards : Multiset Card))
    (hpc_len : b'.cards.length + 1 = (bucoAt s.gs a.id).cards.length)
    (hplb : b'.players = (bucoAt s.gs a.id).players)
    (hAPm : a ∈ activeParticipants s)
    (hseg : ∃ i0, i0 < (activeParticipants s).length ∧
      s.gs.current_trick.map Prod.fst ++ [a]
        = (rot (activeParticipants s) i0).take (s.gs.current_trick.length + 1))
    (hS : SInv s) (hC : ConsInv s) (hPl : PlayInv s) :
    MidInv { s with gs := { s.gs with
      buchi := s.gs.buchi.set a.id b',
      current_trick := s.gs.current_trick ++ [(a, card)],
      trick_lead_suit := lead',
      trick_winner := computeWinner lead' s.gs.briscola_suit
        (s.gs.current_trick ++ [(a, card)]) } } := by
  obtain ⟨htr2, htrm, hseginv, hhand, hwin⟩ := hPl
  obtain ⟨i0, hi0, hseg_eq⟩ := hseg
  have hselfB : (s.gs.buchi.set a.id b').getD a.id default = b' := getD_set_self _ _ _ hk
  have hneB : ∀ j, j ≠ a.id → (s.gs.buchi.set a.id b').getD j default = bucoAt s.gs j :=
    fun j hj => getD_set_ne _ _ _ _ hj
  have hbl : (s.gs.buchi.set a.id b').map Buco.players = s.gs.buchi.map Buco.players := by
    rw [List.map_set]
    have hbk : a.id < (s.gs.buchi.map Buco.players).length := by
      simpa using hk
    have h1 : b'.players = (s.gs.buchi.map Buco.players)[a.id] := by
      rw [List.getElem_map, hplb]
      simp only [bucoAt]
      rw [List.getD_eq_getElem _ _ hk]
    rw [h1, set_getElem_self]
  have hAP : activeParticipants { s with gs := { s.gs with
      buchi := s.gs.buchi.set a.id b',
      current_trick := s.gs.current_trick ++ [(a, card)],
      trick_lead_suit := lead',
      trick_winner := computeWinner lead' s.gs.briscola_suit
        (s.gs.current_trick ++ [(a, card)]) } } = activeParticipants s := by
    refine AP_congr _ s rfl rfl (fun i => rfl) (fun i => rfl) ?_
    dsimp only
    exact hbl
  have hmap' : (s.gs.current_trick ++ [(a, card)]).map Prod.fst
      = s.gs.current_trick.map Prod.fst ++ [a] := by
    simp
  have htake_nodup : (s.gs.current_trick.map Prod.fst ++ [a]).Nodup := by
    rw [hseg_eq]
    exact (List.take_sublist _ _).nodup (rot_nodup _ _ (AP_nodup s))
  have hnotin_a : a ∉ s.gs.current_trick.map Prod.fst := by
    rcases List.nodup_append.1 htake_nodup with ⟨_, _, hdisj⟩
    intro hc
    exact hdisj hc (List.mem_singleton.2 rfl)
  have hlen_ct : s.gs.current_trick.length + 1 ≤ (activeParticipants s).length := by
    have hl := congrArg List.length hseg_eq
    rw [List.length_append, List.length_map, List.length_take, rot_length] at hl
    simp only [List.length_singleton] at hl
    omega
  have hho_a : handOf { s with gs := { s.gs with
      buchi := s.gs.buchi.set a.id b',
      current_trick := s.gs.current_trick ++ [(a, card)],
      trick_lead_suit := lead',
      trick_winner := computeWinner lead' s.gs.briscola_suit
        (s.gs.current_trick ++ [(a, card)]) } } a = b'.cards := by
    unfold handOf
    rw [hkind]
    dsimp only [bucoAt]
    rw [hselfB]
  have hho_ne : ∀ b : Actor, b ≠ a → handOf { s with gs := { s.gs with
      buchi := s.gs.buchi.set a.id b',
      current_trick := s.gs.current_trick ++ [(a, card)],
      trick_lead_suit := lead',
      trick_winner := computeWinner lead' s.gs.briscola_suit
        (s.gs.current_trick ++ [(a, card)]) } } b = handOf s b := by
    intro b hb
    unfold handOf
    cases hbk : b.kind
    case player => rfl
    case buco =>
      dsimp only [bucoAt]
      by_cases hbid : b.id = a.id
      · exfalso
        apply hb
        obtain ⟨k1, i1⟩ := b
        obtain ⟨k2, i2⟩ := a
        dsimp only at hbk hbid hkind
        rw [hbk, hbid, hkind]
      · rw [hneB b.id hbid]
        rfl
  refine ⟨?_, ?_, ?_⟩
  · exact SInv_of_shape _ s rfl rfl rfl (fun i => ⟨rfl, rfl⟩) (by dsimp only; exact hbl)
      (fun i hi => hi) (fun i hi => hi) hS
  · refine ConsInv_other_intro _ (by simp [hph]) (by simp [hph]) ?_
    have hfull := ConsInv_other_elim s (by simp [hph]) (by simp [hph]) hC
    rw [liveCards_eq] at hfull
    rw [liveCards_eq]
    dsimp only
    rw [List.map_append, coe_append_ms]
    have hset := bucosMS_set s.gs.buchi a.id b' hk
    exact cons_play_buco_ms _ _ _ _ _ _ _ _ _ _ _ _ hset hpc hfull
  · refine PhaseInv_play_intro _ hph ?_
    refine ⟨htr2, ?_, ?_, ?_, ?_⟩
    · intro t ht
      dsimp only at ht
      rcases htrm t ht with ⟨hne2, hmem2⟩
      refine ⟨hne2, fun x hx => ?_⟩
      rw [hAP]
      exact hmem2 x hx
    · right
      refine ⟨i0, ?_, ?_, ?_⟩
      · rw [hAP]
        exact hi0
      · rw [hAP]
        dsimp only
        rw [hmap', List.length_append]
        simp only [List.length_singleton]
        exact hseg_eq
      · rw [hAP]
        dsimp only
        rw [List.length_append]
        simp only [List.length_singleton]
        exact hlen_ct
    · intro b hbmem
      rw [hAP] at hbmem
      dsimp only
      rw [hmap']
      by_cases hba : b = a
      · subst hba
        rw [hho_a, if_pos (List.mem_append_right _ (List.mem_singleton.2 rfl))]
        have h0 := hhand b hbmem
        rw [if_neg hnotin_a] at h0
        unfold handOf at h0
        rw [hkind] at h0
        dsimp only at h0
        omega
      · rw [hho_ne b hba]
        have h0 := hhand b hbmem
        by_cases hbm : b ∈ s.gs.current_trick.map Prod.fst
        · rw [if_pos hbm] at h0
          rw [if_pos (List.mem_append_left _ hbm)]
          exact h0
        · rw [if_neg hbm] at h0
          rw [if_neg ?_]
          · exact h0
          · intro hc
            rcases List.mem_append.1 hc with hc1 | hc1
            · exact hbm hc1
            · rw [List.mem_singleton] at hc1
              exact hba hc1
    · intro _
      dsimp only
      rcases computeWinner_ne_none lead' s.gs.briscola_suit
        (s.gs.current_trick ++ [(a, card)]) (by simp) with ⟨w, hw⟩
      exact ⟨w, hw, computeWinner_mem _ _ _ _ hw⟩

/-- Dispatcher: any `_step_play` success preserves the loop invariant. -/
lemma step_play_preserves (s s1 : EngineSt) (a : Actor) (act : ActionT)
    (hph : s.phase = .play) (hact : s.current_actor = some a)
    (hM : MidInv s) (hX : ObsX s)
    (h : step_play s a act = .ok s1) :
    MidInv s1 ∧ s1.phase = .play := by
  obtain ⟨hS, hC, hP⟩ := hM
  obtain ⟨hAPm, hseg⟩ := ObsX_play_elim s a hph hact hX
  have hPl := PhaseInv_play_elim s hph hP
  cases act
  case play_card card =>
    simp only [step_play] at h
    obtain ⟨ak, aid⟩ := a
    cases ak
    case player =>
      dsimp only at h
      by_cases hmem : card ∈ (playerAt s.gs aid).cards
      · rw [if_pos hmem] at h
        dsimp only at h
        cases h
        have hk := ((AP_mem_player_iff s hS aid).1 hAPm).1
        refine ⟨?_, hph⟩
        dsimp only [updPlayer]
        by_cases hl1 : (s.gs.current_trick ++ [(Actor.mk .player aid, card)]).length = 1
        · rw [if_pos hl1, update_trick_winner]
          dsimp only
          rw [if_neg (by simp)]
          exact play_player_preserves s (Actor.mk .player aid) card _ _ hph rfl hk
            (removeFirst_ms _ _ hmem).symm (removeFirst_length _ _ hmem) rfl rfl
            hAPm hseg hS hC hPl
        · rw [if_neg hl1, update_trick_winner]
          dsimp only
          rw [if_neg (by simp)]
          exact play_player_preserves s (Actor.mk .player aid) card _ _ hph rfl hk
            (removeFirst_ms _ _ hmem).symm (removeFirst_length _ _ hmem) rfl rfl
            hAPm hseg hS hC hPl
      · rw [if_neg hmem] at h
        exact Except.noConfusion h
    case buco =>
      dsimp only at h
      by_cases hmem : card ∈ (bucoAt s.gs aid).cards
      · rw [if_pos hmem] at h
        dsimp only at h
        cases h
        have hk := (AP_mem_buco_iff s hS aid).1 hAPm
        refine ⟨?_, hph⟩
        dsimp only [updBuco]
        by_cases hl1 : (s.gs.current_trick ++ [(Actor.mk .buco aid, card)]).length = 1
        · rw [if_pos hl1, update_trick_winner]
          dsimp only
          rw [if_neg (by simp)]
          exact play_buco_preserves s (Actor.mk .buco aid) card _ _ hph rfl hk
            (removeFirst_ms _ _ hmem).symm (removeFirst_length _ _ hmem) rfl
            hAPm hseg hS hC hPl
        · rw [if_neg hl1, update_trick_winner]
          dsimp only
          rw [if_neg (by simp)]
          exact play_buco_preserves s (Actor.mk .buco aid) card _ _ hph rfl hk
            (removeFirst_ms _ _ hmem).symm (removeFirst_length _ _ hmem) rfl
            hAPm hseg hS hC hPl
      · rw [if_neg hmem] at h
        exact Except.noConfusion h
  all_goals
    simp only [step_play] at h
    cases h
    exact ⟨⟨hS, hC, hP⟩, hph⟩

/-! ### Selector characterisations -/

lemma next_player_to_deal_some (s : EngineSt) (np : Nat)
    (h : next_player_to_deal s = some np) :
    np < s.gs.n_players ∧ np ∉ s.gs.dealt_to := by
  simp only [next_player_to_deal] at h
  rcases List.exists_of_findSome?_eq_some h with ⟨off, hoff, hf⟩
  rw [List.mem_range] at hoff
  split at hf
  · exact Option.noConfusion hf
  · rename_i hnd
    cases hf
    have hn : 0 < s.gs.n_players := by omega
    exact ⟨Nat.mod_lt _ hn, hnd⟩

lemma next_player_for_cambi_some (s : EngineSt) (np : Nat)
    (h : next_player_for_cambi s = some np) :
    np < s.gs.n_players ∧ (playerAt s.gs np).is_playing = true := by
  simp only [next_player_for_cambi] at h
  rcases List.exists_of_findSome?_eq_some h with ⟨off, hoff, hf⟩
  rw [List.mem_range] at hoff
  split at hf
  · rename_i hcond
    cases hf
    have hn : 0 < s.gs.n_players := by omega
    exact ⟨Nat.mod_lt _ hn, hcond.1⟩
  · exact Option.noConfusion hf

lemma next_player_for_buchi_entry_some (s : EngineSt) (np : Nat)
    (h : next_player_for_buchi_entry s = some np) :
    np < s.gs.n_players ∧ (playerAt s.gs np).is_playing = false ∧
      np ∉ s.gs.buchi_entry_done := by
  simp only [next_player_for_buchi_entry] at h
  rcases List.exists_of_findSome?_eq_some h with ⟨off, hoff, hf⟩
  rw [List.mem_range] at hoff
  split at hf
  · rename_i hcond
    cases hf
    have hn : 0 < s.gs.n_players := by omega
    exact ⟨Nat.mod_lt _ hn, hcond.1, hcond.2⟩
  · exact Option.noConfusion hf

lemma next_buco_for_discard_some (s : EngineSt) (pb : Nat)
    (h : next_buco_for_discard s = some pb) :
    pb < s.gs.buchi.length ∧ (bucoAt s.gs pb).discard_pending = true ∧
      (bucoAt s.gs pb).cards.length = 4 := by
  unfold next_buco_for_discard at h
  rcases List.findIdx?_eq_some_iff_getElem.1 h with ⟨hlt, hpred, _⟩
  have hb : bucoAt s.gs pb = s.gs.buchi[pb] := getD_lt _ _ hlt
  simp only [decide_eq_true_eq] at hpred
  rw [hb]
  exact ⟨hlt, hpred.1, hpred.2⟩

lemma next_buco_for_discard_none (s : EngineSt)
    (h : next_buco_for_discard s = none) :
    ∀ b ∈ s.gs.buchi, ¬(b.discard_pending = true ∧ b.cards.length = 4) := by
  unfold next_buco_for_discard at h
  rw [List.findIdx?_eq_none_iff] at h
  intro b hb
  have h2 := h b hb
  simpa using h2

/-- Any active participant starts a one-element rotation segment. -/
lemma seg_singleton (s : EngineSt) (a : Actor) (hm : a ∈ activeParticipants s) :
    ∃ i0, i0 < (activeParticipants s).length ∧
      ([] : List Actor) ++ [a] = (rot (activeParticipants s) i0).take (0 + 1) := by
  rcases List.getElem_of_mem hm with ⟨j, hj, hja⟩
  refine ⟨j, hj, ?_⟩
  have hlen0 : 0 < (rot (activeParticipants s) j).length := by
    rw [rot_length]
    omega
  have h1 : (rot (activeParticipants s) j).take 1
      = [(rot (activeParticipants s) j)[0]] := by
    rw [List.take_one, List.head?_eq_getElem?, List.getElem?_eq_getElem hlen0]
    rfl
  rw [List.nil_append, h1]
  have h2 := rot_getElem (activeParticipants s) j 0 hj hlen0 (Nat.mod_lt _ (by omega))
  rw [h2]
  have hidx : (j + 0) % (activeParticipants s).length = j := by
    rw [Nat.add_zero, Nat.mod_eq_of_lt hj]
  simp only [hidx]
  rw [hja]

lemma getLastD_mem (l : List (List (Actor × Card))) (h : l ≠ []) :
    l.getLastD [] ∈ l := by
  rw [List.getLastD_eq_getLast?, List.getLast?_eq_getLast l h, Option.getD_some]
  exact List.getLast_mem h

/-- Mid-trick, the engine's `_next_actor_ccw` hands the turn to the next
element of the rotation segment. -/
lemma next_ccw_obs (s : EngineSt) (hS : SInv s) (hPl : PlayInv s)
    (hct : s.gs.current_trick ≠ [])
    (hlen : s.gs.current_trick.length ≠ (activeParticipants s).length)
    (last : Actor × Card) (hlast : s.gs.current_trick.getLast? = some last)
    (a : Actor) (hccw : next_actor_ccw s last.1 = some a) :
    a ∈ activeParticipants s ∧
      ∃ i0, i0 < (activeParticipants s).length ∧
        s.gs.current_trick.map Prod.fst ++ [a]
          = (rot (activeParticipants s) i0).take (s.gs.current_trick.length + 1) := by
  obtain ⟨_, _, hseginv, _, _⟩ := hPl
  rcases hseginv with hnil | ⟨i0, hi0, hmap, hle⟩
  · exact absurd hnil hct
  have hk1 : 1 ≤ s.gs.current_trick.length := List.length_pos.2 hct
  have hklt : s.gs.current_trick.length < (activeParticipants s).length :=
    lt_of_le_of_ne hle hlen
  have htklen : ((rot (activeParticipants s) i0).take s.gs.current_trick.length).length
      = s.gs.current_trick.length := by
    rw [List.length_take, rot_length]
    omega
  have hblast : s.gs.current_trick.length - 1 < (rot (activeParticipants s) i0).length := by
    rw [rot_length]
    omega
  have hlast1 : last.1 = (rot (activeParticipants s) i0)[s.gs.current_trick.length - 1] := by
    have e1 : (s.gs.current_trick.map Prod.fst).getLast? = some last.1 := by
      rw [List.getLast?_map, hlast]
      rfl
    rw [hmap, List.getLast?_eq_getElem?, htklen,
      List.getElem?_eq_getElem (by rw [htklen]; omega)] at e1
    have e2 := Option.some.inj e1
    rw [List.getElem_take] at e2
    exact e2.symm
  have hrotk1 := rot_getElem (activeParticipants s) i0 (s.gs.current_trick.length - 1) hi0
    (by rw [rot_length]; omega) (Nat.mod_lt _ (by omega))
  have hnpos : 0 < (activeParticipants s).length := by omega
  have hfind : (activeParticipants s).findIdx? (fun x => x = last.1)
      = some ((i0 + (s.gs.current_trick.length - 1)) % (activeParticipants s).length) := by
    rw [List.findIdx?_eq_some_iff_getElem]
    refine ⟨Nat.mod_lt _ hnpos, ?_, ?_⟩
    · simp only [decide_eq_true_eq]
      rw [hlast1, hrotk1]
    · intro j2 hj2
      simp only [Bool.not_eq_true, decide_eq_false_iff_not]
      intro hc
      rw [hlast1, hrotk1] at hc
      have := (AP_nodup s).getElem_inj_iff.1 hc
      omega
  simp only [next_actor_ccw] at hccw
  rw [hfind] at hccw
  dsimp only at hccw
  rw [List.get?_eq_getElem?, List.getElem?_eq_getElem (Nat.mod_lt _ hnpos)] at hccw
  have ha := Option.some.inj hccw
  have hidx : (((i0 + (s.gs.current_trick.length - 1)) % (activeParticipants s).length) + 1)
        % (activeParticipants s).length
      = (i0 + s.gs.current_trick.length) % (activeParticipants s).length := by
    rw [Nat.mod_add_mod]
    congr 1
    omega
  have hrotk := rot_getElem (activeParticipants s) i0 s.gs.current_trick.length hi0
    (by rw [rot_length]; omega) (Nat.mod_lt _ (by omega))
  have hbha : s.gs.current_trick.length < (rot (activeParticipants s) i0).length := by
    rw [rot_length]
    omega
  have ha2 : a = (rot (activeParticipants s) i0)[s.gs.current_trick.length] := by
    rw [hrotk, ← ha]
    simp only [hidx]
  constructor
  · rw [← ha]
    exact List.getElem_mem _
  · refine ⟨i0, hi0, ?_⟩
    rw [hmap, ha2, ← List.concat_eq_append, List.take_concat_get]

lemma cons_deal_ms (D3 Th Hs H B T CT Br G F : Multiset Card)
    (A1 : Hs + 0 = H + Th)
    (A3 : Th + D3 + H + B + T + CT + Br + G = F) :
    D3 + Hs + B + T + CT + Br + G = F := by
  rw [add_zero] at A1
  rw [← A3, A1]
  abel

/-- Dealing three cards to the next seat yields an observable state
satisfying the invariant. -/
lemma deal_step_preserves (s : EngineSt) (np : Nat) (p' : Player) (three d3 : List Card)
    (hph : s.phase = .deal_decide)
    (hnp : np < s.gs.players.length)
    (hnotdealt : np ∉ s.gs.dealt_to)
    (hdeck : s.gs.deck = three ++ d3)
    (hlen3 : three.length = 3)
    (hpc : p'.cards = three)
    (hpp1 : p'.is_playing = (playerAt s.gs np).is_playing)
    (hpb : p'.in_buco = (playerAt s.gs np).in_buco)
    (hS : SInv s) (hC : ConsInv s) (hPP : PrePlay s) (hB : s.gs.buchi = []) :
    ObsInv { s with
      gs := { s.gs with
        players := s.gs.players.set np p',
        deck := d3,
        dealt_to := s.gs.dealt_to ++ [np] },
      current_actor := some (Actor.mk .player np) } := by
  obtain ⟨htr, hct, hH1, hBL⟩ := hPP
  have hself : (s.gs.players.set np p').getD np default = p' := getD_set_self _ _ _ hnp
  have hne : ∀ i, i ≠ np → (s.gs.players.set np p').getD i default = playerAt s.gs i :=
    fun i hi => getD_set_ne _ _ _ _ hi
  have hflag : (playerAt s.gs np).is_playing = false := by
    by_contra hcon
    rw [Bool.not_eq_false] at hcon
    exact hnotdealt (hS.playing_dealt np hnp hcon)
  have hold : (s.gs.players.getD np default).cards = [] := by
    have h0 := hH1 np hnp
    rw [if_neg hnotdealt] at h0
    exact List.length_eq_zero.1 h0
  refine ⟨⟨?_, ?_, ?_⟩, ?_⟩
  · refine SInv_of_shape _ s rfl (by dsimp only; exact List.length_set _ _ _) rfl ?_ rfl
      (fun i hi => hi) (fun i hi => List.mem_append_left _ hi) hS
    intro i
    dsimp only [playerAt]
    by_cases hik : i = np
    · subst hik
      rw [hself, hpp1, hpb]
      exact ⟨rfl, rfl⟩
    · rw [hne i hik]
      exact ⟨rfl, rfl⟩
  · refine ConsInv_other_intro _ (by simp [hph]) (by simp [hph]) ?_
    have hfull := ConsInv_other_elim s (by simp [hph]) (by simp [hph]) hC
    rw [liveCards_eq, hdeck, coe_append_ms] at hfull
    rw [liveCards_eq]
    dsimp only
    have hset := handsMS_set s.gs.players np p' hnp
    rw [hold, hpc, Multiset.coe_nil] at hset
    exact cons_deal_ms _ _ _ _ _ _ _ _ _ _ hset hfull
  · refine PhaseInv_deal_intro _ hph ?_
    refine ⟨⟨htr, hct, ?_, hBL⟩, hB⟩
    intro i hi
    dsimp only [playerAt] at hi ⊢
    rw [List.length_set] at hi
    by_cases hik : i = np
    · subst hik
      rw [hself, hpc, if_pos (List.mem_append_right _ (List.mem_singleton.2 rfl))]
      exact hlen3
    · rw [hne i hik]
      have h0 := hH1 i hi
      have hmemiff : i ∈ s.gs.dealt_to ++ [np] ↔ i ∈ s.gs.dealt_to := by
        rw [List.mem_append, List.mem_singleton]
        simp [hik]
      by_cases hm : i ∈ s.gs.dealt_to
      · rw [if_pos (hmemiff.2 hm)]
        rw [if_pos hm] at h0
        exact h0
      · rw [if_neg (fun hc => hm (hmemiff.1 hc))]
        rw [if_neg hm] at h0
        exact h0
  · refine ObsX_deal_intro _ (Actor.mk .player np) hph rfl ?_
    refine ⟨rfl, ?_, ?_, ?_⟩
    · dsimp only
      rw [List.length_set]
      exact hnp
    · dsimp only
      exact List.mem_append_right _ (List.mem_singleton.2 rfl)
    · dsimp only [playerAt]
      rw [hself, hpp1]
      exact hflag

lemma map_players_updBuco (gs : GameState) (j : Nat) (f : Buco → Buco)
    (hj : j < gs.buchi.length)
    (hf : ∀ b, (f b).players = b.players) :
    (updBuco gs j f).buchi.map Buco.players = gs.buchi.map Buco.players := by
  unfold updBuco
  dsimp only
  rw [List.map_set]
  have hbj : j < (gs.buchi.map Buco.players).length := by
    simpa using hj
  have h1 : (f (bucoAt gs j)).players = (gs.buchi.map Buco.players)[j] := by
    rw [List.getElem_map, hf]
    simp only [bucoAt]
    rw [List.getD_eq_getElem _ _ hj]
  rw [h1, set_getElem_self]

/-- With a complete trick, the current-trick leaders are exactly the
rotation, so every active participant has played. -/
lemma complete_trick_cover (s : EngineSt) (hPl : PlayInv s)
    (hct : s.gs.current_trick ≠ [])
    (hcomplete : s.gs.current_trick.length = (activeParticipants s).length) :
    ∀ q ∈ activeParticipants s, q ∈ s.gs.current_trick.map Prod.fst := by
  obtain ⟨_, _, hseginv, _, _⟩ := hPl
  rcases hseginv with hnil | ⟨i0, hi0, hmap, _⟩
  · exact absurd hnil hct
  intro q hq
  rw [hmap, hcomplete]
  have : (rot (activeParticipants s) i0).take (activeParticipants s).length
      = rot (activeParticipants s) i0 := by
    rw [← rot_length (activeParticipants s) i0, List.take_length]
  rw [this, rot_mem]
  exact hq

/-- Members of a complete trick are active participants. -/
lemma trick_members_AP (s : EngineSt) (hPl : PlayInv s)
    (hct : s.gs.current_trick ≠ []) :
    ∀ x ∈ s.gs.current_trick, x.1 ∈ activeParticipants s := by
  obtain ⟨_, _, hseginv, _, _⟩ := hPl
  rcases hseginv with hnil | ⟨i0, hi0, hmap, _⟩
  · exact absurd hnil hct
  intro x hx
  have h1 : x.1 ∈ s.gs.current_trick.map Prod.fst := List.mem_map_of_mem _ hx
  rw [hmap] at h1
  have h2 := (List.take_sublist _ _).mem h1
  rw [rot_mem] at h2
  exact h2

/-- Resolving the final trick and moving to settlement preserves the
invariant. -/
lemma resolve_settle_preserves (s sR : EngineSt) (hph : s.phase = .play)
    (hres : resolve_trick s = .ok sR) (hM : MidInv s) :
    MidInv { sR with phase := .settle } := by
  obtain ⟨hS, hC, hP⟩ := hM
  have hPl := PhaseInv_play_elim s hph hP
  have hfull := ConsInv_other_elim s (by simp [hph]) (by simp [hph]) hC
  simp only [resolve_trick] at hres
  split at hres
  · rename_i hctnil
    cases hres
    refine ⟨SInv_of_shape _ s rfl rfl rfl (fun i => ⟨rfl, rfl⟩) rfl
      (fun i hi => hi) (fun i hi => hi) hS, ?_, PhaseInv_settle_fine_intro _ (Or.inl rfl)⟩
    refine ConsInv_core_intro _ (Or.inl rfl) ?_
    rw [liveCards_eq] at hfull
    rw [coreCards_eq]
    dsimp only
    rw [← hfull, hctnil]
    simp only [List.map_nil, Multiset.coe_nil]
    dsimp only [briscolaMS]
    abel
  · rename_i hctne
    rcases hw : s.gs.trick_winner with _ | w <;> rw [hw] at hres
    · exact Except.noConfusion hres
    dsimp only at hres
    obtain ⟨hPl1, hPl2, hPl3, hPl4, hPl5⟩ := hPl
    have hwmem : w.1 ∈ activeParticipants s := by
      rcases hPl5 hctne with ⟨w2, hw2, hw2m⟩
      rw [hw] at hw2
      cases Option.some.inj hw2
      exact trick_members_AP s ⟨hPl1, hPl2, hPl3, hPl4, hPl5⟩ hctne w hw2m
    have htrmseq : tricksMS (s.gs.tricks ++ [s.gs.current_trick])
        = tricksMS s.gs.tricks + ((s.gs.current_trick.map Prod.snd : List Card) : Multiset Card) := by
      rw [tricksMS_append]
      simp [tricksMS]
    rcases hwk : w.1.kind with _ | _ <;> rw [hwk] at hres <;> dsimp only at hres <;> cases hres
    · -- player winner
      have hwid : w.1.id < s.gs.players.length := by
        have := (AP_mem_player_iff s hS w.1.id).1 (by
          rw [show Actor.mk .player w.1.id = w.1 from by rw [← hwk]]
          exact hwmem)
        exact this.1
      refine ⟨?_, ?_, PhaseInv_settle_fine_intro _ (Or.inl rfl)⟩
      · refine SInv_of_shape _ s rfl ?_ rfl ?_ rfl (fun i hi => hi) (fun i hi => hi) hS
        · dsimp only [updPlayer]
          exact List.length_set _ _ _
        · intro i
          dsimp only [updPlayer, playerAt]
          by_cases hik : i = w.1.id
          · subst hik
            rw [getD_set_self _ _ _ hwid]
            exact ⟨rfl, rfl⟩
          · rw [getD_set_ne _ _ _ _ hik]
            exact ⟨rfl, rfl⟩
      · refine ConsInv_core_intro _ (Or.inl rfl) ?_
        rw [liveCards_eq] at hfull
        rw [coreCards_eq]
        dsimp only [updPlayer]
        rw [handsMS_set_same_cards _ _ _ hwid]
        · rw [htrmseq, ← hfull]
          dsimp only [briscolaMS]
          abel
        · rfl
    · -- buco winner
      have hwid : w.1.id < s.gs.buchi.length := by
        refine (AP_mem_buco_iff s hS w.1.id).1 ?_
        rw [show Actor.mk .buco w.1.id = w.1 from by rw [← hwk]]
        exact hwmem
      refine ⟨?_, ?_, PhaseInv_settle_fine_intro _ (Or.inl rfl)⟩
      · refine SInv_of_shape _ s rfl rfl rfl (fun i => ⟨rfl, rfl⟩) ?_
          (fun i hi => hi) (fun i hi => hi) hS
        exact map_players_updBuco _ _ _ hwid (fun b => rfl)
      · refine ConsInv_core_intro _ (Or.inl rfl) ?_
        rw [liveCards_eq] at hfull
        rw [coreCards_eq]
        dsimp only [updBuco]
        rw [bucosMS_set_same_cards _ _ _ hwid]
        · rw [htrmseq, ← hfull]
          dsimp only [briscolaMS]
          abel
        · rfl

/-- Restarting a trick from an empty buffer changes nothing of substance. -/
lemma restart_trick_preserves (s : EngineSt) (hph : s.phase = .play)
    (hct : s.gs.current_trick = []) (hM : MidInv s) :
    MidInv { s with gs := start_next_trick s.gs } := by
  obtain ⟨hS, hC, hP⟩ := hM
  obtain ⟨h1, h2, h3, h4, h5⟩ := PhaseInv_play_elim s hph hP
  have hAP : activeParticipants { s with gs := start_next_trick s.gs }
      = activeParticipants s :=
    AP_congr _ s rfl rfl (fun i => rfl) (fun i => rfl) rfl
  refine ⟨SInv_of_shape _ s rfl rfl rfl (fun i => ⟨rfl, rfl⟩) rfl
    (fun i hi => hi) (fun i hi => hi) hS, ?_, ?_⟩
  · refine ConsInv_other_intro _ (by simp [hph]) (by simp [hph]) ?_
    have hlc : liveCards { s with gs := start_next_trick s.gs } = liveCards s :=
      liveCards_congr _ s rfl rfl rfl rfl
        (by dsimp only [start_next_trick]; rw [hct]) rfl
    rw [hlc]
    exact ConsInv_other_elim s (by simp [hph]) (by simp [hph]) hC
  · refine PhaseInv_play_intro _ hph ?_
    refine ⟨h1, ?_, Or.inl rfl, ?_, ?_⟩
    · intro t ht
      rcases h2 t ht with ⟨hne2, hmm⟩
      refine ⟨hne2, fun x hx => ?_⟩
      rw [hAP]
      exact hmm x hx
    · intro b hb
      rw [hAP] at hb
      have h0 := h4 b hb
      rw [hct] at h0
      rw [handOf_congr { s with gs := start_next_trick s.gs } s rfl rfl b]
      dsimp only [start_next_trick]
      simpa using h0
    · intro hcon
      exact absurd rfl hcon

/-- Player-winner case of resolving a complete, non-final trick. -/
lemma resolve_next_player_preserves (s : EngineSt) (w : Actor × Card)
    (hph : s.phase = .play)
    (hctne : s.gs.current_trick ≠ [])
    (hcomplete : s.gs.current_trick.length = (activeParticipants s).length)
    (hwid : w.1.id < s.gs.players.length)
    (htl : s.gs.tricks.length + 1 ≠ 3)
    (hS : SInv s) (hC : ConsInv s) (hPl : PlayInv s) :
    MidInv {
      gs := start_next_trick (updPlayer
        { s.gs with tricks := s.gs.tricks ++ [s.gs.current_trick] } w.1.id
        (fun p => { p with tricks_won := p.tricks_won + 1 }))
      phase := s.phase
      current_actor := s.current_actor } := by
  obtain ⟨hPl1, hPl2, hPl3, hPl4, hPl5⟩ := hPl
  have hcover := complete_trick_cover s ⟨hPl1, hPl2, hPl3, hPl4, hPl5⟩ hctne hcomplete
  have hmembers := trick_members_AP s ⟨hPl1, hPl2, hPl3, hPl4, hPl5⟩ hctne
  have hfull := ConsInv_other_elim s (by simp [hph]) (by simp [hph]) hC
  rw [liveCards_eq] at hfull
  have htrmseq : tricksMS (s.gs.tricks ++ [s.gs.current_trick])
      = tricksMS s.gs.tricks + ((s.gs.current_trick.map Prod.snd : List Card) : Multiset Card) := by
    rw [tricksMS_append]
    simp [tricksMS]
  have hAP : activeParticipants {
      gs := start_next_trick (updPlayer
        { s.gs with tricks := s.gs.tricks ++ [s.gs.current_trick] } w.1.id
        (fun p => { p with tricks_won := p.tricks_won + 1 }))
      phase := s.phase
      current_actor := s.current_actor }
      = activeParticipants s := by
    refine AP_congr _ s rfl rfl ?_ ?_ rfl
    · intro i
      dsimp only [start_next_trick, updPlayer, playerAt]
      by_cases hik : i = w.1.id
      · subst hik
        rw [getD_set_self _ _ _ hwid]
      · rw [getD_set_ne _ _ _ _ hik]
    · intro i
      dsimp only [start_next_trick, updPlayer, playerAt]
      by_cases hik : i = w.1.id
      · subst hik
        rw [getD_set_self _ _ _ hwid]
      · rw [getD_set_ne _ _ _ _ hik]
  refine ⟨?_, ?_, ?_⟩
  · refine SInv_of_shape _ s rfl ?_ rfl ?_ rfl (fun i hi => hi) (fun i hi => hi) hS
    · dsimp only [start_next_trick, updPlayer]
      exact List.length_set _ _ _
    · intro i
      dsimp only [start_next_trick, updPlayer, playerAt]
      by_cases hik : i = w.1.id
      · subst hik
        rw [getD_set_self _ _ _ hwid]
        exact ⟨rfl, rfl⟩
      · rw [getD_set_ne _ _ _ _ hik]
        exact ⟨rfl, rfl⟩
  · refine ConsInv_other_intro _ (by simp [hph]) (by simp [hph]) ?_
    rw [liveCards_eq]
    dsimp only [start_next_trick, updPlayer]
    rw [handsMS_set_same_cards _ _ _ hwid]
    · rw [htrmseq]
      simp only [List.map_nil, Multiset.coe_nil]
      rw [← hfull]
      dsimp only [briscolaMS]
      abel
    · rfl
  · refine PhaseInv_play_intro _ (by simp [hph]) ?_
    refine ⟨?_, ?_, Or.inl rfl, ?_, ?_⟩
    · dsimp only [start_next_trick, updPlayer]
      rw [List.length_append, List.length_singleton]
      omega
    · intro t ht
      dsimp only [start_next_trick, updPlayer] at ht
      rcases List.mem_append.1 ht with ht1 | ht1
      · rcases hPl2 t ht1 with ⟨hne2, hmm⟩
        refine ⟨hne2, fun x hx => ?_⟩
        rw [hAP]
        exact hmm x hx
      · rw [List.mem_singleton] at ht1
        subst ht1
        refine ⟨hctne, fun x hx => ?_⟩
        rw [hAP]
        exact hmembers x hx
    · intro q hq
      rw [hAP] at hq
      have h0 := hPl4 q hq
      rw [if_pos (hcover q hq)] at h0
      dsimp only [start_next_trick, updPlayer]
      rw [if_neg (by simp)]
      rw [List.length_append, List.length_singleton]
      obtain ⟨qk, qid⟩ := q
      cases qk
      case player =>
        unfold handOf at h0 ⊢
        dsimp only [playerAt] at h0 ⊢
        by_cases hqi : qid = w.1.id
        · subst hqi
          rw [getD_set_self _ _ _ hwid]
          dsimp only
          omega
        · rw [getD_set_ne _ _ _ _ hqi]
          omega
      case buco =>
        unfold handOf at h0 ⊢
        dsimp only [bucoAt] at h0 ⊢
        omega
    · intro hcon
      exact absurd rfl hcon

/-- Buco-winner case of resolving a complete, non-final trick. -/
lemma resolve_next_buco_preserves (s : EngineSt) (w : Actor × Card)
    (hph : s.phase = .play)
    (hctne : s.gs.current_trick ≠ [])
    (hcomplete : s.gs.current_trick.length = (activeParticipants s).length)
    (hwid : w.1.id < s.gs.buchi.length)
    (htl : s.gs.tricks.length + 1 ≠ 3)
    (hS : SInv s) (hC : ConsInv s) (hPl : PlayInv s) :
    MidInv {
      gs := start_next_trick (updBuco
        { s.gs with tricks := s.gs.tricks ++ [s.gs.current_trick] } w.1.id
        (fun b => { b with tricks_won := b.tricks_won + 1 }))
      phase := s.phase
      current_actor := s.current_actor } := by
  obtain ⟨hPl1, hPl2, hPl3, hPl4, hPl5⟩ := hPl
  have hcover := complete_trick_cover s ⟨hPl1, hPl2, hPl3, hPl4, hPl5⟩ hctne hcomplete
  have hmembers := trick_members_AP s ⟨hPl1, hPl2, hPl3, hPl4, hPl5⟩ hctne
  have hfull := ConsInv_other_elim s (by simp [hph]) (by simp [hph]) hC
  rw [liveCards_eq] at hfull
  have htrmseq : tricksMS (s.gs.tricks ++ [s.gs.current_trick])
      = tricksMS s.gs.tricks + ((s.gs.current_trick.map Prod.snd : List Card) : Multiset Card) := by
    rw [tricksMS_append]
    simp [tricksMS]
  have hbl2 : (updBuco { s.gs with tricks := s.gs.tricks ++ [s.gs.current_trick] } w.1.id
      (fun b => { b with tricks_won := b.tricks_won + 1 })).buchi.map Buco.players
      = s.gs.buchi.map Buco.players :=
    map_players_updBuco _ w.1.id _ hwid (fun b => rfl)
  have hAP : activeParticipants {
      gs := start_next_trick (updBuco
        { s.gs with tricks := s.gs.tricks ++ [s.gs.current_trick] } w.1.id
        (fun b => { b with tricks_won := b.tricks_won + 1 }))
      phase := s.phase
      current_actor := s.current_actor }
      = activeParticipants s := by
    refine AP_congr _ s rfl rfl (fun i => rfl) (fun i => rfl) ?_
    exact hbl2
  refine ⟨?_, ?_, ?_⟩
  · refine SInv_of_shape _ s rfl rfl rfl (fun i => ⟨rfl, rfl⟩) ?_
      (fun i hi => hi) (fun i hi => hi) hS
    exact hbl2
  · refine ConsInv_other_intro _ (by simp [hph]) (by simp [hph]) ?_
    rw [liveCards_eq]
    dsimp only [start_next_trick, updBuco]
    rw [bucosMS_set_same_cards _ _ _ hwid]
    · rw [htrmseq]
      simp only [List.map_nil, Multiset.coe_nil]
      rw [← hfull]
      dsimp only [briscolaMS]
      abel
    · rfl
  · refine PhaseInv_play_intro _ (by simp [hph]) ?_
    refine ⟨?_, ?_, Or.inl rfl, ?_, ?_⟩
    · dsimp only [start_next_trick, updBuco]
      rw [List.length_append, List.length_singleton]
      omega
    · intro t ht
      dsimp only [start_next_trick, updBuco] at ht
      rcases List.mem_append.1 ht with ht1 | ht1
      · rcases hPl2 t ht1 with ⟨hne2, hmm⟩
        refine ⟨hne2, fun x hx => ?_⟩
        rw [hAP]
        exact hmm x hx
      · rw [List.mem_singleton] at ht1
        subst ht1
        refine ⟨hctne, fun x hx => ?_⟩
        rw [hAP]
        exact hmembers x hx
    · intro q hq
      rw [hAP] at hq
      have h0 := hPl4 q hq
      rw [if_pos (hcover q hq)] at h0
      dsimp only [start_next_trick, updBuco]
      rw [if_neg (by simp)]
      rw [List.length_append, List.length_singleton]
      obtain ⟨qk, qid⟩ := q
      cases qk
      case player =>
        unfold handOf at h0 ⊢
        dsimp only [playerAt] at h0 ⊢
        omega
      case buco =>
        unfold handOf at h0 ⊢
        dsimp only [bucoAt] at h0 ⊢
        by_cases hqi : qid = w.1.id
        · subst hqi
          rw [getD_set_self _ _ _ hwid]
          dsimp only
          omega
        · rw [getD_set_ne _ _ _ _ hqi]
          omega
    · intro hcon
      exact absurd rfl hcon

/-- Resolving a complete (non-final) trick and starting the next one
preserves the invariant. -/
lemma resolve_next_preserves (s sR : EngineSt) (hph : s.phase = .play)
    (hcomplete : s.gs.current_trick.length = (activeParticipants s).length)
    (hres : resolve_trick s = .ok sR)
    (htr3 : sR.gs.tricks.length ≠ 3)
    (hM : MidInv s) :
    MidInv { sR with gs := start_next_trick sR.gs } := by
  obtain ⟨hS, hC, hP⟩ := hM
  have hPl := PhaseInv_play_elim s hph hP
  simp only [resolve_trick] at hres
  split at hres
  · rename_i hctnil
    cases hres
    exact restart_trick_preserves s hph hctnil ⟨hS, hC, hP⟩
  · rename_i hctne
    rcases hw : s.gs.trick_winner with _ | w <;> rw [hw] at hres
    · exact Except.noConfusion hres
    dsimp only at hres
    have hwmem : w.1 ∈ activeParticipants s := by
      rcases hPl.2.2.2.2 hctne with ⟨w2, hw2, hw2m⟩
      rw [hw] at hw2
      cases Option.some.inj hw2
      exact trick_members_AP s hPl hctne w hw2m
    rcases hwk : w.1.kind with _ | _ <;> rw [hwk] at hres <;> dsimp only at hres <;> cases hres
    · have hwid : w.1.id < s.gs.players.length := by
        have := (AP_mem_player_iff s hS w.1.id).1 (by
          rw [show Actor.mk .player w.1.id = w.1 from by rw [← hwk]]
          exact hwmem)
        exact this.1
      have htl : s.gs.tricks.length + 1 ≠ 3 := by
        have h3 : (s.gs.tricks ++ [s.gs.current_trick]).length ≠ 3 := htr3
        rw [List.length_append, List.length_singleton] at h3
        exact h3
      exact resolve_next_player_preserves s w hph hctne hcomplete hwid htl hS hC hPl
    · have hwid : w.1.id < s.gs.buchi.length := by
        refine (AP_mem_buco_iff s hS w.1.id).1 ?_
        rw [show Actor.mk .buco w.1.id = w.1 from by rw [← hwk]]
        exact hwmem
      have htl : s.gs.tricks.length + 1 ≠ 3 := by
        have h3 : (s.gs.tricks ++ [s.gs.current_trick]).length ≠ 3 := htr3
        rw [List.length_append, List.length_singleton] at h3
        exact h3
      exact resolve_next_buco_preserves s w hph hctne hcomplete hwid htl hS hC hPl

lemma to_cambi_preserves (s : EngineSt) (hph : s.phase = .deal_decide) (hM : MidInv s) :
    MidInv { s with phase := .cambi } := by
  obtain ⟨hS, hC, hP⟩ := hM
  obtain ⟨hPP, hB⟩ := PhaseInv_deal_elim s hph hP
  refine ⟨SInv_of_shape _ s rfl rfl rfl (fun i => ⟨rfl, rfl⟩) rfl
    (fun i hi => hi) (fun i hi => hi) hS, ?_, ?_⟩
  · refine ConsInv_other_intro _ (by simp) (by simp) ?_
    exact ConsInv_other_elim s (by simp [hph]) (by simp [hph]) hC
  · exact PhaseInv_cambi_intro _ rfl ⟨PrePlay_congr _ s rfl rfl rfl rfl rfl hPP, hB⟩

lemma to_bentry_preserves (s : EngineSt) (hph : s.phase = .cambi) (hM : MidInv s) :
    MidInv { s with phase := .buchi_entry } := by
  obtain ⟨hS, hC, hP⟩ := hM
  obtain ⟨hPP, _⟩ := PhaseInv_cambi_elim s hph hP
  refine ⟨SInv_of_shape _ s rfl rfl rfl (fun i => ⟨rfl, rfl⟩) rfl
    (fun i hi => hi) (fun i hi => hi) hS, ?_, ?_⟩
  · refine ConsInv_other_intro _ (by simp) (by simp) ?_
    exact ConsInv_other_elim s (by simp [hph]) (by simp [hph]) hC
  · exact PhaseInv_bentry_intro _ rfl (PrePlay_congr _ s rfl rfl rfl rfl rfl hPP)

lemma to_bdiscard_preserves (s : EngineSt) (ca : Option Actor)
    (hph : s.phase = .buchi_entry) (hM : MidInv s) :
    MidInv { s with phase := .buchi_discard, current_actor := ca } := by
  obtain ⟨hS, hC, hP⟩ := hM
  have hPP := PhaseInv_bentry_elim s hph hP
  refine ⟨SInv_of_shape _ s rfl rfl rfl (fun i => ⟨rfl, rfl⟩) rfl
    (fun i hi => hi) (fun i hi => hi) hS, ?_, ?_⟩
  · refine ConsInv_other_intro _ (by simp) (by simp) ?_
    exact ConsInv_other_elim s (by simp [hph]) (by simp [hph]) hC
  · exact PhaseInv_bdiscard_intro _ rfl (PrePlay_congr _ s rfl rfl rfl rfl rfl hPP)

/-- Moving from the buco phases into play (resetting the trick buffer)
establishes the play-phase invariant. -/
lemma enter_play_preserves (s : EngineSt)
    (hother : s.phase = .buchi_entry ∨ s.phase = .buchi_discard)
    (hnb : next_buco_for_discard s = none)
    (hM : MidInv s) :
    MidInv { s with phase := .play, gs := start_next_trick s.gs } := by
  obtain ⟨hS, hC, hP⟩ := hM
  have hPP : PrePlay s := by
    rcases hother with hp | hp
    · exact PhaseInv_bentry_elim s hp hP
    · exact PhaseInv_bdiscard_elim s hp hP
  obtain ⟨htr, hct, hH1, hBL⟩ := hPP
  have hnone := next_buco_for_discard_none s hnb
  have hAP : activeParticipants { s with phase := .play, gs := start_next_trick s.gs }
      = activeParticipants s :=
    AP_congr _ s rfl rfl (fun i => rfl) (fun i => rfl) rfl
  refine ⟨SInv_of_shape _ s rfl rfl rfl (fun i => ⟨rfl, rfl⟩) rfl
    (fun i hi => hi) (fun i hi => hi) hS, ?_, ?_⟩
  · refine ConsInv_other_intro _ (by simp) (by simp) ?_
    have hlc : liveCards { s with phase := .play, gs := start_next_trick s.gs }
        = liveCards s :=
      liveCards_congr _ s rfl rfl rfl rfl (by dsimp only [start_next_trick]; rw [hct]) rfl
    rw [hlc]
    rcases hother with hp | hp
    · exact ConsInv_other_elim s (by simp [hp]) (by simp [hp]) hC
    · exact ConsInv_other_elim s (by simp [hp]) (by simp [hp]) hC
  · refine PhaseInv_play_intro _ rfl ?_
    refine ⟨?_, ?_, Or.inl rfl, ?_, ?_⟩
    · dsimp only [start_next_trick]
      rw [htr]
      simp
    · intro t ht
      dsimp only [start_next_trick] at ht
      rw [htr] at ht
      exact absurd ht (List.not_mem_nil _)
    · intro b hb
      rw [hAP] at hb
      rw [handOf_congr { s with phase := .play, gs := start_next_trick s.gs } s rfl rfl b]
      dsimp only [start_next_trick]
      rw [if_neg (by simp)]
      rw [htr]
      simp only [List.length_nil]
      obtain ⟨bk, bid⟩ := b
      cases bk
      case player =>
        have hmem := (AP_mem_player_iff s hS bid).1 hb
        have hdealt := hS.playing_dealt bid hmem.1 hmem.2
        have h0 := hH1 bid hmem.1
        rw [if_pos hdealt] at h0
        unfold handOf
        dsimp only
        omega
      case buco =>
        have hmem := (AP_mem_buco_iff s hS bid).1 hb
        have hb4 := hBL s.gs.buchi[bid] (List.getElem_mem _)
        have hnp := hnone s.gs.buchi[bid] (List.getElem_mem _)
        unfold handOf
        dsimp only
        rw [show bucoAt s.gs bid = s.gs.buchi[bid] from getD_lt _ _ hmem]
        rcases hb4 with ⟨hpend, hlen⟩ | ⟨hpend, hlen⟩
        · exact absurd ⟨hpend, hlen⟩ hnp
        · omega
    · intro hcon
      exact absurd rfl hcon

/-- Settlement moves to the terminal phase and clears the actor. -/
lemma settle_fine_preserves (s : EngineSt) (hph : s.phase = .settle) (hM : MidInv s) :
    ObsInv { s with gs := settleE s.gs, phase := .fine, current_actor := none } := by
  obtain ⟨hS, hC, hP⟩ := hM
  have hcore := ConsInv_core_elim s (Or.inl hph) hC
  have hpsh := settleE_players_pshape s.gs
  obtain ⟨hdk, hbu, htk, hctk, hbck, hgh, hppk, hnk⟩ := settleE_fields s.gs
  have hlenE := settleE_players_length s.gs
  have hdone : (settleE s.gs).buchi_entry_done = s.gs.buchi_entry_done := by
    simp only [settleE]
    split
    · rfl
    · rfl
  have hdealt : (settleE s.gs).dealt_to = s.gs.dealt_to := by
    simp only [settleE]
    split
    · rfl
    · rfl
  refine ⟨⟨?_, ?_, PhaseInv_settle_fine_intro _ (Or.inr rfl)⟩, ObsX_fine_intro _ rfl rfl⟩
  · refine SInv_of_shape _ s ?_ ?_ ?_ ?_ ?_ ?_ ?_ hS
    · exact hnk
    · exact hlenE
    · exact hppk
    · intro i
      have h2 := pshape_parts (settleE_playerAt s.gs i)
      exact ⟨h2.2.1, h2.2.2.1⟩
    · rw [hbu]
    · intro i hi
      rw [hdone]
      exact hi
    · intro i hi
      rw [hdealt]
      exact hi
  · refine ConsInv_core_intro _ (Or.inr rfl) ?_
    have hcc : coreCards { s with gs := settleE s.gs, phase := .fine, current_actor := none }
        = coreCards s := by
      rw [coreCards_eq, coreCards_eq]
      dsimp only [briscolaMS]
      rw [hdk, hbu, htk, hbck, handsMS_eq_of_pshape _ _ hpsh]
    rw [hcc]
    dsimp only
    rw [hgh]
    exact hcore

lemma get_trick_winner_mem (s : EngineSt) (trick : List (Actor × Card))
    (w : Actor × Card) (h : get_trick_winner s trick = .ok w) : w ∈ trick := by
  unfold get_trick_winner at h
  split at h
  · exact Except.noConfusion h
  · rename_i hd _
    split at h
    · rename_i w2 hw2
      cases h
      exact computeWinner_mem _ _ _ _ hw2
    · exact Except.noConfusion h

/-- Changing only the pending actor leaves the loop invariant intact. -/
lemma MidInv_actor (s : EngineSt) (ca' : Option Actor) (hM : MidInv s) :
    MidInv { s with current_actor := ca' } :=
  MidInv_congr _ s rfl rfl rfl rfl rfl rfl rfl rfl rfl rfl rfl rfl rfl
    (fun i hi => hi) hM

/-- The auto-advance loop only stops in observable states satisfying the
invariant. -/
lemma run_preserves : ∀ (fuel : Nat) (s s' : EngineSt), MidInv s →
    run_to_next_decision fuel s = .ok s' → ObsInv s' := by
  intro fuel
  induction fuel with
  | zero =>
    intro s s' _ h
    exact Except.noConfusion h
  | succ n ih =>
    intro s s' hM h
    obtain ⟨hS, hC, hP⟩ := hM
    obtain ⟨gs, ph, ca⟩ := s
    cases ph
    case deal_decide =>
      simp only [run_to_next_decision] at h
      rcases hnp : next_player_to_deal ⟨gs, Phase.deal_decide, ca⟩ with _ | np <;>
        rw [hnp] at h
      · exact ih _ _ (to_cambi_preserves ⟨gs, Phase.deal_decide, ca⟩ rfl ⟨hS, hC, hP⟩) h
      · dsimp only at h
        rcases hd3 : drawN 3 gs.deck with e | ⟨three, d3⟩ <;> rw [hd3] at h
        · exact Except.noConfusion h
        dsimp only at h
        cases h
        obtain ⟨hnplt, hnotdealt⟩ := next_player_to_deal_some _ np hnp
        have hdk := drawN_ok 3 _ _ _ hd3
        exact deal_step_preserves ⟨gs, Phase.deal_decide, ca⟩ np _ three d3 rfl
          (by rw [← hS.nP]; exact hnplt) hnotdealt hdk.1 hdk.2 rfl rfl rfl hS hC
          (PhaseInv_deal_elim _ rfl hP).1 (PhaseInv_deal_elim _ rfl hP).2
    case cambi =>
      simp only [run_to_next_decision] at h
      rcases hnp : next_player_for_cambi ⟨gs, Phase.cambi, ca⟩ with _ | np <;>
        rw [hnp] at h
      · exact ih _ _ (to_bentry_preserves ⟨gs, Phase.cambi, ca⟩ rfl ⟨hS, hC, hP⟩) h
      · dsimp only at h
        cases h
        obtain ⟨hlt, hflag⟩ := next_player_for_cambi_some _ np hnp
        refine ⟨MidInv_actor _ _ ⟨hS, hC, hP⟩, ?_⟩
        exact ObsX_cambi_intro _ (Actor.mk .player np) rfl rfl
          ⟨rfl, by rw [← hS.nP]; exact hlt, hflag⟩
    case buchi_entry =>
      simp only [run_to_next_decision] at h
      rcases hnp : next_player_for_buchi_entry ⟨gs, Phase.buchi_entry, ca⟩ with _ | np <;>
        rw [hnp] at h
      · dsimp only at h
        rcases hpb : next_buco_for_discard ⟨gs, Phase.buchi_entry, ca⟩ with _ | pb <;>
          rw [hpb] at h
        · exact ih _ _
            (enter_play_preserves ⟨gs, Phase.buchi_entry, ca⟩ (Or.inl rfl) hpb ⟨hS, hC, hP⟩) h
        · dsimp only at h
          cases h
          obtain ⟨hpl, hpend, hc4⟩ := next_buco_for_discard_some _ pb hpb
          refine ⟨to_bdiscard_preserves ⟨gs, Phase.buchi_entry, ca⟩ _ rfl ⟨hS, hC, hP⟩, ?_⟩
          exact ObsX_bdiscard_intro _ (Actor.mk .buco pb) rfl rfl ⟨rfl, hpl, hpend, hc4⟩
      · dsimp only at h
        cases h
        obtain ⟨hlt, hflag, hnotdone⟩ := next_player_for_buchi_entry_some _ np hnp
        have hlt' : np < gs.players.length := by
          rw [← hS.nP]
          exact hlt
        have hnb : (playerAt gs np).in_buco = false := by
          by_contra hcon
          rw [Bool.not_eq_false] at hcon
          exact hnotdone (hS.in_buco_done np hlt' hcon)
        refine ⟨MidInv_actor _ _ ⟨hS, hC, hP⟩, ?_⟩
        exact ObsX_bentry_intro _ (Actor.mk .player np) rfl rfl ⟨rfl, hlt', hflag, hnb⟩
    case buchi_discard =>
      simp only [run_to_next_decision] at h
      rcases hpb : next_buco_for_discard ⟨gs, Phase.buchi_discard, ca⟩ with _ | pb <;>
        rw [hpb] at h
      · exact ih _ _
          (by
            have h2 := enter_play_preserves ⟨gs, Phase.buchi_discard, ca⟩ (Or.inr rfl) hpb
              ⟨hS, hC, hP⟩
            exact h2) h
      · dsimp only at h
        cases h
        obtain ⟨hpl, hpend, hc4⟩ := next_buco_for_discard_some _ pb hpb
        refine ⟨MidInv_actor _ _ ⟨hS, hC, hP⟩, ?_⟩
        exact ObsX_bdiscard_intro _ (Actor.mk .buco pb) rfl rfl ⟨rfl, hpl, hpend, hc4⟩
    case play =>
      simp only [run_to_next_decision] at h
      by_cases hcomp : gs.current_trick.length = num_active_participants ⟨gs, Phase.play, ca⟩
      · rw [if_pos hcomp] at h
        rcases hres : resolve_trick ⟨gs, Phase.play, ca⟩ with e | sR <;> rw [hres] at h
        · exact Except.noConfusion h
        dsimp only at h
        by_cases htr3 : sR.gs.tricks.length = 3
        · rw [if_pos htr3] at h
          exact ih _ _ (resolve_settle_preserves ⟨gs, Phase.play, ca⟩ sR rfl hres ⟨hS, hC, hP⟩) h
        · rw [if_neg htr3] at h
          have hcomp' : gs.current_trick.length
              = (activeParticipants ⟨gs, Phase.play, ca⟩).length := by
            rw [AP_len _ hS]
            exact hcomp
          exact ih _ _
            (resolve_next_preserves ⟨gs, Phase.play, ca⟩ sR rfl hcomp' hres htr3 ⟨hS, hC, hP⟩) h
      · rw [if_neg hcomp] at h
        simp only [next_actor_to_play] at h
        by_cases hct : gs.current_trick = []
        · rw [if_pos hct] at h
          by_cases htr : gs.tricks = []
          · rw [if_pos htr] at h
            by_cases hbne : gs.buchi ≠ []
            · rw [if_pos hbne] at h
              dsimp only at h
              cases h
              have hb0 : (0:Nat) < gs.buchi.length := List.length_pos.2 hbne
              have hmem : Actor.mk .buco 0 ∈ activeParticipants ⟨gs, Phase.play, ca⟩ :=
                (AP_mem_buco_iff _ hS 0).2 hb0
              refine ⟨MidInv_actor _ _ ⟨hS, hC, hP⟩, ?_⟩
              refine ObsX_play_intro _ (Actor.mk .buco 0) rfl rfl ⟨hmem, ?_⟩
              rcases seg_singleton _ (Actor.mk .buco 0) hmem with ⟨i0, hi0, hseg⟩
              refine ⟨i0, hi0, ?_⟩
              rw [hct]
              simpa using hseg
            · rw [if_neg hbne] at h
              split at h
              · rename_i e heq
                exact Except.noConfusion heq
              · rename_i a heq
                cases h
                have hfs := Except.ok.inj heq
                rcases List.exists_of_findSome?_eq_some hfs with ⟨off, hoff, hf⟩
                rw [List.mem_range] at hoff
                split at hf
                · rename_i hfl
                  have ha := Option.some.inj hf
                  subst ha
                  have hnp2 : gs.n_players = gs.players.length := hS.nP
                  have hidlt : ((gs.dealer + 1) % gs.n_players + off) % gs.n_players
                      < gs.players.length := by
                    rw [← hnp2]
                    exact Nat.mod_lt _ (by omega)
                  have hmem : Actor.mk .player
                        (((gs.dealer + 1) % gs.n_players + off) % gs.n_players)
                      ∈ activeParticipants ⟨gs, Phase.play, ca⟩ :=
                    (AP_mem_player_iff _ hS _).2 ⟨hidlt, hfl⟩
                  refine ⟨MidInv_actor _ _ ⟨hS, hC, hP⟩, ?_⟩
                  refine ObsX_play_intro _ _ rfl rfl ⟨hmem, ?_⟩
                  rcases seg_singleton _ _ hmem with ⟨i0, hi0, hseg⟩
                  refine ⟨i0, hi0, ?_⟩
                  rw [hct]
                  simpa using hseg
                · exact Option.noConfusion hf
              · rename_i heq
                exact Except.noConfusion h
          · rw [if_neg htr] at h
            rcases hgw : get_trick_winner ⟨gs, Phase.play, ca⟩ (gs.tricks.getLastD []) with
              e | w <;> rw [hgw] at h
            · dsimp only at h
              exact Except.noConfusion h
            · dsimp only at h
              cases h
              have hwm := get_trick_winner_mem _ _ _ hgw
              have hltmem : gs.tricks.getLastD [] ∈ gs.tricks := getLastD_mem _ htr
              have hPl := PhaseInv_play_elim _ rfl hP
              have hmem : w.1 ∈ activeParticipants ⟨gs, Phase.play, ca⟩ :=
                (hPl.2.1 _ hltmem).2 w hwm
              refine ⟨MidInv_actor _ _ ⟨hS, hC, hP⟩, ?_⟩
              refine ObsX_play_intro _ w.1 rfl rfl ⟨hmem, ?_⟩
              rcases seg_singleton _ w.1 hmem with ⟨i0, hi0, hseg⟩
              refine ⟨i0, hi0, ?_⟩
              rw [hct]
              simpa using hseg
        · rw [if_neg hct] at h
          rcases hgl : gs.current_trick.getLast? with _ | last <;> rw [hgl] at h
          · dsimp only at h
            exact Except.noConfusion h
          · dsimp only at h
            rcases hccw : next_actor_ccw ⟨gs, Phase.play, ca⟩ last.1 with _ | a <;>
              rw [hccw] at h <;> dsimp only at h
            · exact Except.noConfusion h
            · cases h
              have hPl := PhaseInv_play_elim _ rfl hP
              have hlenne : gs.current_trick.length
                  ≠ (activeParticipants ⟨gs, Phase.play, ca⟩).length := by
                rw [AP_len _ hS]
                exact hcomp
              obtain ⟨hmem, hseg⟩ :=
                next_ccw_obs ⟨gs, Phase.play, ca⟩ hS hPl hct hlenne last hgl a hccw
              exact ⟨MidInv_actor _ _ ⟨hS, hC, hP⟩, ObsX_play_intro _ a rfl rfl ⟨hmem, hseg⟩⟩
    case settle =>
      simp only [run_to_next_decision] at h
      cases h
      exact settle_fine_preserves ⟨gs, Phase.settle, ca⟩ rfl ⟨hS, hC, hP⟩
    case fine =>
      simp only [run_to_next_decision] at h
      cases h
      exact ⟨MidInv_actor _ _ ⟨hS, hC, hP⟩, ObsX_fine_intro _ rfl rfl⟩

/-- A successful `step` from an observable state lands in an observable
state. -/
lemma stepE_preserves (fuel : Nat) (s s' : EngineSt) (action : ActionT)
    (hO : ObsInv s) (h : stepE fuel s action = .ok s') : ObsInv s' := by
  obtain ⟨hM, hX⟩ := hO
  unfold stepE at h
  rcases hact : s.current_actor with _ | actor <;> rw [hact] at h
  · exact Except.noConfusion h
  dsimp only at h
  split at h
  · split at h
    · rename_i e heq
      exact Except.noConfusion h
    · rename_i s1 heq
      cases hph : s.phase <;> rw [hph] at heq
      case deal_decide =>
        exact run_preserves _ _ _
          (step_deal_decide_preserves s s1 actor action hph hact hM hX heq).1 h
      case cambi =>
        exact run_preserves _ _ _
          (step_cambi_preserves s s1 actor action hph hact hM hX heq).1 h
      case buchi_entry =>
        exact run_preserves _ _ _
          (step_buchi_entry_preserves s s1 actor action hph hact hM hX heq).1 h
      case buchi_discard =>
        exact run_preserves _ _ _
          (step_buchi_discard_preserves s s1 actor action hph hact hM hX heq).1 h
      case play =>
        exact run_preserves _ _ _
          (step_play_preserves s s1 actor action hph hact hM hX heq).1 h
      case settle =>
        exfalso
        have hX2 := hX
        unfold ObsX at hX2
        rw [hph, hact] at hX2
        exact hX2
      case fine =>
        exfalso
        have hX2 := hX
        unfold ObsX at hX2
        rw [hph, hact] at hX2
        exact hX2
  · exact Except.noConfusion h

lemma handsMS_init (specs : List (String × Int)) :
    handsMS (specs.map (fun p => Player.init p.1 p.2)) = 0 := by
  unfold handsMS
  rw [List.map_map]
  induction specs with
  | nil => rfl
  | cons x t ih =>
    rw [List.map_cons, List.sum_cons, ih]
    simp [Player.init]

/-- A fresh engine (`Engine.__init__`) stops in an observable state
satisfying the invariant. -/
lemma initE_obs (deckList : List Card) (playerSpecs : List (String × Int))
    (pot : Int) (dealer fuel : Nat) (s : EngineSt)
    (hperm : deckList.Perm full40)
    (h : initE deckList playerSpecs pot dealer fuel = .ok s) : ObsInv s := by
  simp only [initE] at h
  rcases hdr : draw deckList with e | ⟨bc, d1⟩ <;> rw [hdr] at h
  · exact Except.noConfusion h
  dsimp only at h
  have hdeck : deckList = bc :: d1 := by
    cases deckList with
    | nil => exact Except.noConfusion hdr
    | cons c t =>
      simp only [draw] at hdr
      cases hdr
      rfl
  have hpa : ∀ i,
      (((playerSpecs.map (fun p => Player.init p.1 p.2)).getD i default).is_playing = false)
      ∧ (((playerSpecs.map (fun p => Player.init p.1 p.2)).getD i default).in_buco = false)
      ∧ (((playerSpecs.map (fun p => Player.init p.1 p.2)).getD i default).cards = []) := by
    intro i
    by_cases hi : i < (playerSpecs.map (fun p => Player.init p.1 p.2)).length
    · rw [List.getD_eq_getElem _ _ hi]
      rw [List.getElem_map]
      exact ⟨rfl, rfl, rfl⟩
    · rw [List.getD_eq_default]
      · exact ⟨rfl, rfl, rfl⟩
      · omega
  refine run_preserves _ _ _ ⟨?_, ?_, ?_⟩ h
  · constructor
    · rfl
    · exact List.nodup_nil
    · intro i
      constructor
      · intro hc
        exact absurd hc (List.not_mem_nil _)
      · rintro ⟨_, hc⟩
        dsimp only [playerAt] at hc
        rw [(hpa i).1] at hc
        exact Bool.noConfusion hc
    · intro i hi hfl
      dsimp only [playerAt] at hfl
      rw [(hpa i).1] at hfl
      exact Bool.noConfusion hfl
    · intro b hb
      exact absurd hb (List.not_mem_nil _)
    · simp
    · intro i hi
      dsimp only [playerAt]
      rw [(hpa i).2.1]
      simp
    · intro i hi hib
      dsimp only [playerAt] at hib
      rw [(hpa i).2.1] at hib
      exact Bool.noConfusion hib
  · refine ConsInv_other_intro _ (by simp) (by simp) ?_
    rw [liveCards_eq]
    dsimp only
    rw [handsMS_init]
    have hfc : (deckList : Multiset Card) = full40MS :=
      Multiset.coe_eq_coe.2 hperm
    rw [hdeck, coe_cons_ms] at hfc
    rw [← hfc]
    dsimp only [briscolaMS, bucosMS, tricksMS]
    simp only [List.map_nil, List.sum_nil, Multiset.coe_nil]
    abel
  · refine PhaseInv_deal_intro _ rfl ?_
    refine ⟨⟨rfl, rfl, ?_, ?_⟩, rfl⟩
    · intro i hi
      dsimp only [playerAt]
      rw [(hpa i).2.2]
      simp
    · intro b hb
      exact absurd hb (List.not_mem_nil _)

/-- Master invariant: every reachable state is observable and satisfies the
full invariant. -/
lemma reachable_obs (s : EngineSt) (h : Reachable s) : ObsInv s := by
  induction h with
  | init deckList playerSpecs pot dealer fuel s hperm hok =>
    exact initE_obs deckList playerSpecs pot dealer fuel s hperm hok
  | next s a fuel s' _ hok ih =>
    exact stepE_preserves fuel s s' a ih hok


/-! ## C8: the actor/legality invariant -/

/-- A non-empty map is non-empty. -/
lemma eq_nil_of_map_eq_nil {α β : Type} (f : α → β) (l : List α)
    (h : l.map f = []) : l = [] := by
  cases l with
  | nil => rfl
  | cons a t => exact List.noConfusion h

/-- `_legal_play_actions_for_cards` never returns an empty list on a
non-empty hand: the mandatory lead gives a singleton, and the eligible /
must-beat chain always falls through to a non-empty set. -/
lemma legal_play_ne_nil (s : EngineSt) (cards : List Card) (hne : cards ≠ []) :
    legal_play_actions_for_cards s cards ≠ [] := by
  simp only [legal_play_actions_for_cards]
  rw [if_neg hne]
  by_cases hct : s.gs.current_trick = []
  · rw [if_pos hct]
    intro hcon
    split at hcon
    · exact List.noConfusion hcon
    · exact hne (eq_nil_of_map_eq_nil _ _ hcon)
  · rw [if_neg hct]
    intro hcon
    replace hcon := eq_nil_of_map_eq_nil _ _ hcon
    split at hcon
    · split at hcon
      · rename_i h1
        split at hcon
        · rename_i hb
          exact hb hcon
        · exact h1 hcon
      · split at hcon
        · rename_i h2
          split at hcon
          · rename_i hb
            exact hb hcon
          · exact h2 hcon
        · split at hcon
          · rename_i hb
            exact hb hcon
          · exact hne hcon
    · split at hcon
      · rename_i h1
        exact h1 hcon
      · split at hcon
        · rename_i h2
          exact h2 hcon
        · exact hne hcon

/-- The actor pending in the Play phase still holds at least one card: it
has not yet played into the current trick, so the hand equation leaves it
`3 - tricks ≥ 1` cards. -/
lemma obs_play_hand_ne (s : EngineSt) (a : Actor) (hPl : PlayInv s)
    (hm : a ∈ activeParticipants s)
    (hseg : ∃ i0, i0 < (activeParticipants s).length ∧
      s.gs.current_trick.map Prod.fst ++ [a]
        = (rot (activeParticipants s) i0).take (s.gs.current_trick.length + 1)) :
    handOf s a ≠ [] := by
  obtain ⟨i0, _, hseq⟩ := hseg
  have hnodup : (s.gs.current_trick.map Prod.fst ++ [a]).Nodup := by
    rw [hseq]
    exact (List.take_sublist _ _).nodup (rot_nodup _ _ (AP_nodup s))
  have hnotin : a ∉ s.gs.current_trick.map Prod.fst := by
    rcases List.nodup_append.1 hnodup with ⟨_, _, hdisj⟩
    intro hc
    exact hdisj hc (List.mem_singleton.2 rfl)
  obtain ⟨htr2, _, _, hhand, _⟩ := hPl
  have h0 := hhand a hm
  rw [if_neg hnotin] at h0
  intro hcon
  rw [hcon] at h0
  simp only [List.length_nil] at h0
  omega

/-- C8 — Actor/legality invariant: in every reachable engine state the
pending actor is `none` only in the terminal FINE phase, and whenever an
actor is pending, `legal_actions` returns a non-empty list. -/
theorem C8_actor_legality (s : EngineSt) (h : Reachable s) :
    (s.current_actor = none → s.phase = .fine) ∧
    (∀ a, s.current_actor = some a → legal_actions s ≠ []) := by
  obtain ⟨⟨hS, hC, hP⟩, hX⟩ := reachable_obs s h
  constructor
  · intro hact
    have hX2 := hX
    unfold ObsX at hX2
    rw [hact] at hX2
    cases hph : s.phase <;> rw [hph] at hX2
    all_goals exact False.elim hX2
  · intro a hact
    cases hph : s.phase
    case deal_decide =>
      obtain ⟨hk, _, _, _⟩ := ObsX_deal_elim s a hph hact hX
      unfold legal_actions
      rw [hact, hph]
      dsimp only
      simp [hk]
    case cambi =>
      obtain ⟨hk, _, _⟩ := ObsX_cambi_elim s a hph hact hX
      unfold legal_actions
      rw [hact, hph]
      dsimp only
      simp [hk]
    case buchi_entry =>
      obtain ⟨hk, _, _, hflag⟩ := ObsX_bentry_elim s a hph hact hX
      have hflag2 := (ObsX_bentry_elim s a hph hact hX).2.2.1
      unfold legal_actions
      rw [hact, hph]
      dsimp only
      simp [hk, hflag2]
    case buchi_discard =>
      obtain ⟨hk, _, _, hc4⟩ := ObsX_bdiscard_elim s a hph hact hX
      unfold legal_actions
      rw [hact, hph]
      dsimp only
      simp [hk, hc4]
    case play =>
      obtain ⟨hm, hseg⟩ := ObsX_play_elim s a hph hact hX
      have hPl := PhaseInv_play_elim s hph hP
      have hhand := obs_play_hand_ne s a hPl hm hseg
      unfold legal_actions
      rw [hact, hph]
      dsimp only
      obtain ⟨ak, aid⟩ := a
      cases ak
      case player =>
        rw [if_pos rfl]
        exact legal_play_ne_nil s _ hhand
      case buco =>
        rw [if_neg (fun hc => ActorKind.noConfusion hc)]
        have hid := (AP_mem_buco_iff s hS aid).1 hm
        obtain ⟨p, hpl, hpn, hin, hnp⟩ :=
          hS.buco_mem (s.gs.buchi[aid]) (List.getElem_mem _)
        have hbne : (bucoAt s.gs aid).players ≠ [] := by
          dsimp only [bucoAt]
          rw [getD_lt _ _ hid, hpl]
          exact fun hc => List.noConfusion hc
        rw [if_pos hbne]
        exact legal_play_ne_nil s _ hhand
    case settle =>
      have hX2 := hX
      unfold ObsX at hX2
      rw [hph, hact] at hX2
      exact False.elim hX2
    case fine =>
      have hX2 := hX
      unfold ObsX at hX2
      rw [hph, hact] at hX2
      exact False.elim hX2

/-! ## Concrete reachable states for the C1 and C8 witnesses -/

/-- The observable state right after construction: 3 players, the
unshuffled 40-card deck, pot 300, dealer 0. -/
def c1s0 : EngineSt :=
  ((initE full40 [("A", 50), ("B", 50), ("C", 50)] 300 0 40).toOption).getD default

/-- After seat 1 keeps. -/
def c1s1 : EngineSt := ((stepE 40 c1s0 .keep).toOption).getD default

/-- After seat 2 also keeps. -/
def c1s2 : EngineSt := ((stepE 40 c1s1 .keep).toOption).getD default

/-- After the dealer also keeps: the Cambi phase begins. -/
def c1s3 : EngineSt := ((stepE 40 c1s2 .keep).toOption).getD default

/-- After the first Cambi actor exchanges one card: `_step_cambi` has
dropped the exchanged-out card on the floor. -/
def c1s4 : EngineSt := ((stepE 40 c1s3 (.change_card 0)).toOption).getD default

/-- Witness for C8 at a concrete reachable state (the first deal decision
of the canonical 3-player game). -/
theorem C8_actor_legality_witness :
    ((c1s1.current_actor = none → c1s1.phase = .fine) ∧
     (∀ a, c1s1.current_actor = some a → legal_actions c1s1 ≠ [])) :=
  C8_actor_legality c1s1
    (Reachable.next c1s0 .keep 40 c1s1
      (Reachable.init full40 [("A", 50), ("B", 50), ("C", 50)] 300 0 40 c1s0
        (List.Perm.refl _) rfl) rfl)

/-! ## C1: card conservation -/

/-- C1 — counterexample: card conservation fails as stated.  The state
reached from a fresh 3-player hand by three `keep` decisions and one
one-card Cambi exchange is reachable, yet the live partition (deck, hands,
buco hands, tricks, current trick, trump) holds only 39 of the 40 cards:
`_step_cambi` removes the exchanged-out card from the player's hand without
returning it to the deck or to any other tracked zone. -/
theorem C1_counterexample : Reachable c1s4 ∧ ¬ CardConservation c1s4 := by
  constructor
  · exact Reachable.next c1s3 (.change_card 0) 40 c1s4
      (Reachable.next c1s2 .keep 40 c1s3
        (Reachable.next c1s1 .keep 40 c1s2
          (Reachable.next c1s0 .keep 40 c1s1
            (Reachable.init full40 [("A", 50), ("B", 50), ("C", 50)] 300 0 40 c1s0
              (List.Perm.refl _) rfl) rfl) rfl) rfl) rfl
  · intro hcon
    simp only [CardConservation] at hcon
    have hcard := congrArg Multiset.card hcon
    have h39 : Multiset.card (liveCards c1s4) = 39 := by decide
    have h40 : Multiset.card full40MS = 40 := by decide
    omega

/-- C1 — amended: at every reachable point, the live partition together
with the ghost multiset of silently dropped cards (Cambi exchange
discards, Buco fifth-card discards) is exactly the full 40-card deck; in
the SETTLE and FINE phases the stale `current_trick` buffer — which then
duplicates the already-archived final trick — is excluded from the
partition. -/
theorem C1_conservation_ghost (s : EngineSt) (h : Reachable s) :
    (s.phase ≠ .settle → s.phase ≠ .fine →
      liveCards s + (s.gs.ghost_removed : Multiset Card) = full40MS) ∧
    (s.phase = .settle ∨ s.phase = .fine →
      coreCards s + (s.gs.ghost_removed : Multiset Card) = full40MS) := by
  have hC := (reachable_obs s h).1.2.1
  exact ⟨fun h1 h2 => ConsInv_other_elim s h1 h2 hC,
         fun h12 => ConsInv_core_elim s h12 hC⟩

/-- Witness for the amended C1 at the concrete freshly-constructed
3-player state. -/
theorem C1_conservation_ghost_witness :
    ((c1s0.phase ≠ .settle → c1s0.phase ≠ .fine →
      liveCards c1s0 + (c1s0.gs.ghost_removed : Multiset Card) = full40MS) ∧
     (c1s0.phase = .settle ∨ c1s0.phase = .fine →
      coreCards c1s0 + (c1s0.gs.ghost_removed : Multiset Card) = full40MS)) :=
  C1_conservation_ghost c1s0
    (Reachable.init full40 [("A", 50), ("B", 50), ("C", 50)] 300 0 40 c1s0
      (List.Perm.refl _) rfl)

end Bestia
